import Mathlib

/-!
User lifecycle service of go-kit-base.

A shallow embedding of `src/internal/service/user_service.go`.

* The service is written against the `repository.UserRepository` interface, so
  every service function below takes the repository as a record of operations
  over an arbitrary state type `σ` and threads that state through the calls in
  the order the Go code makes them.
* `recording` wraps a repository so that it logs every call it receives (the
  role `MockUserRepository` plays in the Go tests); statements of the form
  "`Create` is never called" are statements about that log.
* `Store` is a relational table with soft delete, following section 4.1 of the
  specification; `storeRepo` is the repository over it.
-/

namespace GoKitBase

/-! ## Data model -/

/-- Modelled from the spec: Go `error` values that reach the service. The
package declaring the repository is not part of the sources, so the kinds are
those of the specification's taxonomy: `New msg` is `errors.New(msg)`,
`ErrRecordNotFound` is `gorm.ErrRecordNotFound`, `ConstraintViolation` is a
unique-index rejection and `Failure msg` is any other storage or hashing
failure (for example a lost connection). -/
inductive Error where
  | New (msg : String)
  | ErrRecordNotFound
  | ConstraintViolation
  | Failure (msg : String)
deriving DecidableEq, Repr

instance {ε α : Type} [DecidableEq ε] [DecidableEq α] : DecidableEq (Except ε α)
  | .ok a, .ok b => if h : a = b then isTrue (by rw [h]) else isFalse (by intro e; cases e; exact h rfl)
  | .error a, .error b =>
    if h : a = b then isTrue (by rw [h]) else isFalse (by intro e; cases e; exact h rfl)
  | .ok _, .error _ => isFalse (by intro e; cases e)
  | .error _, .ok _ => isFalse (by intro e; cases e)

/-- Modelled from the spec: `model.User` (section 3). Times are instants of a
discrete clock; `DeletedAt = none` is a row that is not deleted. -/
structure User where
  ID : Nat
  Username : String
  Email : String
  Password : String
  CreatedAt : Nat
  UpdatedAt : Nat
  DeletedAt : Option Nat
deriving DecidableEq, Repr

/-- Modelled from the spec: `model.CreateUserRequest`. -/
structure CreateUserRequest where
  Username : String
  Email : String
  Password : String
deriving DecidableEq, Repr

/-- Modelled from the spec: `model.UpdateUserRequest`; an omitted field is the
empty string. -/
structure UpdateUserRequest where
  Username : String
  Email : String
deriving DecidableEq, Repr

/-- Modelled from the spec: `model.UserResponse`, with the five fields that
`toUserResponse` fills. -/
structure UserResponse where
  ID : Nat
  Username : String
  Email : String
  CreatedAt : Nat
  UpdatedAt : Nat
deriving DecidableEq, Repr

/-- A Go slice value: the `nil` slice or a slice holding `elems`. -/
inductive Slice (α : Type) where
  | null
  | elems (xs : List α)
deriving DecidableEq, Repr

/-- Elements of a slice; ranging over the `nil` slice visits nothing. -/
def Slice.toList {α : Type} : Slice α → List α
  | .null => []
  | .elems xs => xs

/-- Go `append(s, x)`: appending to the `nil` slice allocates. -/
def Slice.append {α : Type} : Slice α → α → Slice α
  | .null, x => .elems [x]
  | .elems xs, x => .elems (xs ++ [x])

/-! ## The repository interface -/

/-- Modelled from the spec: the `repository.UserRepository` interface as the
service uses it, over a repository state `σ`. A getter answers
`(*model.User, error)` with exactly one of the two non-nil, which is
`Except Error User`. `Create` and `Update` receive a pointer and may write to
the pointed user (the store fills `ID` and the timestamps), so they answer the
user as it is after the call together with the `error`. -/
structure UserRepository (σ : Type) where
  Create : User → σ → (User × Option Error) × σ
  GetByID : Nat → σ → Except Error User × σ
  GetByEmail : String → σ → Except Error User × σ
  GetByUsername : String → σ → Except Error User × σ
  Update : User → σ → (User × Option Error) × σ
  Delete : Nat → σ → Option Error × σ
  List : Int → Int → σ → (Slice User × Option Error) × σ

/-- One call received by a repository. -/
inductive Call where
  | Create (user : User)
  | GetByID (id : Nat)
  | GetByEmail (email : String)
  | GetByUsername (username : String)
  | Update (user : User)
  | Delete (id : Nat)
  | List (limit offset : Int)
deriving DecidableEq, Repr

/-- The repository `repo` with a log of the calls made to it, in order. -/
def recording {σ : Type} (repo : UserRepository σ) : UserRepository (σ × List Call) where
  Create user st :=
    let r := repo.Create user st.1
    (r.1, (r.2, st.2 ++ [Call.Create user]))
  GetByID id st :=
    let r := repo.GetByID id st.1
    (r.1, (r.2, st.2 ++ [Call.GetByID id]))
  GetByEmail email st :=
    let r := repo.GetByEmail email st.1
    (r.1, (r.2, st.2 ++ [Call.GetByEmail email]))
  GetByUsername username st :=
    let r := repo.GetByUsername username st.1
    (r.1, (r.2, st.2 ++ [Call.GetByUsername username]))
  Update user st :=
    let r := repo.Update user st.1
    (r.1, (r.2, st.2 ++ [Call.Update user]))
  Delete id st :=
    let r := repo.Delete id st.1
    (r.1, (r.2, st.2 ++ [Call.Delete id]))
  List limit offset st :=
    let r := repo.List limit offset st.1
    (r.1, (r.2, st.2 ++ [Call.List limit offset]))

/-- Whether a logged call writes to the repository. -/
def Call.isWrite : Call → Bool
  | .Create _ => true
  | .Update _ => true
  | .Delete _ => true
  | _ => false

/-! ## The service (`user_service.go`) -/

/-- The function `toUserResponse`. -/
def toUserResponse (user : User) : UserResponse :=
  { ID := user.ID
    Username := user.Username
    Email := user.Email
    CreatedAt := user.CreatedAt
    UpdatedAt := user.UpdatedAt }

/-- The function `CreateUser`. `hash` stands for
`bcrypt.GenerateFromPassword(·, bcrypt.DefaultCost)`. Both lookups discard
their error (`existingUser, _ := ...`) and test only `existingUser != nil`. -/
def CreateUser {σ : Type} (repo : UserRepository σ) (hash : String → Except Error String)
    (req : CreateUserRequest) (s : σ) : Except Error UserResponse × σ :=
  match repo.GetByEmail req.Email s with
  | (.ok _, s1) => (.error (Error.New "email already exists"), s1)
  | (.error _, s1) =>
    match repo.GetByUsername req.Username s1 with
    | (.ok _, s2) => (.error (Error.New "username already exists"), s2)
    | (.error _, s2) =>
      match hash req.Password with
      | .error err => (.error err, s2)
      | .ok hashedPassword =>
        let user : User :=
          { ID := 0, Username := req.Username, Email := req.Email, Password := hashedPassword,
            CreatedAt := 0, UpdatedAt := 0, DeletedAt := none }
        match repo.Create user s2 with
        | ((_, some err), s3) => (.error err, s3)
        | ((user, none), s3) => (.ok (toUserResponse user), s3)

/-- The function `GetUser`. -/
def GetUser {σ : Type} (repo : UserRepository σ) (id : Nat) (s : σ) :
    Except Error UserResponse × σ :=
  match repo.GetByID id s with
  | (.error err, s1) => (.error err, s1)
  | (.ok user, s1) => (.ok (toUserResponse user), s1)

/-- The username block of `UpdateUser` (lines 76-83): `none` is the early
return with "username already exists", `some user` is falling through. -/
def applyUsername {σ : Type} (repo : UserRepository σ) (id : Nat) (req : UpdateUserRequest)
    (user : User) (s : σ) : Option User × σ :=
  if req.Username ≠ "" then
    match repo.GetByUsername req.Username s with
    | (.ok existingUser, s1) =>
      if existingUser.ID ≠ id then (none, s1)
      else (some { user with Username := req.Username }, s1)
    | (.error _, s1) => (some { user with Username := req.Username }, s1)
  else (some user, s)

/-- The email block of `UpdateUser` (lines 85-92): `none` is the early return
with "email already exists", `some user` is falling through. -/
def applyEmail {σ : Type} (repo : UserRepository σ) (id : Nat) (req : UpdateUserRequest)
    (user : User) (s : σ) : Option User × σ :=
  if req.Email ≠ "" then
    match repo.GetByEmail req.Email s with
    | (.ok existingUser, s1) =>
      if existingUser.ID ≠ id then (none, s1)
      else (some { user with Email := req.Email }, s1)
    | (.error _, s1) => (some { user with Email := req.Email }, s1)
  else (some user, s)

/-- The function `UpdateUser`. -/
def UpdateUser {σ : Type} (repo : UserRepository σ) (id : Nat) (req : UpdateUserRequest)
    (s : σ) : Except Error UserResponse × σ :=
  match repo.GetByID id s with
  | (.error err, s1) => (.error err, s1)
  | (.ok user, s1) =>
    match applyUsername repo id req user s1 with
    | (none, s2) => (.error (Error.New "username already exists"), s2)
    | (some user, s2) =>
      match applyEmail repo id req user s2 with
      | (none, s3) => (.error (Error.New "email already exists"), s3)
      | (some user, s3) =>
        match repo.Update user s3 with
        | ((_, some err), s4) => (.error err, s4)
        | ((user, none), s4) => (.ok (toUserResponse user), s4)

/-- The lookups the username block of `UpdateUser` makes. -/
def usernameCalls (req : UpdateUserRequest) : List Call :=
  if req.Username ≠ "" then [Call.GetByUsername req.Username] else []

/-- The lookups the email block of `UpdateUser` makes. -/
def emailCalls (req : UpdateUserRequest) : List Call :=
  if req.Email ≠ "" then [Call.GetByEmail req.Email] else []

/-- The function `DeleteUser`. -/
def DeleteUser {σ : Type} (repo : UserRepository σ) (id : Nat) (s : σ) : Option Error × σ :=
  repo.Delete id s

/-- The function `ListUsers`: `responses` starts as the `nil` slice and grows
by one `append` per returned user. -/
def ListUsers {σ : Type} (repo : UserRepository σ) (limit offset : Int) (s : σ) :
    (Slice UserResponse × Option Error) × σ :=
  match repo.List limit offset s with
  | ((_, some err), s1) => ((Slice.null, some err), s1)
  | ((users, none), s1) =>
    ((users.toList.foldl (fun responses user => responses.append (toUserResponse user)) Slice.null,
      none), s1)

/-! ## The store behind the repository (specification, section 4.1) -/

/-- Modelled from the spec: the backing table of `user_repository.go` (that
file is not part of the sources). `rows` holds every row ever inserted, soft
deleted ones included, in insertion order; `now` is the store clock. -/
structure Store where
  rows : List User
  now : Nat
deriving DecidableEq, Repr

/-- A row that is not soft-deleted. -/
def User.live (u : User) : Bool := u.DeletedAt.isNone

/-- Modelled from the spec: the id the store assigns next ("unique,
store-assigned, monotonic"): one more than the largest id in the table, so the
first row gets id 1. -/
def Store.nextID (s : Store) : Nat := (s.rows.map User.ID).foldr max 0 + 1

/-- Modelled from the spec: `GetByID` "returns the non-deleted row matching
`id`. Fails with `NotFound` if absent or soft-deleted." -/
def Store.GetByID (id : Nat) (s : Store) : Except Error User :=
  match s.rows.find? (fun r => r.live && r.ID == id) with
  | some r => .ok r
  | none => .error Error.ErrRecordNotFound

/-- Modelled from the spec: `GetByEmail` is an "exact, case-sensitive match
against non-deleted rows. Fails with `NotFound` otherwise." -/
def Store.GetByEmail (email : String) (s : Store) : Except Error User :=
  match s.rows.find? (fun r => r.live && r.Email == email) with
  | some r => .ok r
  | none => .error Error.ErrRecordNotFound

/-- Modelled from the spec: `GetByUsername`, "same contract, keyed by
username". -/
def Store.GetByUsername (username : String) (s : Store) : Except Error User :=
  match s.rows.find? (fun r => r.live && r.Username == username) with
  | some r => .ok r
  | none => .error Error.ErrRecordNotFound

/-- Modelled from the spec: `Create` "inserts a new row; store assigns `id`,
`created_at`, `updated_at`. Fails with `ConstraintViolation` if `username` or
`email` collides with a non-deleted row." -/
def Store.Create (user : User) (s : Store) : (User × Option Error) × Store :=
  if s.rows.any (fun r => r.live && (r.Username == user.Username || r.Email == user.Email)) then
    ((user, some Error.ConstraintViolation), s)
  else
    let row : User := { user with ID := s.nextID, CreatedAt := s.now, UpdatedAt := s.now }
    ((row, none), { rows := s.rows ++ [row], now := s.now + 1 })

/-- Modelled from the spec: `Update` "persists mutated fields for a row
identified by `user.id`; refreshes `updated_at`"; for an id with no row it
inserts the row (the upsert of section 9, seen in `TestUpdate_NonExistent`).
Section 4.1 names no failure for `Update`, and it makes no uniqueness check of
its own here. -/
def Store.Update (user : User) (s : Store) : (User × Option Error) × Store :=
  let row : User := { user with UpdatedAt := s.now }
  if s.rows.any (fun r => r.ID == user.ID) then
    ((row, none), { rows := s.rows.map (fun r => if r.ID == user.ID then row else r),
                    now := s.now + 1 })
  else
    ((row, none), { rows := s.rows ++ [row], now := s.now + 1 })

/-- Modelled from the spec: `Delete` "sets `deleted_at` on the matching row;
never errors if the row does not exist". -/
def Store.Delete (id : Nat) (s : Store) : Option Error × Store :=
  (none, { rows := s.rows.map (fun r =>
             if r.live && r.ID == id then { r with DeletedAt := some s.now } else r),
           now := s.now + 1 })

/-- Modelled from the spec: `List` "returns non-deleted rows ordered by
insertion order (store-assigned id ascending), skipping `offset`, returning at
most `limit`"; the result is an allocated slice, empty when nothing matches. -/
def Store.List (limit offset : Int) (s : Store) : (Slice User × Option Error) × Store :=
  ((Slice.elems ((((s.rows.filter User.live).insertionSort (fun a b => a.ID ≤ b.ID)).drop
      offset.toNat).take limit.toNat), none), s)

/-- Modelled from the spec: the repository of section 4.1 over `Store`; the
three getters read without changing the table. -/
def storeRepo : UserRepository Store where
  Create := Store.Create
  GetByID id s := (s.GetByID id, s)
  GetByEmail email s := (s.GetByEmail email, s)
  GetByUsername username s := (s.GetByUsername username, s)
  Update := Store.Update
  Delete := Store.Delete
  List := Store.List

/-- The primary key: no two rows of the table, deleted or not, share an id. -/
def Store.PrimaryKey (s : Store) : Prop :=
  s.rows.Pairwise (fun a b => a.ID ≠ b.ID)

/-- The uniqueness invariant of section 3: no two non-deleted rows share a
username and no two share an email. -/
def Store.Unique (s : Store) : Prop :=
  s.rows.Pairwise (fun a b => a.live = true → b.live = true →
    a.Username ≠ b.Username ∧ a.Email ≠ b.Email)

instance (s : Store) : Decidable s.PrimaryKey := by
  unfold Store.PrimaryKey; infer_instance

instance (s : Store) : Decidable s.Unique := by
  unfold Store.Unique; infer_instance

/-- One call of a writing service operation. -/
inductive Op where
  | create (req : CreateUserRequest)
  | update (id : Nat) (req : UpdateUserRequest)
  | delete (id : Nat)
deriving DecidableEq, Repr

/-- The store after the service call `op`, whether the call succeeded or
failed. -/
def Op.run (hash : String → Except Error String) : Op → Store → Store
  | .create req, s => (CreateUser storeRepo hash req s).2
  | .update id req, s => (UpdateUser storeRepo id req s).2
  | .delete id, s => (DeleteUser storeRepo id s).2

/-! ## Sample data -/

/-- A hasher that always succeeds. -/
def sampleHash (password : String) : Except Error String := .ok ("$2a$10$" ++ password)

/-- A hasher that always fails. -/
def failingHash (_ : String) : Except Error String := .error (Error.Failure "bcrypt: no entropy")

/-- The row of user alice, id 1. -/
def alice : User :=
  { ID := 1, Username := "alice", Email := "a@x.com", Password := "$2a$10$secret123",
    CreatedAt := 0, UpdatedAt := 0, DeletedAt := none }

/-- The row of user bob, id 2. -/
def bob : User :=
  { ID := 2, Username := "bob", Email := "b@x.com", Password := "$2a$10$hunter2",
    CreatedAt := 1, UpdatedAt := 1, DeletedAt := none }

/-- A table holding alice and bob. -/
def sampleStore : Store := { rows := [alice, bob], now := 2 }

/-- The repository over `Store` with a backing store that cannot be reached
for lookups by email or username: both fail with a connection error. -/
def unreachableLookups : UserRepository Store :=
  { storeRepo with
    GetByEmail := fun _ s => (.error (Error.Failure "connection refused"), s)
    GetByUsername := fun _ s => (.error (Error.Failure "connection refused"), s) }

/-- A table with no rows. -/
def Store.empty : Store := { rows := [], now := 0 }

/-- The table after the service calls `ops`, made one after the other. -/
def runOps (hash : String → Except Error String) (ops : List Op) (s : Store) : Store :=
  ops.foldl (fun st op => op.run hash st) s

/-- The responses of the `CreateUser` calls among `ops` that succeeded, in call
order, together with the table after all of `ops`. -/
def createdBy (hash : String → Except Error String) :
    List CreateUserRequest → Store → List UserResponse × Store
  | [], s => ([], s)
  | req :: reqs, s =>
    match CreateUser storeRepo hash req s with
    | (.ok resp, s1) => (resp :: (createdBy hash reqs s1).1, (createdBy hash reqs s1).2)
    | (.error _, s1) => createdBy hash reqs s1

/-- The repository over `Store` with an `Update` that fails on a lost
connection and writes nothing. -/
def failingUpdate : UserRepository Store :=
  { storeRepo with
    Update := fun user s => ((user, some (Error.Failure "connection lost")), s) }

/-- A table whose only row holds the email `Test@Example.com`, as in
`TestGetByEmail_CaseSensitive`. -/
def mixedCaseStore : Store :=
  { rows := [{ ID := 1, Username := "testuser", Email := "Test@Example.com",
               Password := "$2a$10$password", CreatedAt := 0, UpdatedAt := 0,
               DeletedAt := none }],
    now := 1 }

/-- Requests for the users `user0`, `user1`, ... of the repository tests. -/
def sampleRequests (n : Nat) : List CreateUserRequest :=
  (List.range n).map (fun i =>
    { Username := "user" ++ toString i, Email := "user" ++ toString i ++ "@example.com",
      Password := "password" })

/-- Rows in insertion order carry strictly increasing ids. -/
def Store.Ascending (s : Store) : Prop :=
  s.rows.Pairwise (fun a b => a.ID < b.ID)

/-- Whether a service call is an `UpdateUser` call. -/
def Op.isUpdate : Op → Bool
  | .update _ _ => true
  | _ => false

/-! ## The handlers (`user_handler.go`) -/

/-- The method `Error()` of a Go `error`: its message. The message of
`gorm.ErrRecordNotFound` is "record not found". -/
def Error.message : Error → String
  | .New msg => msg
  | .ErrRecordNotFound => "record not found"
  | .ConstraintViolation => "UNIQUE constraint failed"
  | .Failure msg => msg

/-- The interface `UserService` (lines 13-19 of `user_service.go`), over a
state `σ`; the handlers are written against it. -/
structure UserService (σ : Type) where
  CreateUser : CreateUserRequest → σ → Except Error UserResponse × σ
  GetUser : Nat → σ → Except Error UserResponse × σ
  UpdateUser : Nat → UpdateUserRequest → σ → Except Error UserResponse × σ
  DeleteUser : Nat → σ → Option Error × σ
  ListUsers : Int → Int → σ → (Slice UserResponse × Option Error) × σ

/-- The function `NewUserService`: the service of `user_service.go` over a
repository, with `hash` standing for `bcrypt.GenerateFromPassword`. -/
def NewUserService {σ : Type} (repo : UserRepository σ) (hash : String → Except Error String) :
    UserService σ where
  CreateUser := CreateUser repo hash
  GetUser := GetUser repo
  UpdateUser := UpdateUser repo
  DeleteUser := DeleteUser repo
  ListUsers := ListUsers repo

/-- One call received by a service. -/
inductive ServiceCall where
  | CreateUser (req : CreateUserRequest)
  | GetUser (id : Nat)
  | UpdateUser (id : Nat) (req : UpdateUserRequest)
  | DeleteUser (id : Nat)
  | ListUsers (limit offset : Int)
deriving DecidableEq, Repr

/-- The service `svc` with a log of the calls made to it, in order (the role
of `MockUserService` in the handler tests). -/
def recordingService {σ : Type} (svc : UserService σ) : UserService (σ × List ServiceCall) where
  CreateUser req st :=
    let r := svc.CreateUser req st.1
    (r.1, (r.2, st.2 ++ [ServiceCall.CreateUser req]))
  GetUser id st :=
    let r := svc.GetUser id st.1
    (r.1, (r.2, st.2 ++ [ServiceCall.GetUser id]))
  UpdateUser id req st :=
    let r := svc.UpdateUser id req st.1
    (r.1, (r.2, st.2 ++ [ServiceCall.UpdateUser id req]))
  DeleteUser id st :=
    let r := svc.DeleteUser id st.1
    (r.1, (r.2, st.2 ++ [ServiceCall.DeleteUser id]))
  ListUsers limit offset st :=
    let r := svc.ListUsers limit offset st.1
    (r.1, (r.2, st.2 ++ [ServiceCall.ListUsers limit offset]))

/-- What a handler reads from `*fiber.Ctx`: `c.Params("id")`, `c.Query("limit")`
and `c.Query("offset")` (the empty string when the parameter is absent) and the
request body. -/
structure Ctx where
  id : String
  limit : String
  offset : String
  body : String
deriving DecidableEq, Repr

/-- The framework functions the handlers call on a body: `c.BodyParser(&req)`
(`none` when it returns an error) and `h.validator.Struct(&req)` (`some msg`
when it returns an error with message `msg`), for each of the two request
types. -/
structure Web where
  parseCreate : String → Option CreateUserRequest
  validateCreate : CreateUserRequest → Option String
  parseUpdate : String → Option UpdateUserRequest
  validateUpdate : UpdateUserRequest → Option String

/-- The JSON body a handler writes: `fiber.Map{"error": msg}`, a
`UserResponse`, `fiber.Map{"profile": user}`, the map with `users`, `limit`
and `offset`, or no body (`c.SendStatus`). -/
inductive Body where
  | error (msg : String)
  | user (user : UserResponse)
  | profile (user : UserResponse)
  | users (users : Slice UserResponse) (limit offset : Int)
  | empty
deriving DecidableEq, Repr

/-- The HTTP response of a handler. -/
structure Response where
  status : Nat
  body : Body
deriving DecidableEq, Repr

/-- The value of a string of decimal digits, read digit by digit as the loop
of `strconv.ParseUint` does; `none` for a character that is no digit and once
the value exceeds `maxVal`. -/
def parseDigits (maxVal : Nat) (cs : List Char) : Option Nat :=
  cs.foldl (fun acc c =>
    match acc with
    | none => none
    | some n =>
      if '0' ≤ c ∧ c ≤ '9' then
        if n * 10 + (c.toNat - '0'.toNat) > maxVal then none
        else some (n * 10 + (c.toNat - '0'.toNat))
      else none) (some 0)

/-- The library function `strconv.ParseUint(s, 10, bitSize)`: `none` when it
returns an error (empty string, a character that is no decimal digit, such as
a sign, or a value above `2^bitSize - 1`). -/
def ParseUint (s : String) (bitSize : Nat) : Option Nat :=
  if s = "" then none else parseDigits (2 ^ bitSize - 1) s.toList

/-- The library function `strconv.Atoi(s)` for a 64-bit `int`: an optional
sign followed by at least one decimal digit, with a value from `-2^63` to
`2^63 - 1`; `none` when it returns an error. -/
def Atoi (s : String) : Option Int :=
  match s.toList with
  | [] => none
  | '-' :: cs =>
    if cs = [] then none
    else match parseDigits (2 ^ 63) cs with
      | some n => some (-(n : Int))
      | none => none
  | '+' :: cs =>
    if cs = [] then none
    else match parseDigits (2 ^ 63 - 1) cs with
      | some n => some (n : Int)
      | none => none
  | cs =>
    match parseDigits (2 ^ 63 - 1) cs with
    | some n => some (n : Int)
    | none => none

namespace Handler

/-- The handler `CreateUser`. -/
def CreateUser {σ : Type} (web : Web) (svc : UserService σ) (c : Ctx) (s : σ) : Response × σ :=
  match web.parseCreate c.body with
  | none => ({ status := 400, body := .error "Invalid request body" }, s)
  | some req =>
    match web.validateCreate req with
    | some msg => ({ status := 400, body := .error msg }, s)
    | none =>
      match svc.CreateUser req s with
      | (.error err, s1) => ({ status := 409, body := .error err.message }, s1)
      | (.ok user, s1) => ({ status := 201, body := .user user }, s1)

/-- The handler `GetUser`. -/
def GetUser {σ : Type} (svc : UserService σ) (c : Ctx) (s : σ) : Response × σ :=
  match ParseUint c.id 32 with
  | none => ({ status := 400, body := .error "Invalid user ID" }, s)
  | some id =>
    match svc.GetUser id s with
    | (.error _, s1) => ({ status := 404, body := .error "User not found" }, s1)
    | (.ok user, s1) => ({ status := 200, body := .user user }, s1)

/-- The handler `UpdateUser`. -/
def UpdateUser {σ : Type} (web : Web) (svc : UserService σ) (c : Ctx) (s : σ) : Response × σ :=
  match ParseUint c.id 32 with
  | none => ({ status := 400, body := .error "Invalid user ID" }, s)
  | some id =>
    match web.parseUpdate c.body with
    | none => ({ status := 400, body := .error "Invalid request body" }, s)
    | some req =>
      match web.validateUpdate req with
      | some msg => ({ status := 400, body := .error msg }, s)
      | none =>
        match svc.UpdateUser id req s with
        | (.error err, s1) => ({ status := 409, body := .error err.message }, s1)
        | (.ok user, s1) => ({ status := 200, body := .user user }, s1)

/-- The handler `DeleteUser`. -/
def DeleteUser {σ : Type} (svc : UserService σ) (c : Ctx) (s : σ) : Response × σ :=
  match ParseUint c.id 32 with
  | none => ({ status := 400, body := .error "Invalid user ID" }, s)
  | some id =>
    match svc.DeleteUser id s with
    | (some _, s1) => ({ status := 404, body := .error "User not found" }, s1)
    | (none, s1) => ({ status := 204, body := .empty }, s1)

/-- The `limit` that the handler `ListUsers` passes on: 10 unless the query
string is non-empty and `Atoi` reads a value above 0 from it (lines 187-194). -/
def effectiveLimit (limitStr : String) : Int :=
  if limitStr ≠ "" then
    match Atoi limitStr with
    | some l => if l > 0 then l else 10
    | none => 10
  else 10

/-- The `offset` that the handler `ListUsers` passes on: 0 unless the query
string is non-empty and `Atoi` reads a value of at least 0 from it (lines
188-200). -/
def effectiveOffset (offsetStr : String) : Int :=
  if offsetStr ≠ "" then
    match Atoi offsetStr with
    | some o => if o ≥ 0 then o else 0
    | none => 0
  else 0

/-- The handler `ListUsers`. -/
def ListUsers {σ : Type} (svc : UserService σ) (c : Ctx) (s : σ) : Response × σ :=
  let limit := effectiveLimit c.limit
  let offset := effectiveOffset c.offset
  match svc.ListUsers limit offset s with
  | ((_, some _), s1) => ({ status := 500, body := .error "Failed to fetch users" }, s1)
  | ((users, none), s1) => ({ status := 200, body := .users users limit offset }, s1)

/-- The handler `GetUserProfile`. -/
def GetUserProfile {σ : Type} (svc : UserService σ) (c : Ctx) (s : σ) : Response × σ :=
  match ParseUint c.id 32 with
  | none => ({ status := 400, body := .error "Invalid user ID" }, s)
  | some id =>
    match svc.GetUser id s with
    | (.error _, s1) => ({ status := 404, body := .error "User not found" }, s1)
    | (.ok user, s1) => ({ status := 200, body := .profile user }, s1)

/-- The handler `UpdateUserProfile`. -/
def UpdateUserProfile {σ : Type} (web : Web) (svc : UserService σ) (c : Ctx) (s : σ) :
    Response × σ :=
  match ParseUint c.id 32 with
  | none => ({ status := 400, body := .error "Invalid user ID" }, s)
  | some id =>
    match web.parseUpdate c.body with
    | none => ({ status := 400, body := .error "Invalid request body" }, s)
    | some req =>
      match web.validateUpdate req with
      | some msg => ({ status := 400, body := .error msg }, s)
      | none =>
        match svc.UpdateUser id req s with
        | (.error err, s1) => ({ status := 409, body := .error err.message }, s1)
        | (.ok user, s1) => ({ status := 200, body := .profile user }, s1)

end Handler

/-- A framework whose body parser reads the sample bodies of this file and
rejects everything else, and whose validator accepts every request. -/
def sampleWeb : Web where
  parseCreate body :=
    if body = "carol" then some { Username := "carol", Email := "c@x.com", Password := "pw" }
    else none
  validateCreate _ := none
  parseUpdate body :=
    if body = "username=alicia" then some { Username := "alicia", Email := "" }
    else if body = "username=bob" then some { Username := "bob", Email := "" }
    else none
  validateUpdate _ := none

/-- The repository over `Store` with a `Create` that fails on a lost
connection and writes nothing. -/
def failingCreate : UserRepository Store :=
  { storeRepo with
    Create := fun user s => ((user, some (Error.Failure "connection lost")), s) }

/-- The number a list of decimal digits writes, most significant digit
first. -/
def decimalValue (cs : List Char) : Nat :=
  cs.foldl (fun n c => n * 10 + (c.toNat - '0'.toNat)) 0

/-- The username step of `UpdateUser` as section 4.2 of the specification
words it: "If `req.username` is non-empty and differs, check for a
conflicting row by username; if found and its id ≠ target id, fail with
`DuplicateUsername`. Otherwise apply." `none` is the failure. -/
def specApplyUsername {σ : Type} (repo : UserRepository σ) (id : Nat) (req : UpdateUserRequest)
    (user : User) (s : σ) : Option User × σ :=
  if req.Username ≠ "" ∧ req.Username ≠ user.Username then
    match repo.GetByUsername req.Username s with
    | (.ok existingUser, s1) =>
      if existingUser.ID ≠ id then (none, s1)
      else (some { user with Username := req.Username }, s1)
    | (.error _, s1) => (some { user with Username := req.Username }, s1)
  else (some user, s)

/-- The email step of `UpdateUser` as section 4.2 of the specification words
it: "If `req.email` is non-empty and differs, same conflict check against
email; fail with `DuplicateEmail` on conflict else apply." -/
def specApplyEmail {σ : Type} (repo : UserRepository σ) (id : Nat) (req : UpdateUserRequest)
    (user : User) (s : σ) : Option User × σ :=
  if req.Email ≠ "" ∧ req.Email ≠ user.Email then
    match repo.GetByEmail req.Email s with
    | (.ok existingUser, s1) =>
      if existingUser.ID ≠ id then (none, s1)
      else (some { user with Email := req.Email }, s1)
    | (.error _, s1) => (some { user with Email := req.Email }, s1)
  else (some user, s)

/-- The operation `UpdateUser` as section 4.2 of the specification words it:
fetch the row, run the username step and the email step, persist through
`Update`, return the projection. -/
def specUpdateUser {σ : Type} (repo : UserRepository σ) (id : Nat) (req : UpdateUserRequest)
    (s : σ) : Except Error UserResponse × σ :=
  match repo.GetByID id s with
  | (.error err, s1) => (.error err, s1)
  | (.ok user, s1) =>
    match specApplyUsername repo id req user s1 with
    | (none, s2) => (.error (Error.New "username already exists"), s2)
    | (some user, s2) =>
      match specApplyEmail repo id req user s2 with
      | (none, s3) => (.error (Error.New "email already exists"), s3)
      | (some user, s3) =>
        match repo.Update user s3 with
        | ((_, some err), s4) => (.error err, s4)
        | ((user, none), s4) => (.ok (toUserResponse user), s4)

/-- A table in which user 1 holds the email `test@example.com` and user 2
another address. -/
def twoCaseStore : Store :=
  { rows := [{ ID := 1, Username := "testuser", Email := "test@example.com",
               Password := "$2a$10$password", CreatedAt := 0, UpdatedAt := 0,
               DeletedAt := none },
             { ID := 2, Username := "other", Email := "other@example.com",
               Password := "$2a$10$password", CreatedAt := 1, UpdatedAt := 1,
               DeletedAt := none }],
    now := 2 }

end GoKitBase

namespace GoKitBase

/-! ## Step lemmas for the service -/

theorem recording_GetByEmail {σ : Type} (repo : UserRepository σ) (email : String) (s : σ)
    (log : List Call) :
    (recording repo).GetByEmail email (s, log) =
      ((repo.GetByEmail email s).1, ((repo.GetByEmail email s).2, log ++ [Call.GetByEmail email])) :=
  rfl

theorem recording_GetByUsername {σ : Type} (repo : UserRepository σ) (username : String) (s : σ)
    (log : List Call) :
    (recording repo).GetByUsername username (s, log) =
      ((repo.GetByUsername username s).1,
        ((repo.GetByUsername username s).2, log ++ [Call.GetByUsername username])) :=
  rfl

theorem recording_GetByID {σ : Type} (repo : UserRepository σ) (id : Nat) (s : σ)
    (log : List Call) :
    (recording repo).GetByID id (s, log) =
      ((repo.GetByID id s).1, ((repo.GetByID id s).2, log ++ [Call.GetByID id])) :=
  rfl

theorem recording_Create {σ : Type} (repo : UserRepository σ) (user : User) (s : σ)
    (log : List Call) :
    (recording repo).Create user (s, log) =
      ((repo.Create user s).1, ((repo.Create user s).2, log ++ [Call.Create user])) :=
  rfl

theorem recording_Update {σ : Type} (repo : UserRepository σ) (user : User) (s : σ)
    (log : List Call) :
    (recording repo).Update user (s, log) =
      ((repo.Update user s).1, ((repo.Update user s).2, log ++ [Call.Update user])) :=
  rfl

/-- `CreateUser` when the email lookup finds a user. -/
theorem CreateUser_of_email_found {σ : Type} (repo : UserRepository σ)
    (hash : String → Except Error String) (req : CreateUserRequest) (s : σ) (existing : User)
    (h : (repo.GetByEmail req.Email s).1 = .ok existing) :
    CreateUser repo hash req s =
      (.error (Error.New "email already exists"), (repo.GetByEmail req.Email s).2) := by
  unfold CreateUser
  rcases hr : repo.GetByEmail req.Email s with ⟨r, s1⟩
  rw [hr] at h
  simp only at h
  subst h
  rfl

/-- `CreateUser` when the email lookup finds nothing and the username lookup
finds a user. -/
theorem CreateUser_of_username_found {σ : Type} (repo : UserRepository σ)
    (hash : String → Except Error String) (req : CreateUserRequest) (s : σ) (e : Error)
    (existing : User) (he : (repo.GetByEmail req.Email s).1 = .error e)
    (hu : (repo.GetByUsername req.Username (repo.GetByEmail req.Email s).2).1 = .ok existing) :
    CreateUser repo hash req s =
      (.error (Error.New "username already exists"),
        (repo.GetByUsername req.Username (repo.GetByEmail req.Email s).2).2) := by
  unfold CreateUser
  rcases hr : repo.GetByEmail req.Email s with ⟨r, s1⟩
  rw [hr] at he hu
  simp only at he hu
  subst he
  rcases hr2 : repo.GetByUsername req.Username s1 with ⟨r2, s2⟩
  rw [hr2] at hu
  simp only at hu
  subst hu
  simp only [hr2]

/-- `CreateUser` once both lookups have found nothing: the outcome is decided
by the hasher and by `Create`. -/
theorem CreateUser_of_unused {σ : Type} (repo : UserRepository σ)
    (hash : String → Except Error String) (req : CreateUserRequest) (s : σ) (e e2 : Error)
    (he : (repo.GetByEmail req.Email s).1 = .error e)
    (hu : (repo.GetByUsername req.Username (repo.GetByEmail req.Email s).2).1 = .error e2) :
    CreateUser repo hash req s =
      match hash req.Password with
      | .error err =>
        (.error err, (repo.GetByUsername req.Username (repo.GetByEmail req.Email s).2).2)
      | .ok hashedPassword =>
        match repo.Create
            { ID := 0, Username := req.Username, Email := req.Email, Password := hashedPassword,
              CreatedAt := 0, UpdatedAt := 0, DeletedAt := none }
            (repo.GetByUsername req.Username (repo.GetByEmail req.Email s).2).2 with
        | ((_, some err), s3) => (.error err, s3)
        | ((user, none), s3) => (.ok (toUserResponse user), s3) := by
  unfold CreateUser
  rcases hr : repo.GetByEmail req.Email s with ⟨r, s1⟩
  rw [hr] at he hu
  simp only at he hu
  subst he
  rcases hr2 : repo.GetByUsername req.Username s1 with ⟨r2, s2⟩
  rw [hr2] at hu
  simp only at hu
  subst hu
  simp only [hr2]

/-- The repository calls `CreateUser` makes, by the outcome of each step. -/
theorem CreateUser_log {σ : Type} (repo : UserRepository σ)
    (hash : String → Except Error String) (req : CreateUserRequest) (s : σ) :
    (CreateUser (recording repo) hash req (s, [])).2.2 =
      match repo.GetByEmail req.Email s with
      | (.ok _, _) => [Call.GetByEmail req.Email]
      | (.error _, s1) =>
        match repo.GetByUsername req.Username s1 with
        | (.ok _, _) => [Call.GetByEmail req.Email, Call.GetByUsername req.Username]
        | (.error _, _) =>
          match hash req.Password with
          | .error _ => [Call.GetByEmail req.Email, Call.GetByUsername req.Username]
          | .ok hashedPassword =>
            [Call.GetByEmail req.Email, Call.GetByUsername req.Username,
              Call.Create
                { ID := 0, Username := req.Username, Email := req.Email,
                  Password := hashedPassword, CreatedAt := 0, UpdatedAt := 0,
                  DeletedAt := none }] := by
  unfold CreateUser
  simp only [recording_GetByEmail]
  rcases hr : repo.GetByEmail req.Email s with ⟨r | r, s1⟩
  · simp only [recording_GetByUsername]
    rcases hr2 : repo.GetByUsername req.Username s1 with ⟨r2 | r2, s2⟩
    · simp only
      cases hh : hash req.Password with
      | error err => rfl
      | ok hashedPassword =>
        simp only [recording_Create]
        rcases hc : repo.Create _ s2 with ⟨⟨u, _ | err⟩, s3⟩ <;> rfl
    · rfl
  · rfl

/-- Logging the calls does not change what `CreateUser` returns or the state
it leaves. -/
theorem CreateUser_recording {σ : Type} (repo : UserRepository σ)
    (hash : String → Except Error String) (req : CreateUserRequest) (s : σ) (log : List Call) :
    (CreateUser (recording repo) hash req (s, log)).1 = (CreateUser repo hash req s).1 ∧
      (CreateUser (recording repo) hash req (s, log)).2.1 = (CreateUser repo hash req s).2 := by
  unfold CreateUser
  simp only [recording_GetByEmail]
  rcases hr : repo.GetByEmail req.Email s with ⟨r | r, s1⟩
  · simp only [recording_GetByUsername]
    rcases hr2 : repo.GetByUsername req.Username s1 with ⟨r2 | r2, s2⟩
    · simp only
      cases hh : hash req.Password with
      | error err => exact ⟨rfl, rfl⟩
      | ok hashedPassword =>
        simp only [recording_Create]
        rcases hc : repo.Create _ s2 with ⟨⟨u, _ | err⟩, s3⟩ <;> exact ⟨rfl, rfl⟩
    · exact ⟨rfl, rfl⟩
  · exact ⟨rfl, rfl⟩

/-- The username block under `recording`: same outcome and state, and one
logged lookup exactly when `req.Username` is non-empty. -/
theorem applyUsername_recording {σ : Type} (repo : UserRepository σ) (id : Nat)
    (req : UpdateUserRequest) (user : User) (s : σ) (log : List Call) :
    applyUsername (recording repo) id req user (s, log) =
      ((applyUsername repo id req user s).1, ((applyUsername repo id req user s).2,
        log ++ if req.Username ≠ "" then [Call.GetByUsername req.Username] else [])) := by
  unfold applyUsername
  by_cases hn : req.Username ≠ ""
  · simp only [if_pos hn, recording_GetByUsername]
    rcases hr : repo.GetByUsername req.Username s with ⟨r | existing, s1⟩
    · rfl
    · by_cases hid : existing.ID ≠ id
      · simp only [if_pos hid]
      · simp only [if_neg hid]
  · simp only [if_neg hn, List.append_nil]

/-- The email block under `recording`: same outcome and state, and one logged
lookup exactly when `req.Email` is non-empty. -/
theorem applyEmail_recording {σ : Type} (repo : UserRepository σ) (id : Nat)
    (req : UpdateUserRequest) (user : User) (s : σ) (log : List Call) :
    applyEmail (recording repo) id req user (s, log) =
      ((applyEmail repo id req user s).1, ((applyEmail repo id req user s).2,
        log ++ if req.Email ≠ "" then [Call.GetByEmail req.Email] else [])) := by
  unfold applyEmail
  by_cases hn : req.Email ≠ ""
  · simp only [if_pos hn, recording_GetByEmail]
    rcases hr : repo.GetByEmail req.Email s with ⟨r | existing, s1⟩
    · rfl
    · by_cases hid : existing.ID ≠ id
      · simp only [if_pos hid]
      · simp only [if_neg hid]
  · simp only [if_neg hn, List.append_nil]

/-- The repository calls `UpdateUser` makes, by the outcome of each step. -/
theorem UpdateUser_log {σ : Type} (repo : UserRepository σ) (id : Nat)
    (req : UpdateUserRequest) (s : σ) :
    (UpdateUser (recording repo) id req (s, [])).2.2 =
      match repo.GetByID id s with
      | (.error _, _) => [Call.GetByID id]
      | (.ok user, s1) =>
        match applyUsername repo id req user s1 with
        | (none, _) => [Call.GetByID id] ++ usernameCalls req
        | (some user1, s2) =>
          match applyEmail repo id req user1 s2 with
          | (none, _) => [Call.GetByID id] ++ usernameCalls req ++ emailCalls req
          | (some user2, _) =>
            [Call.GetByID id] ++ usernameCalls req ++ emailCalls req ++ [Call.Update user2] := by
  unfold UpdateUser
  simp only [recording_GetByID]
  rcases hr : repo.GetByID id s with ⟨err | user, s1⟩
  · rfl
  · simp only [applyUsername_recording]
    rcases h1 : applyUsername repo id req user s1 with ⟨_ | user1, s2⟩
    · rfl
    · simp only [applyEmail_recording]
      rcases h2 : applyEmail repo id req user1 s2 with ⟨_ | user2, s3⟩
      · rfl
      · simp only [recording_Update]
        rcases h3 : repo.Update user2 s3 with ⟨⟨u, _ | err⟩, s4⟩ <;> rfl

/-- Logging the calls does not change what `UpdateUser` returns or the state
it leaves. -/
theorem UpdateUser_recording {σ : Type} (repo : UserRepository σ) (id : Nat)
    (req : UpdateUserRequest) (s : σ) (log : List Call) :
    (UpdateUser (recording repo) id req (s, log)).1 = (UpdateUser repo id req s).1 ∧
      (UpdateUser (recording repo) id req (s, log)).2.1 = (UpdateUser repo id req s).2 := by
  unfold UpdateUser
  simp only [recording_GetByID]
  rcases hr : repo.GetByID id s with ⟨err | user, s1⟩
  · exact ⟨rfl, rfl⟩
  · simp only [applyUsername_recording]
    rcases h1 : applyUsername repo id req user s1 with ⟨_ | user1, s2⟩
    · exact ⟨rfl, rfl⟩
    · simp only [applyEmail_recording]
      rcases h2 : applyEmail repo id req user1 s2 with ⟨_ | user2, s3⟩
      · exact ⟨rfl, rfl⟩
      · simp only [recording_Update]
        rcases h3 : repo.Update user2 s3 with ⟨⟨u, _ | err⟩, s4⟩ <;> exact ⟨rfl, rfl⟩

/-- The username block returns early exactly on a conflicting user. -/
theorem applyUsername_eq_none_iff {σ : Type} (repo : UserRepository σ) (id : Nat)
    (req : UpdateUserRequest) (user : User) (s : σ) :
    (applyUsername repo id req user s).1 = none ↔
      req.Username ≠ "" ∧
        ∃ found, (repo.GetByUsername req.Username s).1 = .ok found ∧ found.ID ≠ id := by
  unfold applyUsername
  by_cases hn : req.Username ≠ ""
  · simp only [if_pos hn]
    rcases hr : repo.GetByUsername req.Username s with ⟨r | existing, s1⟩
    · simp [hn]
    · by_cases hid : existing.ID ≠ id
      · simp only [if_pos hid]
        exact ⟨fun _ => ⟨hn, existing, rfl, hid⟩, fun _ => trivial⟩
      · simp only [if_neg hid]
        constructor
        · intro h; cases h
        · rintro ⟨_, found, hf, hne⟩
          simp only [Except.ok.injEq] at hf
          exact absurd (hf ▸ hne) hid
  · simp only [if_neg hn]
    constructor
    · intro h; cases h
    · rintro ⟨h, _⟩; exact absurd h hn

/-- When the username block falls through, the user carries `req.Username` if
that is non-empty and is otherwise untouched. -/
theorem applyUsername_eq_some {σ : Type} (repo : UserRepository σ) (id : Nat)
    (req : UpdateUserRequest) (user user1 : User) (s : σ)
    (h : (applyUsername repo id req user s).1 = some user1) :
    user1 = { user with
      Username := if req.Username ≠ "" then req.Username else user.Username } := by
  unfold applyUsername at h
  by_cases hn : req.Username ≠ ""
  · simp only [if_pos hn] at h ⊢
    rcases hr : repo.GetByUsername req.Username s with ⟨r | existing, s1⟩ <;> rw [hr] at h
    · simp only [Option.some.injEq] at h
      exact h.symm
    · by_cases hid : existing.ID ≠ id
      · simp only [if_pos hid] at h
        cases h
      · simp only [if_neg hid, Option.some.injEq] at h
        exact h.symm
  · simp only [if_neg hn, Option.some.injEq] at h ⊢
    exact h.symm

/-- The email block returns early exactly on a conflicting user. -/
theorem applyEmail_eq_none_iff {σ : Type} (repo : UserRepository σ) (id : Nat)
    (req : UpdateUserRequest) (user : User) (s : σ) :
    (applyEmail repo id req user s).1 = none ↔
      req.Email ≠ "" ∧
        ∃ found, (repo.GetByEmail req.Email s).1 = .ok found ∧ found.ID ≠ id := by
  unfold applyEmail
  by_cases hn : req.Email ≠ ""
  · simp only [if_pos hn]
    rcases hr : repo.GetByEmail req.Email s with ⟨r | existing, s1⟩
    · simp [hn]
    · by_cases hid : existing.ID ≠ id
      · simp only [if_pos hid]
        exact ⟨fun _ => ⟨hn, existing, rfl, hid⟩, fun _ => trivial⟩
      · simp only [if_neg hid]
        constructor
        · intro h; cases h
        · rintro ⟨_, found, hf, hne⟩
          simp only [Except.ok.injEq] at hf
          exact absurd (hf ▸ hne) hid
  · simp only [if_neg hn]
    constructor
    · intro h; cases h
    · rintro ⟨h, _⟩; exact absurd h hn

/-- When the email block falls through, the user carries `req.Email` if that
is non-empty and is otherwise untouched. -/
theorem applyEmail_eq_some {σ : Type} (repo : UserRepository σ) (id : Nat)
    (req : UpdateUserRequest) (user user1 : User) (s : σ)
    (h : (applyEmail repo id req user s).1 = some user1) :
    user1 = { user with Email := if req.Email ≠ "" then req.Email else user.Email } := by
  unfold applyEmail at h
  by_cases hn : req.Email ≠ ""
  · simp only [if_pos hn] at h ⊢
    rcases hr : repo.GetByEmail req.Email s with ⟨r | existing, s1⟩ <;> rw [hr] at h
    · simp only [Option.some.injEq] at h
      exact h.symm
    · by_cases hid : existing.ID ≠ id
      · simp only [if_pos hid] at h
        cases h
      · simp only [if_neg hid, Option.some.injEq] at h
        exact h.symm
  · simp only [if_neg hn, Option.some.injEq] at h ⊢
    exact h.symm

/-- The calls of `CreateUser` when both lookups find nothing and the hasher
succeeds. -/
theorem CreateUser_log_of_unused {σ : Type} (repo : UserRepository σ)
    (hash : String → Except Error String) (req : CreateUserRequest) (s : σ) (hashed : String)
    (e e2 : Error) (hh : hash req.Password = .ok hashed)
    (he : (repo.GetByEmail req.Email s).1 = .error e)
    (hu : (repo.GetByUsername req.Username (repo.GetByEmail req.Email s).2).1 = .error e2) :
    (CreateUser (recording repo) hash req (s, [])).2.2 =
      [Call.GetByEmail req.Email, Call.GetByUsername req.Username,
        Call.Create
          { ID := 0, Username := req.Username, Email := req.Email, Password := hashed,
            CreatedAt := 0, UpdatedAt := 0, DeletedAt := none }] := by
  rw [CreateUser_log]
  rcases hr : repo.GetByEmail req.Email s with ⟨r, s1⟩
  rw [hr] at he hu
  simp only at he hu
  subst he
  rcases hr2 : repo.GetByUsername req.Username s1 with ⟨r2, s2⟩
  rw [hr2] at hu
  simp only at hu
  subst hu
  simp only [hr2, hh]

/-! ## Lemmas about the store -/

theorem Store.GetByEmail_eq_error (s : Store) (email : String)
    (h : ∀ r ∈ s.rows, r.live = true → r.Email ≠ email) :
    s.GetByEmail email = .error Error.ErrRecordNotFound := by
  unfold Store.GetByEmail
  have : s.rows.find? (fun r => r.live && r.Email == email) = none := by
    rw [List.find?_eq_none]
    intro r hr
    simp only [Bool.and_eq_true, beq_iff_eq, not_and]
    exact fun hl => h r hr hl
  rw [this]

theorem Store.GetByUsername_eq_error (s : Store) (username : String)
    (h : ∀ r ∈ s.rows, r.live = true → r.Username ≠ username) :
    s.GetByUsername username = .error Error.ErrRecordNotFound := by
  unfold Store.GetByUsername
  have : s.rows.find? (fun r => r.live && r.Username == username) = none := by
    rw [List.find?_eq_none]
    intro r hr
    simp only [Bool.and_eq_true, beq_iff_eq, not_and]
    exact fun hl => h r hr hl
  rw [this]

/-- Every id in the table is below the id assigned next. -/
theorem Store.ID_lt_nextID (s : Store) : ∀ r ∈ s.rows, r.ID < s.nextID := by
  unfold Store.nextID
  generalize s.rows = rows
  induction rows with
  | nil => intro r hr; cases hr
  | cons a rows ih =>
    intro r hr
    simp only [List.map_cons, List.foldr_cons]
    rcases List.mem_cons.1 hr with rfl | hr
    · omega
    · have := ih r hr
      omega

/-- `Create` on a table holding neither the username nor the email. -/
theorem Store.Create_of_unused (s : Store) (user : User)
    (hemail : ∀ r ∈ s.rows, r.live = true → r.Email ≠ user.Email)
    (hname : ∀ r ∈ s.rows, r.live = true → r.Username ≠ user.Username) :
    s.Create user =
      (({ user with ID := s.nextID, CreatedAt := s.now, UpdatedAt := s.now }, none),
        { rows := s.rows ++ [{ user with ID := s.nextID, CreatedAt := s.now, UpdatedAt := s.now }],
          now := s.now + 1 }) := by
  unfold Store.Create
  rw [if_neg]
  simp only [List.any_eq_true, Bool.and_eq_true, Bool.or_eq_true, beq_iff_eq, not_exists,
    not_and, not_or]
  exact fun r hr hl => ⟨hname r hr hl, hemail r hr hl⟩

/-- `GetByID` on the id just assigned finds the row just inserted. -/
theorem Store.GetByID_appended (s : Store) (row : User) (now : Nat)
    (hid : row.ID = s.nextID) (hlive : row.live = true) :
    Store.GetByID s.nextID { rows := s.rows ++ [row], now := now } = .ok row := by
  unfold Store.GetByID
  have hnone : s.rows.find? (fun r => r.live && r.ID == s.nextID) = none := by
    rw [List.find?_eq_none]
    intro r hr
    have := s.ID_lt_nextID r hr
    simp only [Bool.and_eq_true, beq_iff_eq, not_and]
    intro _
    omega
  simp only [List.find?_append, hnone, Option.none_or, List.find?_cons, hlive, hid, beq_self_eq_true,
    Bool.and_self]

/-- A successful `GetByID` answers a live row of the table with that id. -/
theorem Store.GetByID_ok (s : Store) (id : Nat) (u : User) (h : s.GetByID id = .ok u) :
    u ∈ s.rows ∧ u.live = true ∧ u.ID = id := by
  unfold Store.GetByID at h
  cases hf : s.rows.find? (fun r => r.live && r.ID == id) with
  | none => rw [hf] at h; cases h
  | some r =>
    rw [hf] at h
    simp only [Except.ok.injEq] at h
    subst h
    have hp := List.find?_some hf
    simp only [Bool.and_eq_true, beq_iff_eq] at hp
    exact ⟨List.mem_of_find?_eq_some hf, hp.1, hp.2⟩

/-- `GetByUsername` finds a live row with the username whenever one exists. -/
theorem Store.GetByUsername_of_mem (s : Store) (username : String) (r : User)
    (hr : r ∈ s.rows) (hl : r.live = true) (hn : r.Username = username) :
    ∃ found, s.GetByUsername username = .ok found ∧ found ∈ s.rows ∧ found.live = true ∧
      found.Username = username := by
  unfold Store.GetByUsername
  cases hf : s.rows.find? (fun r => r.live && r.Username == username) with
  | none =>
    rw [List.find?_eq_none] at hf
    exact absurd (by simp [hl, hn]) (hf r hr)
  | some found =>
    have hp := List.find?_some hf
    simp only [Bool.and_eq_true, beq_iff_eq] at hp
    exact ⟨found, rfl, List.mem_of_find?_eq_some hf, hp.1, hp.2⟩

/-- `GetByEmail` finds a live row with the email whenever one exists. -/
theorem Store.GetByEmail_of_mem (s : Store) (email : String) (r : User)
    (hr : r ∈ s.rows) (hl : r.live = true) (hn : r.Email = email) :
    ∃ found, s.GetByEmail email = .ok found ∧ found ∈ s.rows ∧ found.live = true ∧
      found.Email = email := by
  unfold Store.GetByEmail
  cases hf : s.rows.find? (fun r => r.live && r.Email == email) with
  | none =>
    rw [List.find?_eq_none] at hf
    exact absurd (by simp [hl, hn]) (hf r hr)
  | some found =>
    have hp := List.find?_some hf
    simp only [Bool.and_eq_true, beq_iff_eq] at hp
    exact ⟨found, rfl, List.mem_of_find?_eq_some hf, hp.1, hp.2⟩

/-- Under the primary key, two rows of the table with the same id are the same
row. -/
theorem Store.PrimaryKey.eq_of_ID_eq {s : Store} (hpk : s.PrimaryKey) {a b : User}
    (ha : a ∈ s.rows) (hb : b ∈ s.rows) (h : a.ID = b.ID) : a = b := by
  by_contra hne
  exact List.Pairwise.forall (fun _ _ hxy => Ne.symm hxy) hpk ha hb hne h

/-- Under the uniqueness invariant, two distinct live rows differ in username
and in email. -/
theorem Store.Unique.ne {s : Store} (hu : s.Unique) {a b : User}
    (ha : a ∈ s.rows) (hb : b ∈ s.rows) (hne : a ≠ b) (hla : a.live = true)
    (hlb : b.live = true) : a.Username ≠ b.Username ∧ a.Email ≠ b.Email := by
  have hsymm : Symmetric (fun a b : User => a.live = true → b.live = true →
      a.Username ≠ b.Username ∧ a.Email ≠ b.Email) :=
    fun x y hxy hy hx => ⟨Ne.symm (hxy hx hy).1, Ne.symm (hxy hx hy).2⟩
  exact List.Pairwise.forall hsymm hu ha hb hne hla hlb

/-- `Create` keeps the primary key and the uniqueness invariant. -/
theorem Store.Create_preserves (s : Store) (user : User) (hpk : s.PrimaryKey)
    (hu : s.Unique) : (s.Create user).2.PrimaryKey ∧ (s.Create user).2.Unique := by
  unfold Store.Create
  by_cases hc : s.rows.any
      (fun r => r.live && (r.Username == user.Username || r.Email == user.Email)) = true
  · rw [if_pos hc]
    exact ⟨hpk, hu⟩
  · rw [if_neg hc]
    simp only [List.any_eq_true, Bool.and_eq_true, Bool.or_eq_true, beq_iff_eq, not_exists,
      not_and, not_or] at hc
    constructor
    · unfold Store.PrimaryKey
      simp only [List.pairwise_append, List.pairwise_cons, List.not_mem_nil, false_implies,
        implies_true, List.Pairwise.nil, and_self, List.mem_singleton, forall_eq, true_and]
      refine ⟨hpk, fun a ha => ?_⟩
      have := s.ID_lt_nextID a ha
      omega
    · unfold Store.Unique
      simp only [List.pairwise_append, List.pairwise_cons, List.not_mem_nil, false_implies,
        implies_true, List.Pairwise.nil, and_self, List.mem_singleton, forall_eq, true_and]
      exact ⟨hu, fun a ha hla _ => hc a ha hla⟩

/-- `Delete` keeps the primary key and the uniqueness invariant. -/
theorem Store.Delete_preserves (s : Store) (id : Nat) (hpk : s.PrimaryKey) (hu : s.Unique) :
    (s.Delete id).2.PrimaryKey ∧ (s.Delete id).2.Unique := by
  unfold Store.Delete
  constructor
  · unfold Store.PrimaryKey
    simp only [List.pairwise_map]
    refine hpk.imp ?_
    intro a b hab
    by_cases ha : (a.live && a.ID == id) = true <;> by_cases hb : (b.live && b.ID == id) = true <;>
      simp only [ha, hb, if_true, if_false, Bool.false_eq_true] <;> exact hab
  · unfold Store.Unique
    simp only [List.pairwise_map]
    refine hu.imp ?_
    intro a b hab
    by_cases ha : (a.live && a.ID == id) = true <;> by_cases hb : (b.live && b.ID == id) = true <;>
      simp only [ha, hb, if_true, if_false, Bool.false_eq_true]
    · intro h; simp [User.live] at h
    · intro h; simp [User.live] at h
    · intro _ h; simp [User.live] at h
    · exact hab

/-- `Update` of a row whose id is in the table keeps the primary key, and
keeps the uniqueness invariant when no other live row holds the new username
or email. -/
theorem Store.Update_preserves (s : Store) (row : User) (hpk : s.PrimaryKey) (hu : s.Unique)
    (hex : ∃ r ∈ s.rows, r.ID = row.ID)
    (hfree : ∀ r ∈ s.rows, r.ID ≠ row.ID → r.live = true →
      r.Username ≠ row.Username ∧ r.Email ≠ row.Email) :
    (s.Update row).2.PrimaryKey ∧ (s.Update row).2.Unique := by
  unfold Store.Update
  have hany : s.rows.any (fun r => r.ID == row.ID) = true := by
    simp only [List.any_eq_true, beq_iff_eq]
    exact hex
  simp only [hany, if_true]
  constructor
  · unfold Store.PrimaryKey
    simp only [List.pairwise_map]
    refine hpk.imp ?_
    intro a b hab
    by_cases ha : a.ID = row.ID <;> by_cases hb : b.ID = row.ID <;>
      simp only [ha, hb, beq_self_eq_true, if_true, beq_iff_eq, if_false]
    · exact absurd (ha.trans hb.symm) hab
    · exact fun h => hb h.symm
    · exact ha
    · exact hab
  · unfold Store.Unique
    simp only [List.pairwise_map]
    refine (hpk.and hu).imp_of_mem ?_
    rintro a b ha hb ⟨hne, hab⟩
    by_cases hia : a.ID = row.ID <;> by_cases hib : b.ID = row.ID <;>
      simp only [hia, hib, beq_self_eq_true, if_true, beq_iff_eq, if_false]
    · exact absurd (hia.trans hib.symm) hne
    · intro _ hlb
      have := hfree b hb hib hlb
      exact ⟨Ne.symm this.1, Ne.symm this.2⟩
    · intro hla _
      exact hfree a ha hia hla
    · exact hab

/-- On the store the username block reads only: the table is unchanged. -/
theorem applyUsername_storeRepo_state (id : Nat) (req : UpdateUserRequest) (user : User)
    (s : Store) : (applyUsername storeRepo id req user s).2 = s := by
  unfold applyUsername
  by_cases hn : req.Username ≠ ""
  · simp only [if_pos hn, storeRepo]
    cases s.GetByUsername req.Username with
    | error e => rfl
    | ok existing =>
      by_cases hid : existing.ID ≠ id
      · simp only [if_pos hid]
      · simp only [if_neg hid]
  · simp only [if_neg hn]

/-- On the store the email block reads only: the table is unchanged. -/
theorem applyEmail_storeRepo_state (id : Nat) (req : UpdateUserRequest) (user : User)
    (s : Store) : (applyEmail storeRepo id req user s).2 = s := by
  unfold applyEmail
  by_cases hn : req.Email ≠ ""
  · simp only [if_pos hn, storeRepo]
    cases s.GetByEmail req.Email with
    | error e => rfl
    | ok existing =>
      by_cases hid : existing.ID ≠ id
      · simp only [if_pos hid]
      · simp only [if_neg hid]
  · simp only [if_neg hn]

/-- The table after `UpdateUser` on the store: untouched, or the result of one
`Update` of the fetched row after both blocks fell through. -/
theorem UpdateUser_storeRepo_state (id : Nat) (req : UpdateUserRequest) (s : Store) :
    (UpdateUser storeRepo id req s).2 = s ∨
      ∃ user user1 user2, s.GetByID id = .ok user ∧
        (applyUsername storeRepo id req user s).1 = some user1 ∧
        (applyEmail storeRepo id req user1 s).1 = some user2 ∧
        (UpdateUser storeRepo id req s).2 = (s.Update user2).2 := by
  unfold UpdateUser
  have hg : storeRepo.GetByID id s = (s.GetByID id, s) := rfl
  rw [hg]
  cases hget : s.GetByID id with
  | error e => exact Or.inl rfl
  | ok user =>
    simp only
    have hs1 := applyUsername_storeRepo_state id req user s
    rcases h1 : applyUsername storeRepo id req user s with ⟨_ | user1, s2⟩
    · rw [h1] at hs1
      exact Or.inl hs1
    · rw [h1] at hs1
      simp only at hs1
      subst hs1
      simp only
      have hs2 := applyEmail_storeRepo_state id req user1 s2
      rcases h2 : applyEmail storeRepo id req user1 s2 with ⟨_ | user2, s3⟩
      · rw [h2] at hs2
        exact Or.inl hs2
      · rw [h2] at hs2
        simp only at hs2
        subst hs2
        refine Or.inr ⟨user, user1, user2, rfl, by rw [h1], by rw [h2], ?_⟩
        simp only
        have hupd : storeRepo.Update user2 s3 = s3.Update user2 := rfl
        rw [hupd]
        rcases h3 : s3.Update user2 with ⟨⟨u, _ | err⟩, s4⟩ <;> rfl

/-- The table after `CreateUser` on the store: untouched, or the result of one
`Create`. -/
theorem CreateUser_storeRepo_state (hash : String → Except Error String)
    (req : CreateUserRequest) (s : Store) :
    (CreateUser storeRepo hash req s).2 = s ∨
      ∃ user, (CreateUser storeRepo hash req s).2 = (s.Create user).2 := by
  unfold CreateUser
  have hg : storeRepo.GetByEmail req.Email s = (s.GetByEmail req.Email, s) := rfl
  have hg2 : storeRepo.GetByUsername req.Username s = (s.GetByUsername req.Username, s) := rfl
  rw [hg]
  cases s.GetByEmail req.Email with
  | ok u => exact Or.inl rfl
  | error e =>
    simp only
    rw [hg2]
    cases s.GetByUsername req.Username with
    | ok u => exact Or.inl rfl
    | error e2 =>
      simp only
      cases hash req.Password with
      | error err => exact Or.inl rfl
      | ok hashed =>
        simp only
        refine Or.inr ⟨User.mk 0 req.Username req.Email hashed 0 0 none, ?_⟩
        have hc : ∀ u, storeRepo.Create u s = s.Create u := fun _ => rfl
        rw [hc]
        rcases h3 : s.Create _ with ⟨⟨u, _ | err⟩, s4⟩ <;> rfl

/-- Every user that `CreateUser` hands to `Create` carries the request's
username and email and the hasher's output as password. -/
theorem CreateUser_create_call {σ : Type} (repo : UserRepository σ)
    (hash : String → Except Error String) (req : CreateUserRequest) (s : σ) (user : User)
    (hmem : Call.Create user ∈ (CreateUser (recording repo) hash req (s, [])).2.2) :
    user.Username = req.Username ∧ user.Email = req.Email ∧
      hash req.Password = .ok user.Password := by
  rw [CreateUser_log] at hmem
  rcases hr : repo.GetByEmail req.Email s with ⟨r | r, s1⟩ <;> rw [hr] at hmem <;>
    simp only at hmem
  · rcases hr2 : repo.GetByUsername req.Username s1 with ⟨r2 | r2, s2⟩ <;> rw [hr2] at hmem <;>
      simp only at hmem
    · cases hh : hash req.Password with
      | error err => rw [hh] at hmem; simp at hmem
      | ok hashed =>
        rw [hh] at hmem
        simp at hmem
        subst hmem
        exact ⟨rfl, rfl, rfl⟩
    · simp at hmem
  · simp at hmem

/-! ## Claims -/

/-- C2: whenever the lookup by `req.Email` finds a user, whatever the
username, `CreateUser` returns no response and the error "email already
exists"; the only repository call is that lookup, so `Create` is never called
and the repository is left as the lookup left it. -/
theorem CreateUser_email_exists {σ : Type} (repo : UserRepository σ)
    (hash : String → Except Error String) (req : CreateUserRequest) (s : σ) (existing : User)
    (h : (repo.GetByEmail req.Email s).1 = .ok existing) :
    CreateUser repo hash req s =
        (.error (Error.New "email already exists"), (repo.GetByEmail req.Email s).2) ∧
      (CreateUser (recording repo) hash req (s, [])).2.2 = [Call.GetByEmail req.Email] := by
  refine ⟨CreateUser_of_email_found repo hash req s existing h, ?_⟩
  rw [CreateUser_of_email_found (recording repo) hash req (s, []) existing
    (by rw [recording_GetByEmail]; exact h)]
  rfl

/-- Witness of C2: alice holds `a@x.com`; a request reusing it under the new
username `carol` is refused and the table is unchanged. -/
theorem CreateUser_email_exists_witness :
    (storeRepo.GetByEmail "a@x.com" sampleStore).1 = .ok alice ∧
      CreateUser storeRepo sampleHash ⟨"carol", "a@x.com", "pw"⟩ sampleStore =
        (.error (Error.New "email already exists"), sampleStore) ∧
      (CreateUser (recording storeRepo) sampleHash ⟨"carol", "a@x.com", "pw"⟩
        (sampleStore, [])).2.2 = [Call.GetByEmail "a@x.com"] :=
  ⟨by decide,
    CreateUser_email_exists storeRepo sampleHash ⟨"carol", "a@x.com", "pw"⟩ sampleStore alice
      (by decide)⟩

/-- C3, as stated, fails: the username `alice` is held by an existing user and
the email `b@x.com` is in use too; `CreateUser` answers "email already exists",
not "username already exists". -/
theorem CreateUser_username_exists_counterexample :
    (storeRepo.GetByUsername "alice" sampleStore).1 = .ok alice ∧
      (CreateUser storeRepo sampleHash ⟨"alice", "b@x.com", "pw"⟩ sampleStore).1 =
        .error (Error.New "email already exists") ∧
      (CreateUser storeRepo sampleHash ⟨"alice", "b@x.com", "pw"⟩ sampleStore).1 ≠
        .error (Error.New "username already exists") := by
  decide

/-- C3, amended: when the lookup by `req.Email` finds nothing and the lookup by
`req.Username` finds a user, `CreateUser` returns no response and the error
"username already exists", after exactly those two lookups; when the email
lookup finds a user the error is "email already exists" instead. -/
theorem CreateUser_username_exists {σ : Type} (repo : UserRepository σ)
    (hash : String → Except Error String) (req : CreateUserRequest) (s : σ) (existing : User)
    (hu : (repo.GetByUsername req.Username (repo.GetByEmail req.Email s).2).1 = .ok existing) :
    (∀ e, (repo.GetByEmail req.Email s).1 = .error e →
        CreateUser repo hash req s =
          (.error (Error.New "username already exists"),
            (repo.GetByUsername req.Username (repo.GetByEmail req.Email s).2).2) ∧
        (CreateUser (recording repo) hash req (s, [])).2.2 =
          [Call.GetByEmail req.Email, Call.GetByUsername req.Username]) ∧
      (∀ other, (repo.GetByEmail req.Email s).1 = .ok other →
        (CreateUser repo hash req s).1 = .error (Error.New "email already exists")) := by
  refine ⟨fun e he => ⟨CreateUser_of_username_found repo hash req s e existing he hu, ?_⟩,
    fun other ho => ?_⟩
  · rw [CreateUser_log]
    rcases hr : repo.GetByEmail req.Email s with ⟨r, s1⟩
    rw [hr] at he hu
    simp only at he hu
    subst he
    rcases hr2 : repo.GetByUsername req.Username s1 with ⟨r2, s2⟩
    rw [hr2] at hu
    simp only at hu
    subst hu
    simp only [hr2]
  · rw [CreateUser_of_email_found repo hash req s other ho]

/-- Witness of C3 (amended): the username `alice` is held, the email `c@x.com`
is free. -/
theorem CreateUser_username_exists_witness :
    (storeRepo.GetByUsername "alice" (storeRepo.GetByEmail "c@x.com" sampleStore).2).1 =
        .ok alice ∧
      (storeRepo.GetByEmail "c@x.com" sampleStore).1 = .error Error.ErrRecordNotFound ∧
      CreateUser storeRepo sampleHash ⟨"alice", "c@x.com", "pw"⟩ sampleStore =
        (.error (Error.New "username already exists"), sampleStore) :=
  ⟨by decide, by decide,
    ((CreateUser_username_exists storeRepo sampleHash ⟨"alice", "c@x.com", "pw"⟩ sampleStore
      alice (by decide)).1 Error.ErrRecordNotFound (by decide)).1⟩

/-- C5: every user that `CreateUser` hands to `Create` carries the request's
username and email and, as password, the hasher's output for `req.Password`;
and when the hasher fails, no `Create` call is made and, the two lookups having
found nothing, `CreateUser` returns the hasher's error and leaves the
repository as the lookups left it. -/
theorem CreateUser_hashes_password {σ : Type} (repo : UserRepository σ)
    (hash : String → Except Error String) (req : CreateUserRequest) (s : σ) :
    (∀ user, Call.Create user ∈ (CreateUser (recording repo) hash req (s, [])).2.2 →
        user.Username = req.Username ∧ user.Email = req.Email ∧
          hash req.Password = .ok user.Password) ∧
      (∀ err, hash req.Password = .error err →
        (∀ user, Call.Create user ∉ (CreateUser (recording repo) hash req (s, [])).2.2) ∧
        (∀ e e2, (repo.GetByEmail req.Email s).1 = .error e →
          (repo.GetByUsername req.Username (repo.GetByEmail req.Email s).2).1 = .error e2 →
          CreateUser repo hash req s =
            (.error err, (repo.GetByUsername req.Username (repo.GetByEmail req.Email s).2).2))) ∧
      (∀ hashed e e2, hash req.Password = .ok hashed →
        (repo.GetByEmail req.Email s).1 = .error e →
        (repo.GetByUsername req.Username (repo.GetByEmail req.Email s).2).1 = .error e2 →
        (CreateUser (recording repo) hash req (s, [])).2.2 =
          [Call.GetByEmail req.Email, Call.GetByUsername req.Username,
            Call.Create
              { ID := 0, Username := req.Username, Email := req.Email, Password := hashed,
                CreatedAt := 0, UpdatedAt := 0, DeletedAt := none }]) := by
  rw [CreateUser_log]
  refine ⟨?_, ?_, ?_⟩
  · intro user hmem
    rcases hr : repo.GetByEmail req.Email s with ⟨r | r, s1⟩ <;> rw [hr] at hmem <;>
      simp only at hmem
    · rcases hr2 : repo.GetByUsername req.Username s1 with ⟨r2 | r2, s2⟩ <;> rw [hr2] at hmem <;>
        simp only at hmem
      · cases hh : hash req.Password with
        | error err => rw [hh] at hmem; simp at hmem
        | ok hashed =>
          rw [hh] at hmem
          simp at hmem
          subst hmem
          exact ⟨rfl, rfl, rfl⟩
      · simp at hmem
    · simp at hmem
  · intro err hh
    refine ⟨?_, ?_⟩
    · intro user hmem
      rcases hr : repo.GetByEmail req.Email s with ⟨r | r, s1⟩ <;> rw [hr] at hmem <;>
        simp only at hmem
      · rcases hr2 : repo.GetByUsername req.Username s1 with ⟨r2 | r2, s2⟩ <;>
          rw [hr2] at hmem <;> simp only at hmem
        · rw [hh] at hmem; simp at hmem
        · simp at hmem
      · simp at hmem
    · intro e e2 he hu
      rw [CreateUser_of_unused repo hash req s e e2 he hu, hh]
  · intro hashed e e2 hh he hu
    rw [← CreateUser_log]
    exact CreateUser_log_of_unused repo hash req s hashed e e2 hh he hu

/-- Witness of C5: with a hasher that fails, a request with a fresh email and
username gets the hasher's error, after the two lookups and nothing else, and
the table is unchanged. -/
theorem CreateUser_hashes_password_witness :
    CreateUser storeRepo failingHash ⟨"carol", "c@x.com", "pw"⟩ sampleStore =
        (.error (Error.Failure "bcrypt: no entropy"), sampleStore) ∧
      ∀ user, Call.Create user ∉
        (CreateUser (recording storeRepo) failingHash ⟨"carol", "c@x.com", "pw"⟩
          (sampleStore, [])).2.2 :=
  ⟨((CreateUser_hashes_password storeRepo failingHash ⟨"carol", "c@x.com", "pw"⟩
      sampleStore).2.1 (Error.Failure "bcrypt: no entropy") rfl).2 Error.ErrRecordNotFound
      Error.ErrRecordNotFound (by decide) (by decide),
    ((CreateUser_hashes_password storeRepo failingHash ⟨"carol", "c@x.com", "pw"⟩
      sampleStore).2.1 (Error.Failure "bcrypt: no entropy") rfl).1⟩

/-- C6, as stated, fails: with lookups that fail on a refused connection,
`CreateUser` does not return that failure but succeeds after calling `Create`,
and `UpdateUser` goes on to `Update` and gives alice the username bob already
has. -/
theorem lookup_failure_counterexample :
    (unreachableLookups.GetByEmail "c@x.com" sampleStore).1 =
        .error (Error.Failure "connection refused") ∧
      (CreateUser unreachableLookups sampleHash ⟨"carol", "c@x.com", "pw"⟩ sampleStore).1 =
        .ok { ID := 3, Username := "carol", Email := "c@x.com", CreatedAt := 2,
              UpdatedAt := 2 } ∧
      (CreateUser (recording unreachableLookups) sampleHash ⟨"carol", "c@x.com", "pw"⟩
        (sampleStore, [])).2.2.any Call.isWrite = true ∧
      (unreachableLookups.GetByUsername "bob" sampleStore).1 =
        .error (Error.Failure "connection refused") ∧
      (UpdateUser unreachableLookups 1 ⟨"bob", ""⟩ sampleStore).1 =
        .ok { ID := 1, Username := "bob", Email := "a@x.com", CreatedAt := 0,
              UpdatedAt := 2 } ∧
      (UpdateUser (recording unreachableLookups) 1 ⟨"bob", ""⟩
        (sampleStore, [])).2.2.any Call.isWrite = true ∧
      ¬ (UpdateUser unreachableLookups 1 ⟨"bob", ""⟩ sampleStore).2.Unique := by
  decide

/-- C6, amended: a uniqueness lookup that fails, with not-found or with any
other error, is taken as "no such user" and its error is discarded. In
`CreateUser`, once both lookups have failed and the hasher has succeeded, the
calls are the two lookups followed by `Create`, and the outcome is that of
`Create`. In `UpdateUser`, once `GetByID` has found the target and every lookup
that was made has failed, the calls end with `Update` of the target with the
requested fields applied, and the outcome is that of `Update`. -/
theorem lookup_failure_discarded {σ : Type} (repo : UserRepository σ)
    (hash : String → Except Error String) (req : CreateUserRequest) (id : Nat)
    (upd : UpdateUserRequest) (s : σ) :
    (∀ e e2 hashed, (repo.GetByEmail req.Email s).1 = .error e →
        (repo.GetByUsername req.Username (repo.GetByEmail req.Email s).2).1 = .error e2 →
        hash req.Password = .ok hashed →
        (CreateUser (recording repo) hash req (s, [])).2.2 =
            [Call.GetByEmail req.Email, Call.GetByUsername req.Username,
              Call.Create
                { ID := 0, Username := req.Username, Email := req.Email, Password := hashed,
                  CreatedAt := 0, UpdatedAt := 0, DeletedAt := none }] ∧
          CreateUser repo hash req s =
            match repo.Create
                { ID := 0, Username := req.Username, Email := req.Email, Password := hashed,
                  CreatedAt := 0, UpdatedAt := 0, DeletedAt := none }
                (repo.GetByUsername req.Username (repo.GetByEmail req.Email s).2).2 with
            | ((_, some err), s3) => (.error err, s3)
            | ((user, none), s3) => (.ok (toUserResponse user), s3)) ∧
      (∀ user, (repo.GetByID id s).1 = .ok user →
        (upd.Username ≠ "" →
          ∃ e, (repo.GetByUsername upd.Username (repo.GetByID id s).2).1 = .error e) →
        (upd.Email ≠ "" →
          ∃ e, (repo.GetByEmail upd.Email
            (applyUsername repo id upd user (repo.GetByID id s).2).2).1 = .error e) →
        ∃ s3,
          (UpdateUser (recording repo) id upd (s, [])).2.2 =
              [Call.GetByID id] ++ usernameCalls upd ++ emailCalls upd ++
                [Call.Update
                  { ID := user.ID
                    Username := if upd.Username ≠ "" then upd.Username else user.Username
                    Email := if upd.Email ≠ "" then upd.Email else user.Email
                    Password := user.Password
                    CreatedAt := user.CreatedAt
                    UpdatedAt := user.UpdatedAt
                    DeletedAt := user.DeletedAt }] ∧
            UpdateUser repo id upd s =
              match repo.Update
                  { ID := user.ID
                    Username := if upd.Username ≠ "" then upd.Username else user.Username
                    Email := if upd.Email ≠ "" then upd.Email else user.Email
                    Password := user.Password
                    CreatedAt := user.CreatedAt
                    UpdatedAt := user.UpdatedAt
                    DeletedAt := user.DeletedAt } s3 with
              | ((_, some err), s4) => (.error err, s4)
              | ((user, none), s4) => (.ok (toUserResponse user), s4)) := by
  constructor
  · intro e e2 hashed he hu hh
    constructor
    · exact (CreateUser_log_of_unused repo hash req s hashed e e2 hh he hu)
    · rw [CreateUser_of_unused repo hash req s e e2 he hu, hh]
  · intro user hget hname hemail
    rw [UpdateUser_log]
    unfold UpdateUser
    rcases hr : repo.GetByID id s with ⟨r, s1⟩
    rw [hr] at hget hname hemail
    simp only at hget hname hemail
    subst hget
    simp only
    have hnone := applyUsername_eq_none_iff repo id upd user s1
    rcases h1 : applyUsername repo id upd user s1 with ⟨_ | user1, s2⟩
    · rw [h1] at hnone
      obtain ⟨hn, found, hf, -⟩ := hnone.1 rfl
      obtain ⟨e, he⟩ := hname hn
      rw [he] at hf
      cases hf
    · rw [h1] at hemail
      simp only at hemail ⊢
      have hnone2 := applyEmail_eq_none_iff repo id upd user1 s2
      rcases h2 : applyEmail repo id upd user1 s2 with ⟨_ | user2, s3⟩
      · rw [h2] at hnone2
        obtain ⟨hn, found, hf, -⟩ := hnone2.1 rfl
        obtain ⟨e, he⟩ := hemail hn
        rw [he] at hf
        cases hf
      · have hu1 := applyUsername_eq_some repo id upd user user1 s1 (by rw [h1])
        have hu2 := applyEmail_eq_some repo id upd user1 user2 s2 (by rw [h2])
        refine ⟨s3, ?_, ?_⟩
        · simp only
          rw [hu2, hu1]
        · simp only
          rw [hu2, hu1]

/-- Witness of C6 (amended): with both lookups failing on a refused connection
and a working hasher, the calls of `CreateUser` end with `Create`. -/
theorem lookup_failure_discarded_witness :
    (CreateUser (recording unreachableLookups) sampleHash ⟨"carol", "c@x.com", "pw"⟩
      (sampleStore, [])).2.2 =
      [Call.GetByEmail "c@x.com", Call.GetByUsername "carol",
        Call.Create
          { ID := 0, Username := "carol", Email := "c@x.com", Password := "$2a$10$pw",
            CreatedAt := 0, UpdatedAt := 0, DeletedAt := none }] :=
  ((lookup_failure_discarded unreachableLookups sampleHash ⟨"carol", "c@x.com", "pw"⟩ 1
    ⟨"", ""⟩ sampleStore).1 (Error.Failure "connection refused")
    (Error.Failure "connection refused") "$2a$10$pw" (by decide) (by decide) (by decide)).1

/-- C7: when `GetByID` fails, `UpdateUser` returns no response and that very
error; `GetByID` is the only repository call (no username or email lookup, no
`Update`), and the repository is left as `GetByID` left it. -/
theorem UpdateUser_not_found {σ : Type} (repo : UserRepository σ) (id : Nat)
    (req : UpdateUserRequest) (s : σ) (err : Error)
    (h : (repo.GetByID id s).1 = .error err) :
    UpdateUser repo id req s = (.error err, (repo.GetByID id s).2) ∧
      (UpdateUser (recording repo) id req (s, [])).2.2 = [Call.GetByID id] := by
  rw [UpdateUser_log]
  unfold UpdateUser
  rcases hr : repo.GetByID id s with ⟨r, s1⟩
  rw [hr] at h
  simp only at h
  subst h
  exact ⟨rfl, rfl⟩

/-- Witness of C7: id 999 has no row; the update is refused and the table,
which `Update` alone would have extended, is unchanged. -/
theorem UpdateUser_not_found_witness :
    (storeRepo.GetByID 999 sampleStore).1 = .error Error.ErrRecordNotFound ∧
      (storeRepo.Update { alice with ID := 999 } sampleStore).2.rows.length = 3 ∧
      UpdateUser storeRepo 999 ⟨"updateduser", ""⟩ sampleStore =
        (.error Error.ErrRecordNotFound, sampleStore) ∧
      (UpdateUser (recording storeRepo) 999 ⟨"updateduser", ""⟩ (sampleStore, [])).2.2 =
        [Call.GetByID 999] :=
  ⟨by decide, by decide,
    UpdateUser_not_found storeRepo 999 ⟨"updateduser", ""⟩ sampleStore Error.ErrRecordNotFound
      (by decide)⟩

/-- C8: for a target that `GetByID` finds and a non-empty `req.Username`,
against a repository whose `Update` does not itself answer "username already
exists", `UpdateUser` fails with "username already exists" if and only if the
lookup by `req.Username` finds a user whose id differs from the target id; when
it finds nothing or the target itself, the username block hands on the user
with `req.Username`, and that is the username of any user given to `Update`. -/
theorem UpdateUser_username_conflict {σ : Type} (repo : UserRepository σ) (id : Nat)
    (req : UpdateUserRequest) (s : σ) (user : User)
    (hget : (repo.GetByID id s).1 = .ok user) (hname : req.Username ≠ "")
    (hupd : ∀ u st, (repo.Update u st).1.2 ≠ some (Error.New "username already exists")) :
    ((UpdateUser repo id req s).1 = .error (Error.New "username already exists") ↔
        ∃ found, (repo.GetByUsername req.Username (repo.GetByID id s).2).1 = .ok found ∧
          found.ID ≠ id) ∧
      ((¬ ∃ found, (repo.GetByUsername req.Username (repo.GetByID id s).2).1 = .ok found ∧
          found.ID ≠ id) →
        (applyUsername repo id req user (repo.GetByID id s).2).1 =
            some { user with Username := req.Username } ∧
          ∀ u, Call.Update u ∈ (UpdateUser (recording repo) id req (s, [])).2.2 →
            u.Username = req.Username) := by
  rw [UpdateUser_log]
  unfold UpdateUser
  rcases hr : repo.GetByID id s with ⟨r, s1⟩
  rw [hr] at hget
  simp only at hget
  subst hget
  simp only
  have hnone := applyUsername_eq_none_iff repo id req user s1
  rcases h1 : applyUsername repo id req user s1 with ⟨_ | user1, s2⟩
  · rw [h1] at hnone
    have hc := (hnone.1 rfl).2
    exact ⟨⟨fun _ => hc, fun _ => rfl⟩, fun hno => absurd hc hno⟩
  · rw [h1] at hnone
    have hno : ¬ ∃ found, (repo.GetByUsername req.Username s1).1 = .ok found ∧ found.ID ≠ id :=
      fun hc => by simpa using hnone.2 ⟨hname, hc⟩
    have hu1 := applyUsername_eq_some repo id req user user1 s1 (by rw [h1])
    rw [if_pos hname] at hu1
    simp only
    have hmem : ∀ u, Call.Update u ∈
        (match applyEmail repo id req user1 s2 with
          | (none, _) => [Call.GetByID id] ++ usernameCalls req ++ emailCalls req
          | (some user2, _) =>
            [Call.GetByID id] ++ usernameCalls req ++ emailCalls req ++ [Call.Update user2]) →
        u.Username = req.Username := by
      intro u hu
      rcases h2 : applyEmail repo id req user1 s2 with ⟨_ | user2, s3⟩ <;> rw [h2] at hu
      · simp only [usernameCalls, emailCalls] at hu
        split_ifs at hu <;> simp at hu
      · have hu2 := applyEmail_eq_some repo id req user1 user2 s2 (by rw [h2])
        simp only [usernameCalls, emailCalls] at hu
        split_ifs at hu <;> simp at hu <;> subst hu <;> rw [hu2, hu1]
    refine ⟨⟨fun hres => ?_, fun hc => absurd hc hno⟩, fun _ => ⟨by rw [hu1], hmem⟩⟩
    exfalso
    rcases h2 : applyEmail repo id req user1 s2 with ⟨_ | user2, s3⟩ <;> rw [h2] at hres
    · simp only [Except.error.injEq, Error.New.injEq] at hres
      exact absurd hres (by decide)
    · simp only at hres
      rcases h3 : repo.Update user2 s3 with ⟨⟨u, _ | err⟩, s4⟩ <;> rw [h3] at hres
      · simp at hres
      · simp only [Except.error.injEq] at hres
        exact hupd user2 s3 (by rw [h3, hres])

/-- Witness of C8: renaming alice to `bob`, which is the username of user 2. -/
theorem UpdateUser_username_conflict_witness :
    (storeRepo.GetByID 1 sampleStore).1 = .ok alice ∧
      ((UpdateUser storeRepo 1 ⟨"bob", ""⟩ sampleStore).1 =
          .error (Error.New "username already exists") ↔
        ∃ found, (storeRepo.GetByUsername "bob" (storeRepo.GetByID 1 sampleStore).2).1 =
          .ok found ∧ found.ID ≠ 1) :=
  ⟨by decide,
    (UpdateUser_username_conflict storeRepo 1 ⟨"bob", ""⟩ sampleStore alice (by decide)
      (by decide) (fun u st => by simp [storeRepo, Store.Update]; split_ifs <;> simp)).1⟩

/-- C9: for a target that `GetByID` finds, a non-empty `req.Email` and a
username block that raised no conflict, against a repository whose `Update`
does not itself answer "email already exists", `UpdateUser` fails with "email
already exists" if and only if the lookup by `req.Email` finds a user whose id
differs from the target id; otherwise the email is applied: the last
repository call is `Update` of a user whose email is `req.Email`. -/
theorem UpdateUser_email_conflict {σ : Type} (repo : UserRepository σ) (id : Nat)
    (req : UpdateUserRequest) (s : σ) (user : User)
    (hget : (repo.GetByID id s).1 = .ok user) (hemail : req.Email ≠ "")
    (hno : ¬ (req.Username ≠ "" ∧
      ∃ found, (repo.GetByUsername req.Username (repo.GetByID id s).2).1 = .ok found ∧
        found.ID ≠ id))
    (hupd : ∀ u st, (repo.Update u st).1.2 ≠ some (Error.New "email already exists")) :
    ((UpdateUser repo id req s).1 = .error (Error.New "email already exists") ↔
        ∃ found,
          (repo.GetByEmail req.Email
            (applyUsername repo id req user (repo.GetByID id s).2).2).1 = .ok found ∧
          found.ID ≠ id) ∧
      ((¬ ∃ found,
          (repo.GetByEmail req.Email
            (applyUsername repo id req user (repo.GetByID id s).2).2).1 = .ok found ∧
          found.ID ≠ id) →
        ∃ u, (UpdateUser (recording repo) id req (s, [])).2.2.getLast? = some (Call.Update u) ∧
          u.Email = req.Email) := by
  rw [UpdateUser_log]
  unfold UpdateUser
  rcases hr : repo.GetByID id s with ⟨r, s1⟩
  rw [hr] at hget hno
  simp only at hget hno
  subst hget
  simp only
  have hnone := applyUsername_eq_none_iff repo id req user s1
  rcases h1 : applyUsername repo id req user s1 with ⟨_ | user1, s2⟩
  · rw [h1] at hnone
    exact absurd (hnone.1 rfl) hno
  · simp only
    have hnone2 := applyEmail_eq_none_iff repo id req user1 s2
    rcases h2 : applyEmail repo id req user1 s2 with ⟨_ | user2, s3⟩
    · rw [h2] at hnone2
      have hc := (hnone2.1 rfl).2
      exact ⟨⟨fun _ => hc, fun _ => rfl⟩, fun hn => absurd hc hn⟩
    · rw [h2] at hnone2
      have hn : ¬ ∃ found, (repo.GetByEmail req.Email s2).1 = .ok found ∧ found.ID ≠ id :=
        fun hc => by simpa using hnone2.2 ⟨hemail, hc⟩
      have hu2 := applyEmail_eq_some repo id req user1 user2 s2 (by rw [h2])
      rw [if_pos hemail] at hu2
      refine ⟨⟨fun hres => ?_, fun hc => absurd hc hn⟩, fun _ => ⟨user2, ?_, by rw [hu2]⟩⟩
      · exfalso
        simp only at hres
        rcases h3 : repo.Update user2 s3 with ⟨⟨u, _ | err⟩, s4⟩ <;> rw [h3] at hres
        · simp at hres
        · simp only [Except.error.injEq] at hres
          exact hupd user2 s3 (by rw [h3, hres])
      · show ([Call.GetByID id] ++ usernameCalls req ++ emailCalls req ++
          [Call.Update user2]).getLast? = some (Call.Update user2)
        rw [List.getLast?_append]
        rfl

/-- Witness of C9: giving alice the email `b@x.com`, which is the email of
user 2, with no username in the request. -/
theorem UpdateUser_email_conflict_witness :
    (storeRepo.GetByID 1 sampleStore).1 = .ok alice ∧
      ((UpdateUser storeRepo 1 ⟨"", "b@x.com"⟩ sampleStore).1 =
          .error (Error.New "email already exists") ↔
        ∃ found,
          (storeRepo.GetByEmail "b@x.com"
            (applyUsername storeRepo 1 ⟨"", "b@x.com"⟩ alice
              (storeRepo.GetByID 1 sampleStore).2).2).1 = .ok found ∧
          found.ID ≠ 1) :=
  ⟨by decide,
    (UpdateUser_email_conflict storeRepo 1 ⟨"", "b@x.com"⟩ sampleStore alice (by decide)
      (by decide) (fun h => h.1 rfl)
      (fun u st => by simp [storeRepo, Store.Update]; split_ifs <;> simp)).1⟩

/-- C10: in every successful `UpdateUser` the repository calls are `GetByID`,
the lookups for the non-empty fields, and one `Update`, whose user is the row
`GetByID` fetched with `Username` replaced by `req.Username` when that is
non-empty and `Email` replaced by `req.Email` when that is non-empty: id,
password hash, `CreatedAt` and every other field are the fetched ones. With
only a username the email is the fetched one; with both fields empty the
fetched row itself is passed. -/
theorem UpdateUser_partial_update {σ : Type} (repo : UserRepository σ) (id : Nat)
    (req : UpdateUserRequest) (s : σ) (user : User) (resp : UserResponse)
    (hget : (repo.GetByID id s).1 = .ok user)
    (hok : (UpdateUser repo id req s).1 = .ok resp) :
    (UpdateUser (recording repo) id req (s, [])).2.2 =
        [Call.GetByID id] ++ usernameCalls req ++ emailCalls req ++
          [Call.Update
            { ID := user.ID
              Username := if req.Username ≠ "" then req.Username else user.Username
              Email := if req.Email ≠ "" then req.Email else user.Email
              Password := user.Password
              CreatedAt := user.CreatedAt
              UpdatedAt := user.UpdatedAt
              DeletedAt := user.DeletedAt }] ∧
      (req.Email = "" →
        ∀ u, Call.Update u ∈ (UpdateUser (recording repo) id req (s, [])).2.2 →
          u.Email = user.Email ∧ u.Password = user.Password) ∧
      (req.Username = "" → req.Email = "" →
        (UpdateUser (recording repo) id req (s, [])).2.2 =
          [Call.GetByID id, Call.Update user]) := by
  have hlog : (UpdateUser (recording repo) id req (s, [])).2.2 =
      [Call.GetByID id] ++ usernameCalls req ++ emailCalls req ++
        [Call.Update
          { ID := user.ID
            Username := if req.Username ≠ "" then req.Username else user.Username
            Email := if req.Email ≠ "" then req.Email else user.Email
            Password := user.Password
            CreatedAt := user.CreatedAt
            UpdatedAt := user.UpdatedAt
            DeletedAt := user.DeletedAt }] := by
    rw [UpdateUser_log]
    unfold UpdateUser at hok
    rcases hr : repo.GetByID id s with ⟨r, s1⟩
    rw [hr] at hget hok
    simp only at hget hok
    subst hget
    simp only at hok ⊢
    rcases h1 : applyUsername repo id req user s1 with ⟨_ | user1, s2⟩ <;> rw [h1] at hok
    · simp at hok
    · simp only at hok ⊢
      rcases h2 : applyEmail repo id req user1 s2 with ⟨_ | user2, s3⟩ <;> rw [h2] at hok
      · simp at hok
      · have hu1 := applyUsername_eq_some repo id req user user1 s1 (by rw [h1])
        have hu2 := applyEmail_eq_some repo id req user1 user2 s2 (by rw [h2])
        simp only
        rw [hu2, hu1]
  refine ⟨hlog, ?_, ?_⟩
  · intro he u hu
    rw [hlog] at hu
    have hemp : emailCalls req = [] := by simp [emailCalls, he]
    have hkeep : (if req.Email ≠ "" then req.Email else user.Email) = user.Email := by
      simp [he]
    rw [hemp, hkeep] at hu
    simp only [usernameCalls] at hu
    split_ifs at hu <;> simp at hu <;> subst hu <;> exact ⟨rfl, rfl⟩
  · intro hn he
    rw [hlog]
    cases user
    simp [usernameCalls, emailCalls, hn, he]

/-- Witness of C10: a request carrying only the username `alicia` for user 1;
the user passed to `Update` is alice with nothing but the username changed. -/
theorem UpdateUser_partial_update_witness :
    (storeRepo.GetByID 1 sampleStore).1 = .ok alice ∧
      (UpdateUser storeRepo 1 ⟨"alicia", ""⟩ sampleStore).1 =
        .ok { ID := 1, Username := "alicia", Email := "a@x.com", CreatedAt := 0,
              UpdatedAt := 2 } ∧
      (UpdateUser (recording storeRepo) 1 ⟨"alicia", ""⟩ (sampleStore, [])).2.2 =
        [Call.GetByID 1, Call.GetByUsername "alicia",
          Call.Update { alice with Username := "alicia" }] :=
  ⟨by decide, by decide,
    (UpdateUser_partial_update storeRepo 1 ⟨"alicia", ""⟩ sampleStore alice
      { ID := 1, Username := "alicia", Email := "a@x.com", CreatedAt := 0, UpdatedAt := 2 }
      (by decide) (by decide)).1⟩

/-- C4: when no live row holds `req.Email` or `req.Username` and the hasher
succeeds, `CreateUser` on the store returns no error and a response with the
request's username and email and the id the store assigned, which is not zero;
`GetUser` on that id right afterwards returns the same id, username and
email. -/
theorem CreateUser_success (hash : String → Except Error String) (req : CreateUserRequest)
    (s : Store) (hashed : String)
    (hemail : ∀ r ∈ s.rows, r.live = true → r.Email ≠ req.Email)
    (hname : ∀ r ∈ s.rows, r.live = true → r.Username ≠ req.Username)
    (hh : hash req.Password = .ok hashed) :
    ∃ resp s1, CreateUser storeRepo hash req s = (.ok resp, s1) ∧
      resp.Username = req.Username ∧ resp.Email = req.Email ∧
      resp.ID = s.nextID ∧ resp.ID ≠ 0 ∧
      ∃ again, (GetUser storeRepo resp.ID s1).1 = .ok again ∧
        again.ID = resp.ID ∧ again.Username = req.Username ∧ again.Email = req.Email := by
  have he := s.GetByEmail_eq_error req.Email hemail
  have hu := s.GetByUsername_eq_error req.Username hname
  have hc := s.Create_of_unused
    { ID := 0, Username := req.Username, Email := req.Email, Password := hashed,
      CreatedAt := 0, UpdatedAt := 0, DeletedAt := none } hemail hname
  have hcreate : CreateUser storeRepo hash req s =
      (.ok { ID := s.nextID, Username := req.Username, Email := req.Email, CreatedAt := s.now,
             UpdatedAt := s.now },
        { rows := s.rows ++ [{ ID := s.nextID, Username := req.Username, Email := req.Email,
                               Password := hashed, CreatedAt := s.now, UpdatedAt := s.now,
                               DeletedAt := none }],
          now := s.now + 1 }) := by
    rw [CreateUser_of_unused storeRepo hash req s Error.ErrRecordNotFound
      Error.ErrRecordNotFound (by simp only [storeRepo]; exact he)
      (by simp only [storeRepo]; exact hu), hh]
    simp only [storeRepo, hc, toUserResponse]
  refine ⟨_, _, hcreate, rfl, rfl, rfl, ?_, ?_⟩
  · simp only [Store.nextID]
    omega
  · refine ⟨{ ID := s.nextID, Username := req.Username, Email := req.Email, CreatedAt := s.now,
              UpdatedAt := s.now }, ?_, rfl, rfl, rfl⟩
    unfold GetUser
    simp only [storeRepo]
    rw [Store.GetByID_appended s
      { ID := s.nextID, Username := req.Username, Email := req.Email, Password := hashed,
        CreatedAt := s.now, UpdatedAt := s.now, DeletedAt := none } (s.now + 1) rfl rfl]
    rfl

/-- Witness of C4: carol, with a fresh email and username, gets id 3. -/
theorem CreateUser_success_witness :
    sampleHash "pw" = .ok "$2a$10$pw" ∧
      ∃ resp s1, CreateUser storeRepo sampleHash ⟨"carol", "c@x.com", "pw"⟩ sampleStore =
          (.ok resp, s1) ∧
        resp.Username = "carol" ∧ resp.Email = "c@x.com" ∧
        resp.ID = sampleStore.nextID ∧ resp.ID ≠ 0 ∧
        ∃ again, (GetUser storeRepo resp.ID s1).1 = .ok again ∧
          again.ID = resp.ID ∧ again.Username = "carol" ∧ again.Email = "c@x.com" :=
  ⟨by decide,
    CreateUser_success sampleHash ⟨"carol", "c@x.com", "pw"⟩ sampleStore "$2a$10$pw"
      (by decide) (by decide) (by decide)⟩

/-- C1: on a table with a primary key in which no two live rows share a
username and no two share an email, every `CreateUser`, `UpdateUser` and
`DeleteUser` call, successful or failing, run against the repository of
section 4.1, leaves a table with the same two properties. -/
theorem uniqueness_invariant (hash : String → Except Error String) (op : Op) (s : Store)
    (hpk : s.PrimaryKey) (hu : s.Unique) :
    (op.run hash s).PrimaryKey ∧ (op.run hash s).Unique := by
  cases op with
  | create req =>
    simp only [Op.run]
    rcases CreateUser_storeRepo_state hash req s with h | ⟨user, h⟩
    · rw [h]; exact ⟨hpk, hu⟩
    · rw [h]; exact s.Create_preserves user hpk hu
  | delete id =>
    simp only [Op.run, DeleteUser, storeRepo]
    exact s.Delete_preserves id hpk hu
  | update id req =>
    simp only [Op.run]
    rcases UpdateUser_storeRepo_state id req s with h | ⟨user, user1, user2, hget, h1, h2, h⟩
    · rw [h]; exact ⟨hpk, hu⟩
    · rw [h]
      obtain ⟨hmem, hlive, hid⟩ := s.GetByID_ok id user hget
      have hu1 := applyUsername_eq_some storeRepo id req user user1 s h1
      have hu2 := applyEmail_eq_some storeRepo id req user1 user2 s h2
      have hn1 : ¬ (req.Username ≠ "" ∧
          ∃ found, (storeRepo.GetByUsername req.Username s).1 = .ok found ∧ found.ID ≠ id) :=
        fun hc => by
          have := (applyUsername_eq_none_iff storeRepo id req user s).2 hc
          rw [h1] at this
          cases this
      have hn2 : ¬ (req.Email ≠ "" ∧
          ∃ found, (storeRepo.GetByEmail req.Email s).1 = .ok found ∧ found.ID ≠ id) :=
        fun hc => by
          have := (applyEmail_eq_none_iff storeRepo id req user1 s).2 hc
          rw [h2] at this
          cases this
      have hid2 : user2.ID = id := by rw [hu2, hu1]; exact hid
      refine s.Update_preserves user2 hpk hu ⟨user, hmem, by rw [hid2, hid]⟩ ?_
      intro r hr hrid hrl
      rw [hid2] at hrid
      have hne : r ≠ user := fun e => hrid (by rw [e, hid])
      have hold := hu.ne hr hmem hne hrl hlive
      constructor
      · have : user2.Username = if req.Username ≠ "" then req.Username else user.Username := by
          rw [hu2, hu1]
        rw [this]
        by_cases hn : req.Username ≠ ""
        · rw [if_pos hn]
          intro heq
          obtain ⟨found, hf, hfm, hfl, hfn⟩ := s.GetByUsername_of_mem req.Username r hr hrl heq
          have hfid : found.ID = id := by
            by_contra hne2
            exact hn1 ⟨hn, found, by simp only [storeRepo]; exact hf, hne2⟩
          have hrf : r ≠ found := fun e => hrid (by rw [e, hfid])
          exact (hu.ne hr hfm hrf hrl hfl).1 (heq.trans hfn.symm)
        · rw [if_neg hn]
          exact hold.1
      · have : user2.Email = if req.Email ≠ "" then req.Email else user.Email := by
          rw [hu2, hu1]
        rw [this]
        by_cases hn : req.Email ≠ ""
        · rw [if_pos hn]
          intro heq
          obtain ⟨found, hf, hfm, hfl, hfn⟩ := s.GetByEmail_of_mem req.Email r hr hrl heq
          have hfid : found.ID = id := by
            by_contra hne2
            exact hn2 ⟨hn, found, by simp only [storeRepo]; exact hf, hne2⟩
          have hrf : r ≠ found := fun e => hrid (by rw [e, hfid])
          exact (hu.ne hr hfm hrf hrl hfl).2 (heq.trans hfn.symm)
        · rw [if_neg hn]
          exact hold.2

/-- Witness of C1: renaming alice to `bob` is refused and renaming her to
`alicia` goes through; the table of alice and bob keeps both properties. -/
theorem uniqueness_invariant_witness :
    sampleStore.PrimaryKey ∧ sampleStore.Unique ∧
      ((Op.update 1 ⟨"alicia", ""⟩).run sampleHash sampleStore).rows.map User.Username =
        ["alicia", "bob"] ∧
      ((Op.update 1 ⟨"alicia", ""⟩).run sampleHash sampleStore).PrimaryKey ∧
      ((Op.update 1 ⟨"alicia", ""⟩).run sampleHash sampleStore).Unique :=
  ⟨by decide, by decide, by decide,
    uniqueness_invariant sampleHash (Op.update 1 ⟨"alicia", ""⟩) sampleStore (by decide)
      (by decide)⟩

/-! ## Reading: `GetUser`, `ListUsers`, the projection -/

theorem recording_List {σ : Type} (repo : UserRepository σ) (limit offset : Int) (s : σ)
    (log : List Call) :
    (recording repo).List limit offset (s, log) =
      ((repo.List limit offset s).1,
        ((repo.List limit offset s).2, log ++ [Call.List limit offset])) :=
  rfl

/-- The loop of `ListUsers`: appending the projections one by one yields the
projections in order after what was there. -/
theorem foldl_append_toList (users : List User) (acc : Slice UserResponse) :
    (users.foldl (fun responses user => responses.append (toUserResponse user)) acc).toList =
      acc.toList ++ users.map toUserResponse := by
  induction users generalizing acc with
  | nil => simp
  | cons u users ih =>
    rw [List.foldl_cons, ih]
    cases acc <;> simp [Slice.append, Slice.toList]

/-- C13: when `GetByID` succeeds, `GetUser` returns no error and the
projection of exactly the row it got (same id, username, email, created_at,
updated_at); when `GetByID` fails it returns no response and the same error.
`GetByID` is its only repository call. -/
theorem GetUser_projects {σ : Type} (repo : UserRepository σ) (id : Nat) (s : σ) :
    (∀ user, (repo.GetByID id s).1 = .ok user →
        GetUser repo id s =
          (.ok { ID := user.ID, Username := user.Username, Email := user.Email,
                 CreatedAt := user.CreatedAt, UpdatedAt := user.UpdatedAt },
            (repo.GetByID id s).2)) ∧
      (∀ err, (repo.GetByID id s).1 = .error err →
        GetUser repo id s = (.error err, (repo.GetByID id s).2)) ∧
      (GetUser (recording repo) id (s, [])).2.2 = [Call.GetByID id] := by
  unfold GetUser
  simp only [recording_GetByID]
  rcases hr : repo.GetByID id s with ⟨r | r, s1⟩
  · refine ⟨fun user h => ?_, fun err h => ?_, rfl⟩
    · cases h
    · cases h
      rfl
  · refine ⟨fun user h => ?_, fun err h => ?_, rfl⟩
    · cases h
      rfl
    · cases h

/-- Witness of C13: user 1 is alice; id 999 has no row. -/
theorem GetUser_projects_witness :
    GetUser storeRepo 1 sampleStore =
        (.ok { ID := 1, Username := "alice", Email := "a@x.com", CreatedAt := 0,
               UpdatedAt := 0 }, sampleStore) ∧
      GetUser storeRepo 999 sampleStore = (.error Error.ErrRecordNotFound, sampleStore) :=
  ⟨(GetUser_projects storeRepo 1 sampleStore).1 alice (by decide),
    (GetUser_projects storeRepo 999 sampleStore).2.1 Error.ErrRecordNotFound (by decide)⟩

/-- C14: each field of the response equals the corresponding field of the
user; two users that agree on id, username, email, created_at and updated_at
get the same response, whatever their password hash and deletion marker; and
replacing the password hash and the deletion marker of a user leaves its
response unchanged. -/
theorem toUserResponse_hides_password :
    (∀ user, (toUserResponse user).ID = user.ID ∧
        (toUserResponse user).Username = user.Username ∧
        (toUserResponse user).Email = user.Email ∧
        (toUserResponse user).CreatedAt = user.CreatedAt ∧
        (toUserResponse user).UpdatedAt = user.UpdatedAt) ∧
      (∀ a b : User, a.ID = b.ID → a.Username = b.Username → a.Email = b.Email →
        a.CreatedAt = b.CreatedAt → a.UpdatedAt = b.UpdatedAt →
        toUserResponse a = toUserResponse b) ∧
      (∀ (user : User) (password : String) (deletedAt : Option Nat),
        toUserResponse { user with Password := password, DeletedAt := deletedAt } =
          toUserResponse user) := by
  refine ⟨fun user => ⟨rfl, rfl, rfl, rfl, rfl⟩, ?_, fun _ _ _ => rfl⟩
  intro a b h1 h2 h3 h4 h5
  simp only [toUserResponse, h1, h2, h3, h4, h5]

/-- Witness of C14: alice with another password hash and a deletion marker
has the response of alice. -/
theorem toUserResponse_hides_password_witness :
    toUserResponse { alice with Password := "$2a$10$other", DeletedAt := some 7 } =
      toUserResponse alice :=
  toUserResponse_hides_password.2.1 _ alice rfl rfl rfl rfl rfl

/-- C15, evaluated on the code: when `List` answers an allocated empty slice
and no error, `ListUsers` returns the `nil` slice (the loop never appends to
`responses`), for every repository and here on the empty table. -/
theorem ListUsers_empty_is_nil :
    (∀ (σ : Type) (repo : UserRepository σ) (limit offset : Int) (s : σ),
        (repo.List limit offset s).1 = (Slice.elems [], none) →
        (ListUsers repo limit offset s).1 = (Slice.null, none)) ∧
      (storeRepo.List 10 0 Store.empty).1 = (Slice.elems [], none) ∧
      (ListUsers storeRepo 10 0 Store.empty).1 = (Slice.null, none) ∧
      (ListUsers storeRepo 10 0 Store.empty).1.1 ≠ Slice.elems [] := by
  refine ⟨?_, by decide, by decide, by decide⟩
  intro σ repo limit offset s h
  unfold ListUsers
  rcases hr : repo.List limit offset s with ⟨⟨users, err⟩, s1⟩
  rw [hr] at h
  simp only [Prod.mk.injEq] at h
  obtain ⟨rfl, rfl⟩ := h
  rfl

/-- C16: `ListUsers` makes one repository call, `List` with the same limit and
offset. When that succeeds it returns no error and one response per returned
row, in the same order, each the projection of the row at its position, so the
lengths are equal; when that fails it returns the `nil` slice and the same
error. -/
theorem ListUsers_projects_each {σ : Type} (repo : UserRepository σ) (limit offset : Int)
    (s : σ) :
    (ListUsers (recording repo) limit offset (s, [])).2.2 = [Call.List limit offset] ∧
      (∀ users, (repo.List limit offset s).1 = (users, none) →
        (ListUsers repo limit offset s).1.2 = none ∧
        (ListUsers repo limit offset s).1.1.toList = users.toList.map toUserResponse ∧
        (ListUsers repo limit offset s).1.1.toList.length = users.toList.length ∧
        ∀ i (h : i < users.toList.length),
          (ListUsers repo limit offset s).1.1.toList[i]? =
            some (toUserResponse (users.toList.get ⟨i, h⟩))) ∧
      (∀ users err, (repo.List limit offset s).1 = (users, some err) →
        (ListUsers repo limit offset s).1 = (Slice.null, some err)) := by
  unfold ListUsers
  simp only [recording_List]
  rcases hr : repo.List limit offset s with ⟨⟨users, _ | err⟩, s1⟩
  · refine ⟨rfl, ?_, fun users err h => (by cases h)⟩
    intro users2 h
    simp only [Prod.mk.injEq, and_true] at h
    subst h
    have hlist : (users.toList.foldl
        (fun responses user => responses.append (toUserResponse user)) Slice.null).toList =
        users.toList.map toUserResponse := by
      rw [foldl_append_toList]
      rfl
    simp only [hlist, List.length_map, true_and]
    intro i hi
    simp [List.getElem?_map, List.getElem?_eq_getElem hi]
  · refine ⟨rfl, fun users h => (by cases h), ?_⟩
    intro users2 err2 h
    simp only [Prod.mk.injEq, Option.some.injEq] at h
    obtain ⟨-, rfl⟩ := h
    rfl

/-- Witness of C16: listing the table of alice and bob with limit 10 and
offset 0. -/
theorem ListUsers_projects_each_witness :
    (storeRepo.List 10 0 sampleStore).1 = (Slice.elems [alice, bob], none) ∧
      (ListUsers storeRepo 10 0 sampleStore).1.1.toList =
        [toUserResponse alice, toUserResponse bob] :=
  ⟨by decide,
    ((ListUsers_projects_each storeRepo 10 0 sampleStore).2.1 (Slice.elems [alice, bob])
      (by decide)).2.1⟩

/-! ## Failing and succeeding updates -/

/-- With a username lookup that leaves the repository as it was, so does the
username block. -/
theorem applyUsername_state {σ : Type} (repo : UserRepository σ) (id : Nat)
    (req : UpdateUserRequest) (user : User) (s : σ)
    (hname : ∀ n st, (repo.GetByUsername n st).2 = st) :
    (applyUsername repo id req user s).2 = s := by
  unfold applyUsername
  by_cases hn : req.Username ≠ ""
  · simp only [if_pos hn]
    have := hname req.Username s
    rcases hr : repo.GetByUsername req.Username s with ⟨r | existing, s1⟩ <;> rw [hr] at this
    · exact this
    · by_cases hid : existing.ID ≠ id
      · simp only [if_pos hid]; exact this
      · simp only [if_neg hid]; exact this
  · simp only [if_neg hn]

/-- With an email lookup that leaves the repository as it was, so does the
email block. -/
theorem applyEmail_state {σ : Type} (repo : UserRepository σ) (id : Nat)
    (req : UpdateUserRequest) (user : User) (s : σ)
    (hemail : ∀ e st, (repo.GetByEmail e st).2 = st) :
    (applyEmail repo id req user s).2 = s := by
  unfold applyEmail
  by_cases hn : req.Email ≠ ""
  · simp only [if_pos hn]
    have := hemail req.Email s
    rcases hr : repo.GetByEmail req.Email s with ⟨r | existing, s1⟩ <;> rw [hr] at this
    · exact this
    · by_cases hid : existing.ID ≠ id
      · simp only [if_pos hid]; exact this
      · simp only [if_neg hid]; exact this
  · simp only [if_neg hn]

/-- The lookups of `UpdateUser` are no writes. -/
theorem reads_not_write (id : Nat) (req : UpdateUserRequest) (c : Call)
    (hc : c ∈ [Call.GetByID id] ++ usernameCalls req ++ emailCalls req) :
    c.isWrite = false := by
  simp only [List.mem_append, List.mem_singleton] at hc
  rcases hc with (rfl | hc) | hc
  · rfl
  · unfold usernameCalls at hc
    split_ifs at hc
    · simp only [List.mem_singleton] at hc
      subst hc
      rfl
    · cases hc
  · unfold emailCalls at hc
    split_ifs at hc
    · simp only [List.mem_singleton] at hc
      subst hc
      rfl
    · cases hc

/-- `Update` on the store never fails. -/
theorem Store.Update_ok (s : Store) (user : User) : (s.Update user).1.2 = none := by
  unfold Store.Update
  split_ifs <;> rfl

/-- C11: against a repository whose getters only read and whose `Update`
writes nothing when it fails, every `UpdateUser` call that returns an error
(missing id, duplicate username, duplicate email, failed `Update`) leaves the
repository exactly as it was, so `GetByID` on the target answers as before the
call; the only write the call can have made is the `Update` that failed with
the returned error. -/
theorem UpdateUser_fail_fast {σ : Type} (repo : UserRepository σ) (id : Nat)
    (req : UpdateUserRequest) (s : σ) (err : Error)
    (hfail : (UpdateUser repo id req s).1 = .error err)
    (hid : ∀ i st, (repo.GetByID i st).2 = st)
    (hname : ∀ n st, (repo.GetByUsername n st).2 = st)
    (hemail : ∀ e st, (repo.GetByEmail e st).2 = st)
    (hatomic : ∀ u st e, (repo.Update u st).1.2 = some e → (repo.Update u st).2 = st) :
    (UpdateUser repo id req s).2 = s ∧
      (repo.GetByID id (UpdateUser repo id req s).2).1 = (repo.GetByID id s).1 ∧
      ∀ c ∈ (UpdateUser (recording repo) id req (s, [])).2.2, c.isWrite = true →
        ∃ u, c = Call.Update u ∧ (repo.Update u s).1.2 = some err := by
  have key : (UpdateUser repo id req s).2 = s ∧
      ∀ c ∈ (UpdateUser (recording repo) id req (s, [])).2.2, c.isWrite = true →
        ∃ u, c = Call.Update u ∧ (repo.Update u s).1.2 = some err := by
    rw [UpdateUser_log]
    unfold UpdateUser at hfail ⊢
    have h0 := hid id s
    rcases hr : repo.GetByID id s with ⟨r | user, s1⟩ <;> rw [hr] at hfail h0 <;>
      simp only at hfail h0 ⊢ <;> subst h0
    · refine ⟨rfl, fun c hc hw => ?_⟩
      have := reads_not_write id req c (List.mem_append_left _ (List.mem_append_left _ hc))
      rw [this] at hw
      cases hw
    · have hs1 := applyUsername_state repo id req user s1 hname
      rcases h1 : applyUsername repo id req user s1 with ⟨_ | user1, s2⟩ <;>
        rw [h1] at hfail hs1 <;> simp only at hfail hs1 ⊢ <;> subst hs1
      · refine ⟨rfl, fun c hc hw => ?_⟩
        have := reads_not_write id req c (List.mem_append_left _ hc)
        rw [this] at hw
        cases hw
      · have hs2 := applyEmail_state repo id req user1 s2 hemail
        rcases h2 : applyEmail repo id req user1 s2 with ⟨_ | user2, s3⟩ <;>
          rw [h2] at hfail hs2 <;> simp only at hfail hs2 ⊢ <;> subst hs2
        · refine ⟨rfl, fun c hc hw => ?_⟩
          have := reads_not_write id req c hc
          rw [this] at hw
          cases hw
        · have ha := hatomic user2 s3
          rcases h3 : repo.Update user2 s3 with ⟨⟨u, _ | e⟩, s4⟩ <;> rw [h3] at hfail ha
          · simp at hfail
          · simp only [Except.error.injEq] at hfail
            subst hfail
            have hs4 : s4 = s3 := ha e rfl
            subst hs4
            refine ⟨rfl, fun c hc hw => ?_⟩
            rcases List.mem_append.1 hc with hc | hc
            · have := reads_not_write id req c hc
              rw [this] at hw
              cases hw
            · simp only [List.mem_singleton] at hc
              exact ⟨user2, hc, by rw [h3]⟩
  refine ⟨key.1, ?_, key.2⟩
  rw [key.1]

/-- Witness of C11: for alice the username `alicia` is free but the email
`b@x.com` is bob's, and the table is left as it was; with an `Update` that
fails, the failed `Update` is the only write and the table is left as it
was. -/
theorem UpdateUser_fail_fast_witness :
    (UpdateUser storeRepo 1 ⟨"alicia", "b@x.com"⟩ sampleStore).1 =
        .error (Error.New "email already exists") ∧
      (UpdateUser storeRepo 1 ⟨"alicia", "b@x.com"⟩ sampleStore).2 = sampleStore ∧
      (UpdateUser failingUpdate 1 ⟨"alicia", ""⟩ sampleStore).1 =
        .error (Error.Failure "connection lost") ∧
      (UpdateUser failingUpdate 1 ⟨"alicia", ""⟩ sampleStore).2 = sampleStore :=
  ⟨by decide,
    (UpdateUser_fail_fast storeRepo 1 ⟨"alicia", "b@x.com"⟩ sampleStore
      (Error.New "email already exists") (by decide) (fun _ _ => rfl) (fun _ _ => rfl)
      (fun _ _ => rfl)
      (fun u st e h => by
        rw [show storeRepo.Update u st = st.Update u from rfl, Store.Update_ok] at h
        cases h)).1,
    by decide,
    (UpdateUser_fail_fast failingUpdate 1 ⟨"alicia", ""⟩ sampleStore
      (Error.Failure "connection lost") (by decide) (fun _ _ => rfl) (fun _ _ => rfl)
      (fun _ _ => rfl) (fun _ _ _ _ => rfl)).1⟩

/-- `Update` of a row whose id is in the table replaces the rows with that id
by the row with `UpdatedAt` refreshed. -/
theorem Store.Update_of_mem (s : Store) (user : User) (hex : ∃ r ∈ s.rows, r.ID = user.ID) :
    s.Update user =
      (({ user with UpdatedAt := s.now }, none),
        { rows := s.rows.map (fun r =>
            if r.ID == user.ID then { user with UpdatedAt := s.now } else r),
          now := s.now + 1 }) := by
  unfold Store.Update
  have hany : s.rows.any (fun r => r.ID == user.ID) = true := by
    simp only [List.any_eq_true, beq_iff_eq]
    exact hex
  simp only [hany, if_true]

/-- After `Update` of a live row whose id is in the table, `GetByID` on that
id answers the row as `Update` wrote it. -/
theorem Store.GetByID_after_Update (s : Store) (user : User)
    (hex : ∃ r ∈ s.rows, r.ID = user.ID) (hlive : user.live = true) :
    (s.Update user).2.GetByID user.ID = .ok { user with UpdatedAt := s.now } := by
  rw [Store.Update_of_mem s user hex]
  unfold Store.GetByID
  simp only [List.find?_map]
  have hfun : ((fun r : User => r.live && r.ID == user.ID) ∘
      fun r => if r.ID == user.ID then { user with UpdatedAt := s.now } else r) =
      fun r => r.live && r.ID == user.ID || r.ID == user.ID := by
    funext r
    by_cases h : r.ID = user.ID
    · have hl : User.live { user with UpdatedAt := s.now } = true := hlive
      simp [h, hl]
    · simp [h]
  rw [hfun]
  obtain ⟨r0, hr0, hid0⟩ := hex
  cases hf : s.rows.find? (fun r => r.live && r.ID == user.ID || r.ID == user.ID) with
  | none =>
    rw [List.find?_eq_none] at hf
    exact absurd (by simp [hid0]) (hf r0 hr0)
  | some r =>
    have hp := List.find?_some hf
    have hrid : r.ID = user.ID := by
      simp only [Bool.or_eq_true, Bool.and_eq_true, beq_iff_eq] at hp
      rcases hp with ⟨_, h⟩ | h <;> exact h
    simp [hrid]

/-- A successful `UpdateUser` on the store, step by step. -/
theorem UpdateUser_storeRepo_ok (id : Nat) (req : UpdateUserRequest) (s s1 : Store)
    (resp : UserResponse) (hok : UpdateUser storeRepo id req s = (.ok resp, s1)) :
    ∃ user user1 user2, s.GetByID id = .ok user ∧
      (applyUsername storeRepo id req user s).1 = some user1 ∧
      (applyEmail storeRepo id req user1 s).1 = some user2 ∧
      s1 = (s.Update user2).2 ∧ resp = toUserResponse (s.Update user2).1.1 := by
  unfold UpdateUser at hok
  have hg : storeRepo.GetByID id s = (s.GetByID id, s) := rfl
  rw [hg] at hok
  cases hget : s.GetByID id with
  | error e => rw [hget] at hok; simp at hok
  | ok user =>
    rw [hget] at hok
    simp only at hok
    have hs1 := applyUsername_storeRepo_state id req user s
    rcases h1 : applyUsername storeRepo id req user s with ⟨_ | user1, s2⟩ <;>
      rw [h1] at hok hs1
    · simp at hok
    · simp only at hok hs1
      subst hs1
      have hs2 := applyEmail_storeRepo_state id req user1 s2
      rcases h2 : applyEmail storeRepo id req user1 s2 with ⟨_ | user2, s3⟩ <;>
        rw [h2] at hok hs2
      · simp at hok
      · simp only at hok hs2
        subst hs2
        have hupd : storeRepo.Update user2 s3 = s3.Update user2 := rfl
        rw [hupd] at hok
        refine ⟨user, user1, user2, rfl, by rw [h1], by rw [h2], ?_⟩
        rcases h3 : s3.Update user2 with ⟨⟨u, _ | err⟩, s4⟩ <;> rw [h3] at hok
        · simp only [Prod.mk.injEq, Except.ok.injEq] at hok
          exact ⟨hok.2.symm, hok.1.symm⟩
        · simp at hok

/-- C12: on the store, the response of a successful `UpdateUser` has the
target id, the `CreatedAt` of the fetched row, and as username and email the
request's values where those are non-empty and the fetched row's values where
they are empty; and it describes the row as it now is: `GetUser` on the target
id right afterwards returns the same response. -/
theorem UpdateUser_response (id : Nat) (req : UpdateUserRequest) (s s1 : Store) (user : User)
    (resp : UserResponse) (hget : s.GetByID id = .ok user)
    (hok : UpdateUser storeRepo id req s = (.ok resp, s1)) :
    resp.ID = id ∧ resp.CreatedAt = user.CreatedAt ∧
      resp.Username = (if req.Username ≠ "" then req.Username else user.Username) ∧
      resp.Email = (if req.Email ≠ "" then req.Email else user.Email) ∧
      (GetUser storeRepo id s1).1 = .ok resp := by
  obtain ⟨user0, user1, user2, hget0, h1, h2, hs1, hresp⟩ :=
    UpdateUser_storeRepo_ok id req s s1 resp hok
  rw [hget] at hget0
  simp only [Except.ok.injEq] at hget0
  subst hget0
  obtain ⟨hmem, hlive, hid⟩ := s.GetByID_ok id user hget
  have hu1 := applyUsername_eq_some storeRepo id req user user1 s h1
  have hu2 := applyEmail_eq_some storeRepo id req user1 user2 s h2
  have hid2 : user2.ID = id := by rw [hu2, hu1]; exact hid
  have hlive2 : user2.live = true := by rw [hu2, hu1]; exact hlive
  have hex : ∃ r ∈ s.rows, r.ID = user2.ID := ⟨user, hmem, by rw [hid2, hid]⟩
  have hupd := Store.Update_of_mem s user2 hex
  have hread := Store.GetByID_after_Update s user2 hex hlive2
  rw [hupd] at hresp
  simp only [toUserResponse] at hresp
  refine ⟨by rw [hresp]; exact hid2, by rw [hresp, hu2, hu1], by rw [hresp, hu2, hu1],
    by rw [hresp, hu2, hu1], ?_⟩
  unfold GetUser
  have hg : storeRepo.GetByID id s1 = (s1.GetByID id, s1) := rfl
  rw [hg, hs1, ← hid2, hread, hresp]
  rfl

/-- Witness of C12: alice renamed to `alicia`, the email left empty. -/
theorem UpdateUser_response_witness :
    sampleStore.GetByID 1 = .ok alice ∧
      (UpdateUser storeRepo 1 ⟨"alicia", ""⟩ sampleStore).1 =
        .ok { ID := 1, Username := "alicia", Email := "a@x.com", CreatedAt := 0,
              UpdatedAt := 2 } ∧
      (GetUser storeRepo 1 (UpdateUser storeRepo 1 ⟨"alicia", ""⟩ sampleStore).2).1 =
        .ok { ID := 1, Username := "alicia", Email := "a@x.com", CreatedAt := 0,
              UpdatedAt := 2 } :=
  ⟨by decide, by decide,
    (UpdateUser_response 1 ⟨"alicia", ""⟩ sampleStore
      (UpdateUser storeRepo 1 ⟨"alicia", ""⟩ sampleStore).2 alice
      { ID := 1, Username := "alicia", Email := "a@x.com", CreatedAt := 0, UpdatedAt := 2 }
      (by decide) (by decide)).2.2.2.2⟩

/-! ## Deleting -/

/-- After `Delete`, no live row of the table has the deleted id. -/
theorem Store.not_live_after_Delete (s : Store) (id : Nat) :
    ∀ r ∈ (s.Delete id).2.rows, ¬ (r.live && r.ID == id) = true := by
  intro r hr
  simp only [Store.Delete, List.mem_map] at hr
  obtain ⟨r0, _, rfl⟩ := hr
  by_cases h : (r0.live && r0.ID == id) = true
  · rw [if_pos h]
    simp [User.live]
  · rw [if_neg h]
    exact h

/-- `GetByID` fails with not-found when no live row has the id. -/
theorem Store.GetByID_eq_error (s : Store) (id : Nat)
    (h : ∀ r ∈ s.rows, ¬ (r.live && r.ID == id) = true) :
    s.GetByID id = .error Error.ErrRecordNotFound := by
  unfold Store.GetByID
  have : s.rows.find? (fun r => r.live && r.ID == id) = none := by
    rw [List.find?_eq_none]
    exact h
  rw [this]

/-- `Delete` on an id that no live row has leaves the rows as they were. -/
theorem Store.Delete_rows_of_absent (s : Store) (id : Nat)
    (h : ∀ r ∈ s.rows, ¬ (r.live && r.ID == id) = true) :
    (s.Delete id).2.rows = s.rows := by
  simp only [Store.Delete]
  conv_rhs => rw [← List.map_id s.rows]
  apply List.map_congr_left
  intro r hr
  simp only [h r hr, if_false, Bool.false_eq_true, id_eq]

/-- C17: on the store, `DeleteUser` never returns an error: not the first
time, not a second time on the same id, not on an id that no row ever had
(where it also leaves every row as it was). From the first call onwards
`GetUser` on the id fails with not-found, and the second call changes no
row. -/
theorem DeleteUser_idempotent (id : Nat) (s : Store) :
    (DeleteUser storeRepo id s).1 = none ∧
      (DeleteUser storeRepo id (DeleteUser storeRepo id s).2).1 = none ∧
      (GetUser storeRepo id (DeleteUser storeRepo id s).2).1 =
        .error Error.ErrRecordNotFound ∧
      (GetUser storeRepo id (DeleteUser storeRepo id (DeleteUser storeRepo id s).2).2).1 =
        .error Error.ErrRecordNotFound ∧
      (DeleteUser storeRepo id (DeleteUser storeRepo id s).2).2.rows =
        (DeleteUser storeRepo id s).2.rows ∧
      ((∀ r ∈ s.rows, r.ID ≠ id) → (DeleteUser storeRepo id s).2.rows = s.rows) := by
  have hd : ∀ st : Store, DeleteUser storeRepo id st = st.Delete id := fun _ => rfl
  have hg : ∀ st : Store, GetUser storeRepo id st = 
      match st.GetByID id with
      | .error err => (.error err, st)
      | .ok user => (.ok (toUserResponse user), st) := by
    intro st
    unfold GetUser
    have : storeRepo.GetByID id st = (st.GetByID id, st) := rfl
    rw [this]
    cases st.GetByID id <;> rfl
  have h1 := s.not_live_after_Delete id
  have h2 := (s.Delete id).2.not_live_after_Delete id
  simp only [hd, hg]
  refine ⟨rfl, rfl, ?_, ?_, Store.Delete_rows_of_absent _ id h1, ?_⟩
  · rw [Store.GetByID_eq_error _ id h1]
  · rw [Store.GetByID_eq_error _ id h2]
  · intro h
    apply Store.Delete_rows_of_absent
    intro r hr
    simp [h r hr]

/-- Witness of C17: bob deleted twice, and a delete of id 999. -/
theorem DeleteUser_idempotent_witness :
    (GetUser storeRepo 2 sampleStore).1 = .ok (toUserResponse bob) ∧
      (DeleteUser storeRepo 2 (DeleteUser storeRepo 2 sampleStore).2).1 = none ∧
      (GetUser storeRepo 2 (DeleteUser storeRepo 2 sampleStore).2).1 =
        .error Error.ErrRecordNotFound ∧
      (DeleteUser storeRepo 999 sampleStore).1 = none :=
  ⟨by decide, (DeleteUser_idempotent 2 sampleStore).2.1,
    (DeleteUser_idempotent 2 sampleStore).2.2.1, (DeleteUser_idempotent 999 sampleStore).1⟩

/-! ## Exact email matching -/

/-- A successful `GetByEmail` answers a live row of the table with exactly
that email. -/
theorem Store.GetByEmail_ok (s : Store) (email : String) (u : User)
    (h : s.GetByEmail email = .ok u) : u ∈ s.rows ∧ u.live = true ∧ u.Email = email := by
  unfold Store.GetByEmail at h
  cases hf : s.rows.find? (fun r => r.live && r.Email == email) with
  | none => rw [hf] at h; cases h
  | some r =>
    rw [hf] at h
    simp only [Except.ok.injEq] at h
    subst h
    have hp := List.find?_some hf
    simp only [Bool.and_eq_true, beq_iff_eq] at hp
    exact ⟨List.mem_of_find?_eq_some hf, hp.1, hp.2⟩

/-- The username block of `UpdateUser` makes no email lookup and no write,
and every lookup of the email block is keyed by `req.Email` as given. -/
theorem updateCalls_email (req : UpdateUserRequest) :
    (∀ key, Call.GetByEmail key ∉ usernameCalls req) ∧
      (∀ user, Call.Update user ∉ usernameCalls req) ∧
      (∀ key, Call.GetByEmail key ∈ emailCalls req → key = req.Email) ∧
      (∀ user, Call.Update user ∉ emailCalls req) ∧
      (req.Email ≠ "" → Call.GetByEmail req.Email ∈ emailCalls req) := by
  unfold usernameCalls emailCalls
  refine ⟨?_, ?_, ?_, ?_, ?_⟩
  · intro key; split_ifs <;> simp
  · intro user; split_ifs <;> simp
  · intro key; split_ifs <;> simp
  · intro user; split_ifs <;> simp
  · intro hne; simp [hne]

/-- Every email lookup of `UpdateUser` is keyed by `req.Email` as given, and
when `req.Email` is non-empty every user handed to `Update` carries it as
given, for every repository. -/
theorem UpdateUser_email_calls {σ : Type} (repo : UserRepository σ) (id : Nat)
    (req : UpdateUserRequest) (s : σ) :
    (∀ key, Call.GetByEmail key ∈ (UpdateUser (recording repo) id req (s, [])).2.2 →
        key = req.Email) ∧
      (req.Email ≠ "" →
        ∀ user, Call.Update user ∈ (UpdateUser (recording repo) id req (s, [])).2.2 →
          user.Email = req.Email) := by
  obtain ⟨hc1, hc2, hc3, hc4, -⟩ := updateCalls_email req
  rw [UpdateUser_log]
  rcases hr : repo.GetByID id s with ⟨err | user, s1⟩
  · simp
  · simp only
    rcases h1 : applyUsername repo id req user s1 with ⟨_ | user1, s2⟩
    · simp only [List.mem_append, List.mem_singleton]
      refine ⟨fun key h => ?_, fun _ u h => ?_⟩
      · rcases h with h | h
        · cases h
        · exact absurd h (hc1 key)
      · rcases h with h | h
        · cases h
        · exact absurd h (hc2 u)
    · simp only
      rcases h2 : applyEmail repo id req user1 s2 with ⟨_ | user2, s3⟩
      · simp only [List.mem_append, List.mem_singleton]
        refine ⟨fun key h => ?_, fun _ u h => ?_⟩
        · rcases h with (h | h) | h
          · cases h
          · exact absurd h (hc1 key)
          · exact hc3 key h
        · rcases h with (h | h) | h
          · cases h
          · exact absurd h (hc2 u)
          · exact absurd h (hc4 u)
      · have hu2 := applyEmail_eq_some repo id req user1 user2 s2 (by rw [h2])
        simp only [List.mem_append, List.mem_singleton]
        refine ⟨fun key h => ?_, fun hne u h => ?_⟩
        · rcases h with ((h | h) | h) | h
          · cases h
          · exact absurd h (hc1 key)
          · exact hc3 key h
          · cases h
        · rcases h with ((h | h) | h) | h
          · cases h
          · exact absurd h (hc2 u)
          · exact absurd h (hc4 u)
          · simp only [Call.Update.injEq] at h
            subst h
            rw [hu2]
            simp only [if_pos hne]

/-- A successful `UpdateUser` with a non-empty `req.Email` looked that email
up and handed `Update` a user carrying it, for every repository. -/
theorem UpdateUser_email_calls_of_ok {σ : Type} (repo : UserRepository σ) (id : Nat)
    (req : UpdateUserRequest) (s : σ) (resp : UserResponse) (hne : req.Email ≠ "")
    (hok : (UpdateUser repo id req s).1 = .ok resp) :
    Call.GetByEmail req.Email ∈ (UpdateUser (recording repo) id req (s, [])).2.2 ∧
      ∃ user, Call.Update user ∈ (UpdateUser (recording repo) id req (s, [])).2.2 ∧
        user.Email = req.Email := by
  obtain ⟨-, -, -, -, hc5⟩ := updateCalls_email req
  rw [UpdateUser_log]
  unfold UpdateUser at hok
  rcases hr : repo.GetByID id s with ⟨err | user, s1⟩ <;> rw [hr] at hok
  · simp at hok
  · simp only at hok ⊢
    rcases h1 : applyUsername repo id req user s1 with ⟨_ | user1, s2⟩ <;> rw [h1] at hok
    · simp at hok
    · simp only at hok ⊢
      rcases h2 : applyEmail repo id req user1 s2 with ⟨_ | user2, s3⟩ <;> rw [h2] at hok
      · simp at hok
      · have hu2 := applyEmail_eq_some repo id req user1 user2 s2 (by rw [h2])
        simp only [List.mem_append, List.mem_singleton]
        refine ⟨Or.inl (Or.inr (hc5 hne)), user2, Or.inr rfl, ?_⟩
        rw [hu2]
        simp only [if_pos hne]

/-- After `Update` of a live row whose id is in the table to an email no live
row held, `GetByEmail` on that email answers the row as `Update` wrote it. -/
theorem Store.GetByEmail_after_Update (s : Store) (user : User)
    (hex : ∃ r ∈ s.rows, r.ID = user.ID) (hlive : user.live = true)
    (hfree : ∀ r ∈ s.rows, r.live = true → r.Email ≠ user.Email) :
    (s.Update user).2.GetByEmail user.Email = .ok { user with UpdatedAt := s.now } := by
  rw [Store.Update_of_mem s user hex]
  unfold Store.GetByEmail
  have hl : User.live { user with UpdatedAt := s.now } = true := hlive
  obtain ⟨r0, hr0, hid0⟩ := hex
  cases hf : (s.rows.map (fun r =>
      if r.ID == user.ID then { user with UpdatedAt := s.now } else r)).find?
      (fun r => r.live && r.Email == user.Email) with
  | none =>
    rw [List.find?_eq_none] at hf
    have hmem : ({ user with UpdatedAt := s.now } : User) ∈ s.rows.map (fun r =>
        if r.ID == user.ID then { user with UpdatedAt := s.now } else r) := by
      rw [List.mem_map]
      exact ⟨r0, hr0, by simp [hid0]⟩
    exact absurd (by simp [hl]) (hf _ hmem)
  | some r =>
    have hp := List.find?_some hf
    have hm := List.mem_of_find?_eq_some hf
    simp only [Bool.and_eq_true, beq_iff_eq] at hp
    rw [List.mem_map] at hm
    obtain ⟨r1, hr1, heq⟩ := hm
    by_cases hid : r1.ID = user.ID
    · simp only [hid, beq_self_eq_true, if_true] at heq
      rw [← heq]
    · have hb : (r1.ID == user.ID) = false := by simpa using hid
      simp only [hb] at heq
      subst heq
      exact absurd hp.2 (hfree r1 hr1 hp.1)

/-- C20: email matching is exact. A lookup answers only a row whose email is
the key, character for character; every `GetByEmail` call of `CreateUser` and
of `UpdateUser` is keyed by `req.Email` as given, every user handed to
`Create` carries it as given, and so does every user handed to `Update` when
the request names an email. So when no live row holds exactly `email` (rows
holding it in another letter case do not count), the lookup by `email` finds
nothing, `CreateUser` with that email gets past the email check and, unless
the hasher itself answers so, does not fail with "email already exists", and
a successful `CreateUser` stores and returns the email unchanged; `UpdateUser`
with that email does not fail with "email already exists", and a successful
one looked up exactly `email`, handed `Update` a user carrying exactly
`email`, returns it unchanged and leaves the target row stored under exactly
`email`. -/
theorem email_match_is_exact (hash : String → Except Error String) (s : Store)
    (email : String) (hfree : ∀ r ∈ s.rows, r.live = true → r.Email ≠ email) :
    s.GetByEmail email = .error Error.ErrRecordNotFound ∧
      (∀ key u, s.GetByEmail key = .ok u → u.Email = key) ∧
      (∀ req : CreateUserRequest, req.Email = email →
        ((∀ err, hash req.Password = .error err →
            err ≠ Error.New "email already exists") →
          (CreateUser storeRepo hash req s).1 ≠ .error (Error.New "email already exists")) ∧
        Call.GetByUsername req.Username ∈
          (CreateUser (recording storeRepo) hash req (s, [])).2.2 ∧
        (∀ key, Call.GetByEmail key ∈
            (CreateUser (recording storeRepo) hash req (s, [])).2.2 → key = email) ∧
        (∀ user, Call.Create user ∈
            (CreateUser (recording storeRepo) hash req (s, [])).2.2 → user.Email = email) ∧
        (∀ resp s1, CreateUser storeRepo hash req s = (.ok resp, s1) →
          resp.Email = email ∧
          ∃ row, s1.GetByEmail email = .ok row ∧ row.ID = resp.ID ∧ row.Email = email)) ∧
      (∀ id (upd : UpdateUserRequest), upd.Email = email →
        (UpdateUser storeRepo id upd s).1 ≠ .error (Error.New "email already exists") ∧
        (∀ key, Call.GetByEmail key ∈
            (UpdateUser (recording storeRepo) id upd (s, [])).2.2 → key = email) ∧
        (email ≠ "" → ∀ user, Call.Update user ∈
            (UpdateUser (recording storeRepo) id upd (s, [])).2.2 → user.Email = email) ∧
        (email ≠ "" → ∀ resp s1, UpdateUser storeRepo id upd s = (.ok resp, s1) →
          Call.GetByEmail email ∈ (UpdateUser (recording storeRepo) id upd (s, [])).2.2 ∧
          (∃ user, Call.Update user ∈
              (UpdateUser (recording storeRepo) id upd (s, [])).2.2 ∧ user.Email = email) ∧
          resp.ID = id ∧ resp.Email = email ∧
          ∃ row, s1.GetByEmail email = .ok row ∧ row.ID = id ∧ row.Email = email)) := by
  have hnf := s.GetByEmail_eq_error email hfree
  refine ⟨hnf, fun key u h => (s.GetByEmail_ok key u h).2.2, ?_, ?_⟩
  · intro req hreq
    subst hreq
    have hge : storeRepo.GetByEmail req.Email s = (.error Error.ErrRecordNotFound, s) := by
      show (s.GetByEmail req.Email, s) = _
      rw [hnf]
    have hgu : storeRepo.GetByUsername req.Username s = (s.GetByUsername req.Username, s) :=
      rfl
    have hcr : ∀ u, storeRepo.Create u s = s.Create u := fun _ => rfl
    have hlog := CreateUser_log storeRepo hash req s
    rw [hge] at hlog
    simp only [hgu] at hlog
    refine ⟨?_, ?_, ?_, ?_, ?_⟩
    · intro hhash
      unfold CreateUser
      rw [hge]
      simp only [hgu]
      cases s.GetByUsername req.Username with
      | ok u =>
        simp only [ne_eq, Except.error.injEq, Error.New.injEq]
        decide
      | error e2 =>
        simp only
        cases hh : hash req.Password with
        | error err =>
          simp only [ne_eq, Except.error.injEq]
          exact hhash err hh
        | ok hashed =>
          simp only [hcr]
          unfold Store.Create
          split_ifs
          · simp
          · simp
    · rw [hlog]
      cases s.GetByUsername req.Username with
      | ok u => simp
      | error e2 =>
        simp only
        cases hash req.Password <;> simp
    · intro key hkey
      rw [hlog] at hkey
      rcases hu : s.GetByUsername req.Username with e2 | u <;> rw [hu] at hkey
      · simp only at hkey
        rcases hh : hash req.Password with err | hashed <;> rw [hh] at hkey <;>
          simpa using hkey
      · simpa using hkey
    · intro user huser
      exact (CreateUser_create_call storeRepo hash req s user huser).2.1
    · intro resp s1 hok
      unfold CreateUser at hok
      rw [hge] at hok
      simp only [hgu] at hok
      rcases hu : s.GetByUsername req.Username with e2 | u <;> rw [hu] at hok
      · simp only at hok
        rcases hh : hash req.Password with err | hashed <;> rw [hh] at hok
        · simp at hok
        · simp only [hcr] at hok
          unfold Store.Create at hok
          split_ifs at hok
          · simp at hok
          · simp only [Prod.mk.injEq, Except.ok.injEq] at hok
            obtain ⟨hresp, hs1⟩ := hok
            subst hresp hs1
            refine ⟨rfl, User.mk s.nextID req.Username req.Email hashed s.now s.now none, ?_,
              rfl, rfl⟩
            unfold Store.GetByEmail
            have hnone : s.rows.find? (fun r => r.live && r.Email == req.Email) = none := by
              rw [List.find?_eq_none]
              intro r hr
              simp only [Bool.and_eq_true, beq_iff_eq, not_and]
              exact fun hl => hfree r hr hl
            simp only [List.find?_append, hnone, Option.none_or]
            simp [User.live]
      · simp at hok
  · intro id upd hupd
    subst hupd
    refine ⟨?_, (UpdateUser_email_calls storeRepo id upd s).1,
      (UpdateUser_email_calls storeRepo id upd s).2, ?_⟩
    · intro hres
      unfold UpdateUser at hres
      have hg : storeRepo.GetByID id s = (s.GetByID id, s) := rfl
      rw [hg] at hres
      rcases hget : s.GetByID id with e | user <;> rw [hget] at hres
      · simp only [Except.error.injEq] at hres
        unfold Store.GetByID at hget
        split at hget
        · cases hget
        · simp only [Except.error.injEq] at hget
          rw [← hget] at hres
          cases hres
      · simp only at hres
        rcases h1 : applyUsername storeRepo id upd user s with ⟨_ | user1, s2⟩ <;>
          rw [h1] at hres
        · simp only [Except.error.injEq, Error.New.injEq] at hres
          exact absurd hres (by decide)
        · have hs2 := applyUsername_storeRepo_state id upd user s
          rw [h1] at hs2
          simp only at hs2 hres
          subst hs2
          have hnone := applyEmail_eq_none_iff storeRepo id upd user1 s2
          rcases h2 : applyEmail storeRepo id upd user1 s2 with ⟨_ | user2, s3⟩ <;>
            rw [h2] at hres hnone
          · obtain ⟨-, found, hf, -⟩ := hnone.1 rfl
            have : (storeRepo.GetByEmail upd.Email s2).1 = s2.GetByEmail upd.Email := rfl
            rw [this, hnf] at hf
            cases hf
          · simp only at hres
            have hupd : storeRepo.Update user2 s3 = s3.Update user2 := rfl
            have hok := s3.Update_ok user2
            rw [hupd] at hres
            rcases h3 : s3.Update user2 with ⟨⟨u, _ | err⟩, s4⟩ <;> rw [h3] at hres hok
            · simp at hres
            · simp at hok
    · intro hne resp s1 hok
      obtain ⟨hkey, hupdc⟩ := UpdateUser_email_calls_of_ok storeRepo id upd s resp hne
        (by rw [hok])
      obtain ⟨user, user1, user2, hget, h1, h2, hs1, hresp⟩ :=
        UpdateUser_storeRepo_ok id upd s s1 resp hok
      obtain ⟨hmem, hlive, hid⟩ := s.GetByID_ok id user hget
      have hu1 := applyUsername_eq_some storeRepo id upd user user1 s h1
      have hu2 := applyEmail_eq_some storeRepo id upd user1 user2 s h2
      have he2 : user2.Email = upd.Email := by rw [hu2]; simp only [if_pos hne]
      have hid2 : user2.ID = id := by rw [hu2, hu1]; exact hid
      have hl2 : user2.live = true := by rw [hu2, hu1]; exact hlive
      have hex : ∃ r ∈ s.rows, r.ID = user2.ID := ⟨user, hmem, by rw [hid2, hid]⟩
      have hrow := s.GetByEmail_after_Update user2 hex hl2 (by rw [he2]; exact hfree)
      have hres := Store.Update_of_mem s user2 hex
      refine ⟨hkey, hupdc, ?_, ?_, { user2 with UpdatedAt := s.now }, ?_, hid2, he2⟩
      · rw [hresp, hres]
        exact hid2
      · rw [hresp, hres]
        exact he2
      · rw [hs1, ← he2]
        exact hrow

/-- Witness of C20: in the first table `Test@Example.com` is held by user 1
and `test@example.com` by nobody; the lookup by the lower-case email finds
nothing and a user is created with it. In the second table user 1 holds
`test@example.com`; user 2 is updated to `Test@Example.com`, is stored and
found under exactly that, and user 1 is still the one found under the
lower-case email. -/
theorem email_match_is_exact_witness :
    (mixedCaseStore.GetByEmail "Test@Example.com").toOption.map User.ID = some 1 ∧
      mixedCaseStore.GetByEmail "test@example.com" = .error Error.ErrRecordNotFound ∧
      (CreateUser storeRepo sampleHash ⟨"other", "test@example.com", "pw"⟩ mixedCaseStore).1 =
        .ok { ID := 2, Username := "other", Email := "test@example.com", CreatedAt := 1,
              UpdatedAt := 1 } ∧
      (UpdateUser storeRepo 1 ⟨"", "test@example.com"⟩ mixedCaseStore).1 ≠
        .error (Error.New "email already exists") ∧
      (UpdateUser storeRepo 2 ⟨"", "Test@Example.com"⟩ twoCaseStore).1 =
        .ok { ID := 2, Username := "other", Email := "Test@Example.com", CreatedAt := 1,
              UpdatedAt := 2 } ∧
      (∀ key, Call.GetByEmail key ∈
          (UpdateUser (recording storeRepo) 2 ⟨"", "Test@Example.com"⟩ (twoCaseStore, [])).2.2 →
        key = "Test@Example.com") ∧
      (∀ user, Call.Update user ∈
          (UpdateUser (recording storeRepo) 2 ⟨"", "Test@Example.com"⟩ (twoCaseStore, [])).2.2 →
        user.Email = "Test@Example.com") ∧
      ((UpdateUser storeRepo 2 ⟨"", "Test@Example.com"⟩ twoCaseStore).2.GetByEmail
          "Test@Example.com").toOption.map User.ID = some 2 ∧
      ((UpdateUser storeRepo 2 ⟨"", "Test@Example.com"⟩ twoCaseStore).2.GetByEmail
          "test@example.com").toOption.map User.ID = some 1 :=
  ⟨by decide,
    (email_match_is_exact sampleHash mixedCaseStore "test@example.com" (by decide)).1,
    by decide,
    ((email_match_is_exact sampleHash mixedCaseStore "test@example.com" (by decide)).2.2.2 1
      ⟨"", "test@example.com"⟩ rfl).1,
    by decide,
    ((email_match_is_exact sampleHash twoCaseStore "Test@Example.com" (by decide)).2.2.2 2
      ⟨"", "Test@Example.com"⟩ rfl).2.1,
    ((email_match_is_exact sampleHash twoCaseStore "Test@Example.com" (by decide)).2.2.2 2
      ⟨"", "Test@Example.com"⟩ rfl).2.2.1 (by decide),
    by decide, by decide⟩

/-! ## Listing the store -/

/-- `CreateUser` on the store either fails and leaves the table as it was, or
appends one live row, with the next id and the request's username and email,
and returns its projection. -/
theorem CreateUser_storeRepo_cases (hash : String → Except Error String)
    (req : CreateUserRequest) (s : Store) :
    (∃ e, CreateUser storeRepo hash req s = (.error e, s)) ∨
      ∃ row : User, row.live = true ∧ row.ID = s.nextID ∧ row.Username = req.Username ∧
        row.Email = req.Email ∧
        CreateUser storeRepo hash req s =
          (.ok (toUserResponse row), { rows := s.rows ++ [row], now := s.now + 1 }) := by
  unfold CreateUser
  have hg : storeRepo.GetByEmail req.Email s = (s.GetByEmail req.Email, s) := rfl
  have hg2 : storeRepo.GetByUsername req.Username s = (s.GetByUsername req.Username, s) := rfl
  have hc : ∀ u, storeRepo.Create u s = s.Create u := fun _ => rfl
  rw [hg]
  cases s.GetByEmail req.Email with
  | ok u => exact Or.inl ⟨_, rfl⟩
  | error e =>
    simp only
    rw [hg2]
    cases s.GetByUsername req.Username with
    | ok u => exact Or.inl ⟨_, rfl⟩
    | error e2 =>
      simp only
      cases hash req.Password with
      | error err => exact Or.inl ⟨_, rfl⟩
      | ok hashed =>
        simp only [hc]
        unfold Store.Create
        split_ifs
        · exact Or.inl ⟨_, rfl⟩
        · exact Or.inr ⟨User.mk s.nextID req.Username req.Email hashed s.now s.now none,
            rfl, rfl, rfl, rfl, rfl⟩

/-- Appending a row with the next id keeps the ids ascending. -/
theorem Store.Ascending_append (s : Store) (row : User) (now : Nat) (h : s.Ascending)
    (hid : row.ID = s.nextID) : Store.Ascending { rows := s.rows ++ [row], now := now } := by
  unfold Store.Ascending at h ⊢
  simp only [List.pairwise_append, List.pairwise_cons, List.not_mem_nil, false_implies,
    implies_true, List.Pairwise.nil, and_self, List.mem_singleton, forall_eq, true_and]
  refine ⟨h, fun a ha => ?_⟩
  rw [hid]
  exact s.ID_lt_nextID a ha

/-- On a table with ascending ids, `List` answers the live rows in table
order, `offset` skipped and at most `limit` kept. -/
theorem Store.List_of_ascending (s : Store) (limit offset : Int) (h : s.Ascending) :
    s.List limit offset =
      ((Slice.elems (((s.rows.filter User.live).drop offset.toNat).take limit.toNat), none),
        s) := by
  unfold Store.List
  have hsorted : ((s.rows.filter User.live)).Sorted (fun a b => a.ID ≤ b.ID) :=
    (List.Pairwise.filter _ h).imp (fun hab => Nat.le_of_lt hab)
  rw [List.Sorted.insertionSort_eq hsorted]

/-- `ListUsers` on a table with ascending ids: the projections of the live
rows in table order, `offset` skipped and at most `limit` kept. -/
theorem ListUsers_of_ascending (s : Store) (limit offset : Int) (h : s.Ascending) :
    (ListUsers storeRepo limit offset s).1.2 = none ∧
      (ListUsers storeRepo limit offset s).1.1.toList =
        ((((s.rows.filter User.live).map toUserResponse).drop offset.toNat).take
          limit.toNat) := by
  unfold ListUsers
  have hl : storeRepo.List limit offset s = s.List limit offset := rfl
  rw [hl, Store.List_of_ascending s limit offset h]
  simp only [true_and]
  rw [foldl_append_toList]
  simp [Slice.toList]

/-- What `createdBy` does to a table with ascending ids: it appends live rows,
whose projections are the responses it collects, and keeps the ids
ascending. -/
theorem createdBy_rows (hash : String → Except Error String) (reqs : List CreateUserRequest) :
    ∀ s : Store, s.Ascending →
      (createdBy hash reqs s).2.Ascending ∧
        ∃ added : List User, (createdBy hash reqs s).2.rows = s.rows ++ added ∧
          (∀ r ∈ added, r.live = true) ∧
          added.map toUserResponse = (createdBy hash reqs s).1 := by
  induction reqs with
  | nil => exact fun s h => ⟨h, [], by simp [createdBy], by simp, by simp [createdBy]⟩
  | cons req reqs ih =>
    intro s h
    rcases CreateUser_storeRepo_cases hash req s with ⟨e, he⟩ | ⟨row, hlive, hid, -, -, hrow⟩
    · simp only [createdBy, he]
      exact ih s h
    · simp only [createdBy, hrow]
      obtain ⟨hasc, added, hrows, hadded, hmap⟩ :=
        ih { rows := s.rows ++ [row], now := s.now + 1 } (s.Ascending_append row _ h hid)
      refine ⟨hasc, row :: added, ?_, ?_, ?_⟩
      · rw [hrows]
        simp
      · intro r hr
        rcases List.mem_cons.1 hr with rfl | hr
        · exact hlive
        · exact hadded r hr
      · rw [List.map_cons, hmap]

/-- C19: after the users of `reqs` were created one after the other on an
empty table, `ListUsers(limit, offset)` with `limit > 0` and `offset >= 0`
returns no error and, of the users created, in creation order, exactly those
at positions `offset + 1` to `min (offset + limit) n`: the list of created
users with `offset` dropped and `limit` kept. -/
theorem ListUsers_pagination (hash : String → Except Error String)
    (reqs : List CreateUserRequest) (limit offset : Int) (hlimit : 0 < limit)
    (hoffset : 0 ≤ offset) :
    (ListUsers storeRepo limit offset (createdBy hash reqs Store.empty).2).1.2 = none ∧
      (ListUsers storeRepo limit offset (createdBy hash reqs Store.empty).2).1.1.toList =
        ((createdBy hash reqs Store.empty).1.drop offset.toNat).take limit.toNat ∧
      (ListUsers storeRepo limit offset (createdBy hash reqs Store.empty).2).1.1.toList.length =
        min (offset + limit).toNat (createdBy hash reqs Store.empty).1.length -
          offset.toNat ∧
      (∀ k : Nat, (k : Int) < limit →
        (ListUsers storeRepo limit offset (createdBy hash reqs Store.empty).2).1.1.toList[k]? =
          (createdBy hash reqs Store.empty).1[(offset + k).toNat]?) := by
  have hempty : Store.empty.Ascending := List.Pairwise.nil
  obtain ⟨hasc, added, hrows, hadded, hmap⟩ := createdBy_rows hash reqs Store.empty hempty
  obtain ⟨herr, hlist⟩ :=
    ListUsers_of_ascending (createdBy hash reqs Store.empty).2 limit offset hasc
  have hfilter : (createdBy hash reqs Store.empty).2.rows.filter User.live = added := by
    rw [hrows]
    simp only [Store.empty, List.nil_append]
    exact List.filter_eq_self.2 hadded
  rw [hfilter, hmap] at hlist
  refine ⟨herr, hlist, ?_, ?_⟩
  · rw [hlist, List.length_take, List.length_drop]
    omega
  · intro k hk
    have hk2 : k < limit.toNat := by omega
    have hpos : (offset + k).toNat = offset.toNat + k := by omega
    rw [hlist, List.getElem?_take_of_lt hk2, List.getElem?_drop, hpos]

/-- Witness of C19: ten users created, `ListUsers(5, 5)` returns the sixth to
the tenth. -/
theorem ListUsers_pagination_witness :
    (createdBy sampleHash (sampleRequests 10) Store.empty).1.map UserResponse.Username =
        ["user0", "user1", "user2", "user3", "user4", "user5", "user6", "user7", "user8",
          "user9"] ∧
      (ListUsers storeRepo 5 5
          (createdBy sampleHash (sampleRequests 10) Store.empty).2).1.1.toList.map
          UserResponse.Username = ["user5", "user6", "user7", "user8", "user9"] ∧
      (ListUsers storeRepo 5 5
          (createdBy sampleHash (sampleRequests 10) Store.empty).2).1.1.toList =
        ((createdBy sampleHash (sampleRequests 10) Store.empty).1.drop 5).take 5 :=
  ⟨by decide, by decide,
    (ListUsers_pagination sampleHash (sampleRequests 10) 5 5 (by decide) (by decide)).2.1⟩

/-! ## Sequences of creates and deletes -/

theorem runOps_append (hash : String → Except Error String) (ops more : List Op) (s : Store) :
    runOps hash (ops ++ more) s = runOps hash more (runOps hash ops s) := by
  simp only [runOps, List.foldl_append]

theorem runOps_concat (hash : String → Except Error String) (ops : List Op) (op : Op)
    (s : Store) : runOps hash (ops ++ [op]) s = op.run hash (runOps hash ops s) := by
  rw [runOps_append]
  rfl

/-- How a list ending in `c` can be split around an element `a`: either `a` is
that last element, or the split happens before it. -/
theorem append_singleton_eq_split {α : Type} (ops pre post : List α) (c a : α) :
    ops ++ [c] = pre ++ a :: post ↔
      (post = [] ∧ ops = pre ∧ c = a) ∨ ∃ front, post = front ++ [c] ∧ ops = pre ++ a :: front := by
  constructor
  · intro h
    rcases List.eq_nil_or_concat post with rfl | ⟨front, b, rfl⟩
    · obtain ⟨h1, h2⟩ := List.append_inj' h rfl
      simp only [List.cons.injEq, and_true] at h2
      exact Or.inl ⟨rfl, h1, h2⟩
    · rw [List.concat_eq_append, ← List.cons_append, ← List.append_assoc] at h
      obtain ⟨h1, h2⟩ := List.append_inj' h rfl
      simp only [List.cons.injEq, and_true] at h2
      subst h2
      exact Or.inr ⟨front, by rw [List.concat_eq_append], h1⟩
  · rintro (⟨rfl, rfl, rfl⟩ | ⟨front, rfl, rfl⟩)
    · rfl
    · simp

/-- `Delete` keeps the ids ascending. -/
theorem Store.Ascending_Delete (s : Store) (id : Nat) (h : s.Ascending) :
    (s.Delete id).2.Ascending := by
  unfold Store.Ascending at h ⊢
  simp only [Store.Delete, List.pairwise_map]
  refine h.imp ?_
  intro a b hab
  by_cases ha : (a.live && a.ID == id) = true <;> by_cases hb : (b.live && b.ID == id) = true <;>
    simp only [ha, hb, if_true, if_false, Bool.false_eq_true] <;> exact hab

/-- A live row with a given projection exists after `Delete` exactly when one
existed before and the projection does not carry the deleted id. -/
theorem Store.live_after_Delete (s : Store) (id : Nat) (e : UserResponse) :
    (∃ row ∈ (s.Delete id).2.rows, row.live = true ∧ toUserResponse row = e) ↔
      (∃ row ∈ s.rows, row.live = true ∧ toUserResponse row = e) ∧ e.ID ≠ id := by
  simp only [Store.Delete, List.mem_map]
  constructor
  · rintro ⟨row, ⟨r0, hr0, rfl⟩, hlive, hproj⟩
    by_cases h : (r0.live && r0.ID == id) = true
    · rw [if_pos h] at hlive
      simp [User.live] at hlive
    · rw [if_neg h] at hlive hproj
      refine ⟨⟨r0, hr0, hlive, hproj⟩, ?_⟩
      rw [← hproj]
      intro hid
      apply h
      simp only [Bool.and_eq_true, beq_iff_eq]
      exact ⟨hlive, hid⟩
  · rintro ⟨⟨row, hrow, hlive, hproj⟩, hne⟩
    have h : ¬ (row.live && row.ID == id) = true := by
      simp only [Bool.and_eq_true, beq_iff_eq, not_and]
      intro _ hid
      apply hne
      rw [← hproj]
      exact hid
    exact ⟨row, ⟨row, hrow, by rw [if_neg h]⟩, hlive, hproj⟩

/-- A sequence of creates and deletes on a table with ascending ids leaves the
ids ascending. -/
theorem runOps_ascending (hash : String → Except Error String) (ops : List Op)
    (hops : ∀ op ∈ ops, ∀ id req, op ≠ Op.update id req) :
    ∀ s : Store, s.Ascending → (runOps hash ops s).Ascending := by
  induction ops with
  | nil => exact fun s h => h
  | cons op ops ih =>
    intro s h
    have hrest : ∀ op2 ∈ ops, ∀ id req, op2 ≠ Op.update id req :=
      fun op2 h2 => hops op2 (List.mem_cons_of_mem _ h2)
    show (runOps hash ops (op.run hash s)).Ascending
    apply ih hrest
    cases op with
    | create req =>
      simp only [Op.run]
      rcases CreateUser_storeRepo_cases hash req s with ⟨e, he⟩ | ⟨row, -, hid, -, -, hrow⟩
      · rw [he]; exact h
      · rw [hrow]; exact s.Ascending_append row _ h hid
    | delete id => exact s.Ascending_Delete id h
    | update id req => exact absurd rfl (hops _ (List.mem_cons_self _ _) id req)

/-- After creates and deletes on an empty table, the projections of the live
rows are exactly the responses of the successful `CreateUser` calls that no
later `DeleteUser` on the same id followed. -/
theorem live_iff_created (hash : String → Except Error String) (ops : List Op)
    (hops : ∀ op ∈ ops, ∀ id req, op ≠ Op.update id req) (e : UserResponse) :
    (∃ row ∈ (runOps hash ops Store.empty).rows, row.live = true ∧ toUserResponse row = e) ↔
      ∃ pre req post, ops = pre ++ Op.create req :: post ∧
        (CreateUser storeRepo hash req (runOps hash pre Store.empty)).1 = .ok e ∧
        ∀ op ∈ post, op ≠ Op.delete e.ID := by
  induction ops using List.reverseRecOn with
  | nil =>
    constructor
    · rintro ⟨row, hrow, -⟩
      cases hrow
    · rintro ⟨pre, req, post, h, -⟩
      cases pre <;> cases h
  | append_singleton ops op ih =>
    have hrest : ∀ op2 ∈ ops, ∀ id req, op2 ≠ Op.update id req :=
      fun op2 h2 => hops op2 (List.mem_append_left _ h2)
    have ih := ih hrest
    rw [runOps_concat]
    simp only [append_singleton_eq_split]
    cases op with
    | update id req => exact absurd rfl (hops _ (by simp) id req)
    | delete id =>
      simp only [Op.run]
      have hd : DeleteUser storeRepo id (runOps hash ops Store.empty) =
          (runOps hash ops Store.empty).Delete id := rfl
      rw [hd, Store.live_after_Delete, ih]
      constructor
      · rintro ⟨⟨pre, req, post, hsplit, hok, hpost⟩, hne⟩
        refine ⟨pre, req, post ++ [Op.delete id], Or.inr ⟨post, rfl, hsplit⟩, hok, ?_⟩
        intro op hop
        rcases List.mem_append.1 hop with hop | hop
        · exact hpost op hop
        · simp only [List.mem_singleton] at hop
          subst hop
          intro heq
          simp only [Op.delete.injEq] at heq
          exact hne heq.symm
      · rintro ⟨pre, req, post, (⟨-, -, hc⟩ | ⟨front, rfl, hsplit⟩), hok, hpost⟩
        · cases hc
        · refine ⟨⟨pre, req, front, hsplit, hok, fun op hop =>
            hpost op (List.mem_append_left _ hop)⟩, ?_⟩
          intro hid
          exact hpost (Op.delete id) (by simp) (by rw [hid])
    | create req0 =>
      simp only [Op.run]
      rcases CreateUser_storeRepo_cases hash req0 (runOps hash ops Store.empty) with
        ⟨err, he⟩ | ⟨row, hlive, -, -, -, hrow⟩
      · rw [he]
        simp only
        rw [ih]
        constructor
        · rintro ⟨pre, req, post, hsplit, hok, hpost⟩
          refine ⟨pre, req, post ++ [Op.create req0], Or.inr ⟨post, rfl, hsplit⟩, hok, ?_⟩
          intro op hop
          rcases List.mem_append.1 hop with hop | hop
          · exact hpost op hop
          · simp only [List.mem_singleton] at hop
            subst hop
            intro heq
            cases heq
        · rintro ⟨pre, req, post, (⟨-, rfl, hc⟩ | ⟨front, rfl, hsplit⟩), hok, hpost⟩
          · simp only [Op.create.injEq] at hc
            subst hc
            rw [he] at hok
            cases hok
          · exact ⟨pre, req, front, hsplit, hok, fun op hop =>
              hpost op (List.mem_append_left _ hop)⟩
      · rw [hrow]
        simp only [List.mem_append, List.mem_singleton]
        constructor
        · rintro ⟨r, hr | rfl, hrl, hproj⟩
          · obtain ⟨pre, req, post, hsplit, hok, hpost⟩ := ih.1 ⟨r, hr, hrl, hproj⟩
            refine ⟨pre, req, post ++ [Op.create req0], Or.inr ⟨post, rfl, hsplit⟩, hok, ?_⟩
            intro op hop
            rcases List.mem_append.1 hop with hop | hop
            · exact hpost op hop
            · simp only [List.mem_singleton] at hop
              subst hop
              intro heq
              cases heq
          · refine ⟨ops, req0, [], Or.inl ⟨rfl, rfl, rfl⟩, ?_, by simp⟩
            rw [hrow, hproj]
        · rintro ⟨pre, req, post, (⟨-, rfl, hc⟩ | ⟨front, rfl, hsplit⟩), hok, hpost⟩
          · simp only [Op.create.injEq] at hc
            subst hc
            rw [hrow] at hok
            simp only [Except.ok.injEq] at hok
            exact ⟨row, Or.inr rfl, hlive, hok⟩
          · obtain ⟨r, hr, hrl, hproj⟩ := ih.2 ⟨pre, req, front, hsplit, hok, fun op hop =>
              hpost op (List.mem_append_left _ hop)⟩
            exact ⟨r, Or.inl hr, hrl, hproj⟩

/-- Once an id is in the table with no live row, creates and deletes keep it
so: the id is never assigned again and its rows stay deleted. -/
theorem deleted_stays_deleted (hash : String → Except Error String) (id : Nat)
    (post : List Op) (hpost : ∀ op ∈ post, ∀ i req, op ≠ Op.update i req) :
    ∀ s : Store, (∃ r ∈ s.rows, r.ID = id) → (∀ r ∈ s.rows, r.ID = id → r.live = false) →
      (∃ r ∈ (runOps hash post s).rows, r.ID = id) ∧
        ∀ r ∈ (runOps hash post s).rows, r.ID = id → r.live = false := by
  induction post with
  | nil => exact fun s hex hdead => ⟨hex, hdead⟩
  | cons op post ih =>
    intro s hex hdead
    have hrest : ∀ op2 ∈ post, ∀ i req, op2 ≠ Op.update i req :=
      fun op2 h2 => hpost op2 (List.mem_cons_of_mem _ h2)
    show (∃ r ∈ (runOps hash post (op.run hash s)).rows, r.ID = id) ∧
      ∀ r ∈ (runOps hash post (op.run hash s)).rows, r.ID = id → r.live = false
    cases op with
    | update i req => exact absurd rfl (hpost _ (List.mem_cons_self _ _) i req)
    | create req =>
      simp only [Op.run]
      rcases CreateUser_storeRepo_cases hash req s with ⟨e, he⟩ | ⟨row, -, hid, -, -, hrow⟩
      · rw [he]
        exact ih hrest s hex hdead
      · rw [hrow]
        apply ih hrest
        · obtain ⟨r, hr, hrid⟩ := hex
          exact ⟨r, List.mem_append_left _ hr, hrid⟩
        · intro r hr hrid
          rcases List.mem_append.1 hr with hr | hr
          · exact hdead r hr hrid
          · simp only [List.mem_singleton] at hr
            subst hr
            obtain ⟨r0, hr0, hr0id⟩ := hex
            have := s.ID_lt_nextID r0 hr0
            omega
    | delete id2 =>
      apply ih hrest
      · obtain ⟨r, hr, hrid⟩ := hex
        refine ⟨_, List.mem_map.2 ⟨r, hr, rfl⟩, ?_⟩
        by_cases h : (r.live && r.ID == id2) = true
        · rw [if_pos h]; exact hrid
        · rw [if_neg h]; exact hrid
      · intro x hx hxid
        obtain ⟨r, hr, rfl⟩ := List.mem_map.1 hx
        by_cases h : (r.live && r.ID == id2) = true
        · rw [if_pos h]
          rfl
        · rw [if_neg h] at hxid ⊢
          exact hdead r hr hxid

/-- C18: after any sequence of `CreateUser` and `DeleteUser` calls on an empty
table, `ListUsers(limit, 0)` with `limit` at least the number of live users
returns no error and the projections of the live rows in table order. Its
entries are exactly the responses of the successful `CreateUser` calls that no
later `DeleteUser` on the same id followed, and no entry has an id that was in
the table when `DeleteUser` was called on it. -/
theorem ListUsers_excludes_deleted (hash : String → Except Error String) (ops : List Op)
    (limit : Int) (hcalls : ∀ op ∈ ops, op.isUpdate = false)
    (hlimit : (((runOps hash ops Store.empty).rows.filter User.live).length : Int) ≤ limit) :
    (ListUsers storeRepo limit 0 (runOps hash ops Store.empty)).1.2 = none ∧
      (ListUsers storeRepo limit 0 (runOps hash ops Store.empty)).1.1.toList =
        ((runOps hash ops Store.empty).rows.filter User.live).map toUserResponse ∧
      (∀ e, e ∈ (ListUsers storeRepo limit 0 (runOps hash ops Store.empty)).1.1.toList ↔
        ∃ pre req post, ops = pre ++ Op.create req :: post ∧
          (CreateUser storeRepo hash req (runOps hash pre Store.empty)).1 = .ok e ∧
          ∀ op ∈ post, op ≠ Op.delete e.ID) ∧
      (∀ pre id post, ops = pre ++ Op.delete id :: post →
        (∃ r ∈ (runOps hash pre Store.empty).rows, r.ID = id) →
        ∀ e ∈ (ListUsers storeRepo limit 0 (runOps hash ops Store.empty)).1.1.toList,
          e.ID ≠ id) := by
  have hops : ∀ op ∈ ops, ∀ id req, op ≠ Op.update id req := by
    intro op hop id req h
    have := hcalls op hop
    rw [h] at this
    cases this
  have hasc := runOps_ascending hash ops hops Store.empty List.Pairwise.nil
  obtain ⟨herr, hlist⟩ := ListUsers_of_ascending (runOps hash ops Store.empty) limit 0 hasc
  have hlen : (((runOps hash ops Store.empty).rows.filter User.live).map
      toUserResponse).length ≤ limit.toNat := by
    rw [List.length_map]
    omega
  have hlist2 : (ListUsers storeRepo limit 0 (runOps hash ops Store.empty)).1.1.toList =
      ((runOps hash ops Store.empty).rows.filter User.live).map toUserResponse := by
    rw [hlist]
    simp only [Int.toNat_zero, List.drop_zero]
    exact List.take_of_length_le hlen
  have hmem : ∀ e, e ∈ (ListUsers storeRepo limit 0 (runOps hash ops Store.empty)).1.1.toList ↔
      ∃ row ∈ (runOps hash ops Store.empty).rows, row.live = true ∧ toUserResponse row = e := by
    intro e
    rw [hlist2]
    simp only [List.mem_map, List.mem_filter]
    constructor
    · rintro ⟨row, ⟨h1, h2⟩, h3⟩
      exact ⟨row, h1, h2, h3⟩
    · rintro ⟨row, h1, h2, h3⟩
      exact ⟨row, ⟨h1, h2⟩, h3⟩
  refine ⟨herr, hlist2, fun e => (hmem e).trans (live_iff_created hash ops hops e), ?_⟩
  intro pre id post hsplit hex e he hid
  obtain ⟨row, hrow, hlive, hproj⟩ := (hmem e).1 he
  have hpost : ∀ op ∈ post, ∀ i req, op ≠ Op.update i req := by
    intro op hop
    apply hops
    rw [hsplit]
    simp [hop]
  have hrun : runOps hash ops Store.empty =
      runOps hash post ((runOps hash pre Store.empty).Delete id).2 := by
    rw [hsplit, runOps_append]
    rfl
  have hex1 : ∃ r ∈ ((runOps hash pre Store.empty).Delete id).2.rows, r.ID = id := by
    obtain ⟨r, hr, hrid⟩ := hex
    refine ⟨_, List.mem_map.2 ⟨r, hr, rfl⟩, ?_⟩
    by_cases h : (r.live && r.ID == id) = true
    · rw [if_pos h]; exact hrid
    · rw [if_neg h]; exact hrid
  have hdead1 : ∀ r ∈ ((runOps hash pre Store.empty).Delete id).2.rows, r.ID = id →
      r.live = false := by
    intro r hr hrid
    have := (runOps hash pre Store.empty).not_live_after_Delete id r hr
    simp only [Bool.and_eq_true, beq_iff_eq, not_and] at this
    cases hl : r.live with
    | false => rfl
    | true => exact absurd hrid (this hl)
  have hfinal := (deleted_stays_deleted hash id post hpost _ hex1 hdead1).2
  rw [← hrun] at hfinal
  have := hfinal row hrow (by rw [← hid, ← hproj]; rfl)
  rw [hlive] at this
  cases this

/-- Witness of C18: three users created, the second deleted; `ListUsers(10, 0)`
has exactly two entries, with ids 1 and 3. -/
theorem ListUsers_excludes_deleted_witness :
    (ListUsers storeRepo 10 0
        (runOps sampleHash ((sampleRequests 3).map Op.create ++ [Op.delete 2])
          Store.empty)).1.1.toList.map UserResponse.ID = [1, 3] ∧
      (ListUsers storeRepo 10 0
        (runOps sampleHash ((sampleRequests 3).map Op.create ++ [Op.delete 2])
          Store.empty)).1.1.toList =
        ((runOps sampleHash ((sampleRequests 3).map Op.create ++ [Op.delete 2])
          Store.empty).rows.filter User.live).map toUserResponse :=
  ⟨by decide,
    (ListUsers_excludes_deleted sampleHash ((sampleRequests 3).map Op.create ++ [Op.delete 2])
      10 (by decide) (by decide)).2.1⟩

/-! ## The handlers -/

theorem Atoi_empty : Atoi "" = none := by decide

/-- The limit the handler passes on is the value `Atoi` reads when that is
above 0, and 10 otherwise; it is at least 1. -/
theorem effectiveLimit_spec (limitStr : String) :
    1 ≤ Handler.effectiveLimit limitStr ∧
      (∀ l, Atoi limitStr = some l → 0 < l → Handler.effectiveLimit limitStr = l) ∧
      ((¬ ∃ l, Atoi limitStr = some l ∧ 0 < l) → Handler.effectiveLimit limitStr = 10) := by
  unfold Handler.effectiveLimit
  by_cases he : limitStr ≠ ""
  · rw [if_pos he]
    cases ha : Atoi limitStr with
    | none =>
      refine ⟨by decide, fun l h => (by cases h), fun _ => rfl⟩
    | some v =>
      simp only
      by_cases hv : v > 0
      · rw [if_pos hv]
        refine ⟨by omega, fun l h _ => ?_, fun hno => absurd ⟨v, rfl, hv⟩ hno⟩
        cases h
        rfl
      · rw [if_neg hv]
        refine ⟨by decide, fun l h hl => ?_, fun _ => rfl⟩
        cases h
        exact absurd hl hv
  · rw [if_neg he]
    have hemp : limitStr = "" := not_not.1 he
    subst hemp
    refine ⟨by decide, fun l h => ?_, fun _ => rfl⟩
    rw [Atoi_empty] at h
    cases h

/-- The offset the handler passes on is the value `Atoi` reads when that is
at least 0, and 0 otherwise; it is at least 0. -/
theorem effectiveOffset_spec (offsetStr : String) :
    0 ≤ Handler.effectiveOffset offsetStr ∧
      (∀ o, Atoi offsetStr = some o → 0 ≤ o → Handler.effectiveOffset offsetStr = o) ∧
      ((¬ ∃ o, Atoi offsetStr = some o ∧ 0 ≤ o) → Handler.effectiveOffset offsetStr = 0) := by
  unfold Handler.effectiveOffset
  by_cases he : offsetStr ≠ ""
  · rw [if_pos he]
    cases ha : Atoi offsetStr with
    | none =>
      refine ⟨by decide, fun o h => (by cases h), fun _ => rfl⟩
    | some v =>
      simp only
      by_cases hv : v ≥ 0
      · rw [if_pos hv]
        refine ⟨hv, fun o h _ => ?_, fun hno => absurd ⟨v, rfl, hv⟩ hno⟩
        cases h
        rfl
      · rw [if_neg hv]
        refine ⟨by decide, fun o h ho => ?_, fun _ => rfl⟩
        cases h
        exact absurd ho hv
  · rw [if_neg he]
    have hemp : offsetStr = "" := not_not.1 he
    subst hemp
    refine ⟨by decide, fun o h => ?_, fun _ => rfl⟩
    rw [Atoi_empty] at h
    cases h

/-- C21: whatever the `limit` and `offset` query strings, the handler
`ListUsers` makes exactly one service call, `ListUsers(limit, offset)`, where
`limit` is the value `strconv.Atoi` reads from the limit string when that is
above 0 and 10 otherwise, and `offset` is the value read from the offset
string when that is at least 0 and 0 otherwise; so `limit >= 1` and
`offset >= 0`. The answer is 200 with the users and the same two values when
the service succeeds and 500 when it fails, never a 400. -/
theorem handler_ListUsers_defaults {σ : Type} (svc : UserService σ) (c : Ctx) (s : σ) :
    ∃ limit offset : Int,
      (Handler.ListUsers (recordingService svc) c (s, [])).2.2 =
          [ServiceCall.ListUsers limit offset] ∧
        1 ≤ limit ∧ 0 ≤ offset ∧
        (∀ l, Atoi c.limit = some l → 0 < l → limit = l) ∧
        ((¬ ∃ l, Atoi c.limit = some l ∧ 0 < l) → limit = 10) ∧
        (∀ o, Atoi c.offset = some o → 0 ≤ o → offset = o) ∧
        ((¬ ∃ o, Atoi c.offset = some o ∧ 0 ≤ o) → offset = 0) ∧
        (∀ users s1, svc.ListUsers limit offset s = ((users, none), s1) →
          Handler.ListUsers svc c s =
            ({ status := 200, body := .users users limit offset }, s1)) ∧
        (∀ users err s1, svc.ListUsers limit offset s = ((users, some err), s1) →
          Handler.ListUsers svc c s =
            ({ status := 500, body := .error "Failed to fetch users" }, s1)) ∧
        (Handler.ListUsers svc c s).1.status ≠ 400 := by
  obtain ⟨hl1, hl2, hl3⟩ := effectiveLimit_spec c.limit
  obtain ⟨ho1, ho2, ho3⟩ := effectiveOffset_spec c.offset
  refine ⟨Handler.effectiveLimit c.limit, Handler.effectiveOffset c.offset, ?_, hl1, ho1, hl2,
    hl3, ho2, ho3, ?_, ?_, ?_⟩
  · unfold Handler.ListUsers
    simp only [recordingService]
    rcases svc.ListUsers (Handler.effectiveLimit c.limit) (Handler.effectiveOffset c.offset) s
      with ⟨⟨users, _ | err⟩, s1⟩ <;> rfl
  · intro users s1 h
    unfold Handler.ListUsers
    simp only [h]
  · intro users err s1 h
    unfold Handler.ListUsers
    simp only [h]
  · unfold Handler.ListUsers
    rcases h : svc.ListUsers (Handler.effectiveLimit c.limit) (Handler.effectiveOffset c.offset)
      s with ⟨⟨users, _ | err⟩, s1⟩ <;> simp only [h] <;> decide

/-- Witness of C21: `limit=5&offset=10` is passed on as 5 and 10;
`limit=invalid`, `limit=0`, `limit=-1` and no limit give 10; `offset=-3` and a
malformed offset give 0. -/
theorem handler_ListUsers_defaults_witness :
    (Handler.ListUsers (recordingService (NewUserService storeRepo sampleHash))
        ⟨"", "5", "10", ""⟩ (sampleStore, [])).2.2 = [ServiceCall.ListUsers 5 10] ∧
      (Handler.ListUsers (recordingService (NewUserService storeRepo sampleHash))
        ⟨"", "invalid", "-3", ""⟩ (sampleStore, [])).2.2 = [ServiceCall.ListUsers 10 0] ∧
      (Handler.ListUsers (recordingService (NewUserService storeRepo sampleHash))
        ⟨"", "0", "1x", ""⟩ (sampleStore, [])).2.2 = [ServiceCall.ListUsers 10 0] ∧
      (Handler.ListUsers (recordingService (NewUserService storeRepo sampleHash))
        ⟨"", "-1", "", ""⟩ (sampleStore, [])).2.2 = [ServiceCall.ListUsers 10 0] ∧
      ∃ limit offset : Int,
        (Handler.ListUsers (recordingService (NewUserService storeRepo sampleHash))
          ⟨"", "5", "10", ""⟩ (sampleStore, [])).2.2 = [ServiceCall.ListUsers limit offset] ∧
        1 ≤ limit ∧ 0 ≤ offset :=
  ⟨by decide, by decide, by decide, by decide,
    (handler_ListUsers_defaults (NewUserService storeRepo sampleHash) ⟨"", "5", "10", ""⟩
      sampleStore).imp fun _ h => h.imp fun _ h2 => ⟨h2.1, h2.2.1, h2.2.2.1⟩⟩

/-- C26: `GetUserProfile` answers as `GetUser` and `UpdateUserProfile` as
`UpdateUser`, for every request and every service: the same status, the same
state left behind, the same service calls, the same body when the plain
handler answers an error, and the body `profile: r` when the plain handler
answers the `UserResponse` `r`. -/
theorem profile_handlers_agree {σ : Type} (web : Web) (svc : UserService σ) (c : Ctx) (s : σ) :
    ((Handler.GetUserProfile svc c s).1.status = (Handler.GetUser svc c s).1.status ∧
        (Handler.GetUserProfile svc c s).2 = (Handler.GetUser svc c s).2 ∧
        (Handler.GetUserProfile (recordingService svc) c (s, [])).2.2 =
          (Handler.GetUser (recordingService svc) c (s, [])).2.2 ∧
        (Handler.GetUserProfile svc c s).1.body =
          match (Handler.GetUser svc c s).1.body with
          | .user r => .profile r
          | b => b) ∧
      ((Handler.UpdateUserProfile web svc c s).1.status =
          (Handler.UpdateUser web svc c s).1.status ∧
        (Handler.UpdateUserProfile web svc c s).2 = (Handler.UpdateUser web svc c s).2 ∧
        (Handler.UpdateUserProfile web (recordingService svc) c (s, [])).2.2 =
          (Handler.UpdateUser web (recordingService svc) c (s, [])).2.2 ∧
        (Handler.UpdateUserProfile web svc c s).1.body =
          match (Handler.UpdateUser web svc c s).1.body with
          | .user r => .profile r
          | b => b) := by
  constructor
  · unfold Handler.GetUserProfile Handler.GetUser
    cases ParseUint c.id 32 with
    | none => exact ⟨rfl, rfl, rfl, rfl⟩
    | some id =>
      simp only [recordingService]
      rcases h : svc.GetUser id s with ⟨err | user, s1⟩ <;> exact ⟨rfl, rfl, rfl, rfl⟩
  · unfold Handler.UpdateUserProfile Handler.UpdateUser
    cases ParseUint c.id 32 with
    | none => exact ⟨rfl, rfl, rfl, rfl⟩
    | some id =>
      simp only
      cases web.parseUpdate c.body with
      | none => exact ⟨rfl, rfl, rfl, rfl⟩
      | some req =>
        simp only
        cases web.validateUpdate req with
        | some msg => exact ⟨rfl, rfl, rfl, rfl⟩
        | none =>
          simp only [recordingService]
          rcases h : svc.UpdateUser id req s with ⟨err | user, s1⟩ <;>
            exact ⟨rfl, rfl, rfl, rfl⟩

/-- Witness of C26: the profile of user 1 is the response of `GetUser`
wrapped in `profile`, and both handlers answer 404 for id 999. -/
theorem profile_handlers_agree_witness :
    (Handler.GetUser (NewUserService storeRepo sampleHash) ⟨"1", "", "", ""⟩ sampleStore).1 =
        { status := 200, body := .user (toUserResponse alice) } ∧
      (Handler.GetUserProfile (NewUserService storeRepo sampleHash) ⟨"1", "", "", ""⟩
        sampleStore).1 = { status := 200, body := .profile (toUserResponse alice) } ∧
      (Handler.GetUserProfile (NewUserService storeRepo sampleHash) ⟨"999", "", "", ""⟩
        sampleStore).1.status =
        (Handler.GetUser (NewUserService storeRepo sampleHash) ⟨"999", "", "", ""⟩
          sampleStore).1.status :=
  ⟨by decide, by decide,
    (profile_handlers_agree sampleWeb (NewUserService storeRepo sampleHash)
      ⟨"999", "", "", ""⟩ sampleStore).1.1⟩

/-- C28: the duplicate checks run in a fixed order. In `CreateUser` the email
comes first: when the lookup by `req.Email` finds a user, the error is "email
already exists" and that lookup is the only repository call, whatever the
username. In `UpdateUser` the username comes first: when the target exists
and the lookup by a non-empty `req.Username` finds a user with another id, the
error is "username already exists" and the calls are `GetByID` and that
lookup, whatever the email. -/
theorem duplicate_check_order {σ : Type} (repo : UserRepository σ)
    (hash : String → Except Error String) (req : CreateUserRequest) (id : Nat)
    (upd : UpdateUserRequest) (s : σ) :
    (∀ byEmail, (repo.GetByEmail req.Email s).1 = .ok byEmail →
        (CreateUser repo hash req s).1 = .error (Error.New "email already exists") ∧
        (CreateUser (recording repo) hash req (s, [])).2.2 = [Call.GetByEmail req.Email]) ∧
      (∀ user byName, (repo.GetByID id s).1 = .ok user → upd.Username ≠ "" →
        (repo.GetByUsername upd.Username (repo.GetByID id s).2).1 = .ok byName →
        byName.ID ≠ id →
        (UpdateUser repo id upd s).1 = .error (Error.New "username already exists") ∧
        (UpdateUser (recording repo) id upd (s, [])).2.2 =
          [Call.GetByID id, Call.GetByUsername upd.Username]) := by
  constructor
  · intro byEmail h
    refine ⟨by rw [CreateUser_of_email_found repo hash req s byEmail h], ?_⟩
    rw [CreateUser_of_email_found (recording repo) hash req (s, []) byEmail
      (by rw [recording_GetByEmail]; exact h)]
    rfl
  · intro user byName hget hname hfound hne
    rw [UpdateUser_log]
    unfold UpdateUser
    rcases hr : repo.GetByID id s with ⟨r, s1⟩
    rw [hr] at hget hfound
    simp only at hget hfound
    subst hget
    simp only
    have hnone := (applyUsername_eq_none_iff repo id upd user s1).2 ⟨hname, byName, hfound, hne⟩
    rcases h1 : applyUsername repo id upd user s1 with ⟨_ | user1, s2⟩
    · refine ⟨rfl, ?_⟩
      simp only [usernameCalls, if_pos hname]
      rfl
    · rw [h1] at hnone
      cases hnone

/-- Witness of C28: creating `bob` with alice's email collides on both, and so
does giving alice bob's username and email. -/
theorem duplicate_check_order_witness :
    (storeRepo.GetByUsername "bob" sampleStore).1 = .ok bob ∧
      (storeRepo.GetByEmail "b@x.com" sampleStore).1 = .ok bob ∧
      ((CreateUser storeRepo sampleHash ⟨"bob", "a@x.com", "pw"⟩ sampleStore).1 =
          .error (Error.New "email already exists") ∧
        (CreateUser (recording storeRepo) sampleHash ⟨"bob", "a@x.com", "pw"⟩
          (sampleStore, [])).2.2 = [Call.GetByEmail "a@x.com"]) ∧
      ((UpdateUser storeRepo 1 ⟨"bob", "b@x.com"⟩ sampleStore).1 =
          .error (Error.New "username already exists") ∧
        (UpdateUser (recording storeRepo) 1 ⟨"bob", "b@x.com"⟩ (sampleStore, [])).2.2 =
          [Call.GetByID 1, Call.GetByUsername "bob"]) :=
  ⟨by decide, by decide,
    (duplicate_check_order storeRepo sampleHash ⟨"bob", "a@x.com", "pw"⟩ 1
      ⟨"bob", "b@x.com"⟩ sampleStore).1 alice (by decide),
    (duplicate_check_order storeRepo sampleHash ⟨"bob", "a@x.com", "pw"⟩ 1
      ⟨"bob", "b@x.com"⟩ sampleStore).2 alice bob (by decide) (by decide) (by decide)
      (by decide)⟩

/-- C22, evaluated on the code: the handler `UpdateUser` never answers 404. A
PUT for id 999, which has no row, with a body that parses and validates, gets
the service error `record not found` back as a 409; every service error is
answered 409. -/
theorem handler_UpdateUser_never_404 :
    sampleStore.GetByID 999 = .error Error.ErrRecordNotFound ∧
      (Handler.UpdateUser sampleWeb (NewUserService storeRepo sampleHash)
        ⟨"999", "", "", "username=alicia"⟩ sampleStore).1 =
        { status := 409, body := .error "record not found" } ∧
      (∀ (σ : Type) (web : Web) (svc : UserService σ) (c : Ctx) (s : σ),
        (Handler.UpdateUser web svc c s).1.status ≠ 404) ∧
      (∀ (σ : Type) (web : Web) (svc : UserService σ) (c : Ctx) (s : σ) (id : Nat)
        (req : UpdateUserRequest) (err : Error),
        ParseUint c.id 32 = some id → web.parseUpdate c.body = some req →
        web.validateUpdate req = none → (svc.UpdateUser id req s).1 = .error err →
        (Handler.UpdateUser web svc c s).1 = { status := 409, body := .error err.message }) := by
  refine ⟨by decide, by decide, ?_, ?_⟩
  · intro σ web svc c s
    unfold Handler.UpdateUser
    cases ParseUint c.id 32 with
    | none => exact (by decide : (400 : Nat) ≠ 404)
    | some id =>
      simp only
      cases web.parseUpdate c.body with
      | none => exact (by decide : (400 : Nat) ≠ 404)
      | some req =>
        simp only
        cases web.validateUpdate req with
        | some msg => exact (by decide : (400 : Nat) ≠ 404)
        | none =>
          simp only
          rcases h : svc.UpdateUser id req s with ⟨err | user, s1⟩
          · exact (by decide : (409 : Nat) ≠ 404)
          · exact (by decide : (200 : Nat) ≠ 404)
  · intro σ web svc c s id req err hid hbody hvalid herr
    unfold Handler.UpdateUser
    rw [hid]
    simp only [hbody, hvalid]
    rcases h : svc.UpdateUser id req s with ⟨r, s1⟩
    rw [h] at herr
    simp only at herr
    subst herr
    rfl

/-- C23, as stated, fails: a valid POST whose service call fails in the
hasher, or in `Create` on a lost connection, is answered 409, not 500. -/
theorem handler_CreateUser_counterexample :
    ((NewUserService storeRepo failingHash).CreateUser
        { Username := "carol", Email := "c@x.com", Password := "pw" } sampleStore).1 =
        .error (Error.Failure "bcrypt: no entropy") ∧
      (Handler.CreateUser sampleWeb (NewUserService storeRepo failingHash)
        ⟨"", "", "", "carol"⟩ sampleStore).1 =
        { status := 409, body := .error "bcrypt: no entropy" } ∧
      ((NewUserService failingCreate sampleHash).CreateUser
        { Username := "carol", Email := "c@x.com", Password := "pw" } sampleStore).1 =
        .error (Error.Failure "connection lost") ∧
      (Handler.CreateUser sampleWeb (NewUserService failingCreate sampleHash)
        ⟨"", "", "", "carol"⟩ sampleStore).1 =
        { status := 409, body := .error "connection lost" } ∧
      (Handler.CreateUser sampleWeb (NewUserService failingCreate sampleHash)
        ⟨"", "", "", "carol"⟩ sampleStore).1.status ≠ 500 := by
  decide

/-- C23, amended: for every POST whose body parses and validates, the handler
`CreateUser` answers 201 with the user when the service succeeds and 409 with
the error's message whenever the service returns an error, whatever its kind
(duplicate email or username, hashing or storage failure alike); it never
answers 500. -/
theorem handler_CreateUser_status {σ : Type} (web : Web) (svc : UserService σ) (c : Ctx)
    (s : σ) (req : CreateUserRequest) (hbody : web.parseCreate c.body = some req)
    (hvalid : web.validateCreate req = none) :
    (∀ user s1, svc.CreateUser req s = (.ok user, s1) →
        Handler.CreateUser web svc c s = ({ status := 201, body := .user user }, s1)) ∧
      (∀ err s1, svc.CreateUser req s = (.error err, s1) →
        Handler.CreateUser web svc c s =
          ({ status := 409, body := .error err.message }, s1)) ∧
      ((Handler.CreateUser web svc c s).1.status = 201 ↔
        ∃ user, (svc.CreateUser req s).1 = .ok user) ∧
      (Handler.CreateUser web svc c s).1.status ≠ 500 := by
  unfold Handler.CreateUser
  simp only [hbody, hvalid]
  rcases h : svc.CreateUser req s with ⟨err | user, s1⟩
  · refine ⟨fun user s2 h2 => (by cases h2), fun e s2 h2 => ?_, ?_,
      (by decide : (409 : Nat) ≠ 500)⟩
    · simp only [Prod.mk.injEq, Except.error.injEq] at h2
      obtain ⟨rfl, rfl⟩ := h2
      rfl
    · constructor
      · intro h2
        exact absurd h2 (by decide : (409 : Nat) ≠ 201)
      · rintro ⟨user, hu⟩
        cases hu
  · refine ⟨fun u s2 h2 => ?_, fun e s2 h2 => (by cases h2), ?_,
      (by decide : (201 : Nat) ≠ 500)⟩
    · simp only [Prod.mk.injEq, Except.ok.injEq] at h2
      obtain ⟨rfl, rfl⟩ := h2
      rfl
    · exact ⟨fun _ => ⟨user, rfl⟩, fun _ => rfl⟩

/-- Witness of C23 (amended): carol is created with 201; with alice's email
the service's duplicate error is answered 409. -/
theorem handler_CreateUser_status_witness :
    sampleWeb.parseCreate "carol" = some { Username := "carol", Email := "c@x.com",
                                           Password := "pw" } ∧
      (Handler.CreateUser sampleWeb (NewUserService storeRepo sampleHash) ⟨"", "", "", "carol"⟩
        sampleStore).1.status = 201 ∧
      (Handler.CreateUser sampleWeb (NewUserService storeRepo sampleHash) ⟨"", "", "", "carol"⟩
        sampleStore).1.status ≠ 500 :=
  ⟨by decide, by decide,
    (handler_CreateUser_status sampleWeb (NewUserService storeRepo sampleHash)
      ⟨"", "", "", "carol"⟩ sampleStore { Username := "carol", Email := "c@x.com",
                                          Password := "pw" } (by decide) (by decide)).2.2.2⟩

/-- C24, evaluated on the code: a DELETE for id 999, which matches no user, is
answered 204 and changes no row; over the store every DELETE with a
well-formed id is answered 204, because `Delete` never returns an error. -/
theorem handler_DeleteUser_missing_is_204 :
    sampleStore.GetByID 999 = .error Error.ErrRecordNotFound ∧
      (Handler.DeleteUser (NewUserService storeRepo sampleHash) ⟨"999", "", "", ""⟩
        sampleStore).1 = { status := 204, body := .empty } ∧
      (Handler.DeleteUser (NewUserService storeRepo sampleHash) ⟨"999", "", "", ""⟩
        sampleStore).2.rows = sampleStore.rows ∧
      (∀ (hash : String → Except Error String) (c : Ctx) (s : Store) (id : Nat),
        ParseUint c.id 32 = some id →
        (Handler.DeleteUser (NewUserService storeRepo hash) c s).1 =
          { status := 204, body := .empty }) := by
  refine ⟨by decide, by decide, by decide, ?_⟩
  intro hash c s id hid
  unfold Handler.DeleteUser
  rw [hid]
  rfl

/-! ## Parsing the id -/

/-- The digit loop never recovers from a failure. -/
theorem parseDigits_foldl_none (maxVal : Nat) (cs : List Char) :
    cs.foldl (fun acc c =>
      match acc with
      | none => none
      | some n =>
        if '0' ≤ c ∧ c ≤ '9' then
          if n * 10 + (c.toNat - '0'.toNat) > maxVal then none
          else some (n * 10 + (c.toNat - '0'.toNat))
        else none) (none : Option Nat) = none := by
  induction cs with
  | nil => rfl
  | cons c cs ih => exact ih

/-- Reading more digits never lowers the value. -/
theorem le_foldl_digits (cs : List Char) :
    ∀ a : Nat, a ≤ cs.foldl (fun n c => n * 10 + (c.toNat - '0'.toNat)) a := by
  induction cs with
  | nil => exact fun a => Nat.le_refl a
  | cons c cs ih =>
    intro a
    have := ih (a * 10 + (c.toNat - '0'.toNat))
    simp only [List.foldl_cons]
    omega

/-- The digit loop started at `a` succeeds with `n` exactly when every
character is a digit and the value read, `n`, does not exceed `maxVal`. -/
theorem parseDigits_foldl_some (maxVal : Nat) (cs : List Char) :
    ∀ a n : Nat, a ≤ maxVal →
      (cs.foldl (fun acc c =>
        match acc with
        | none => none
        | some n =>
          if '0' ≤ c ∧ c ≤ '9' then
            if n * 10 + (c.toNat - '0'.toNat) > maxVal then none
            else some (n * 10 + (c.toNat - '0'.toNat))
          else none) (some a) = some n ↔
        (∀ c ∈ cs, '0' ≤ c ∧ c ≤ '9') ∧
          cs.foldl (fun n c => n * 10 + (c.toNat - '0'.toNat)) a = n ∧ n ≤ maxVal) := by
  induction cs with
  | nil =>
    intro a n ha
    simp only [List.foldl_nil, Option.some.injEq, List.not_mem_nil, false_implies,
      implies_true, true_and]
    constructor
    · rintro rfl
      exact ⟨rfl, ha⟩
    · rintro ⟨rfl, -⟩
      rfl
  | cons c cs ih =>
    intro a n ha
    simp only [List.foldl_cons, List.mem_cons, forall_eq_or_imp]
    by_cases hd : '0' ≤ c ∧ c ≤ '9'
    · simp only [if_pos hd]
      by_cases hbig : a * 10 + (c.toNat - '0'.toNat) > maxVal
      · simp only [if_pos hbig]
        rw [parseDigits_foldl_none]
        constructor
        · intro h
          cases h
        · rintro ⟨-, hval, hle⟩
          have := le_foldl_digits cs (a * 10 + (c.toNat - '0'.toNat))
          omega
      · simp only [if_neg hbig]
        rw [ih _ n (by omega)]
        constructor
        · rintro ⟨h1, h2, h3⟩
          exact ⟨⟨hd, h1⟩, h2, h3⟩
        · rintro ⟨⟨-, h1⟩, h2, h3⟩
          exact ⟨h1, h2, h3⟩
    · simp only [if_neg hd]
      rw [parseDigits_foldl_none]
      constructor
      · intro h
        cases h
      · rintro ⟨⟨h, -⟩, -⟩
        exact absurd h hd

/-- `ParseUint(s, 10, 32)` succeeds with `n` exactly when `s` is not empty,
consists of decimal digits only (so no sign), and writes a number `n` of at
most 4294967295. -/
theorem ParseUint_eq_some_iff (s : String) (n : Nat) :
    ParseUint s 32 = some n ↔
      s ≠ "" ∧ (∀ ch ∈ s.toList, '0' ≤ ch ∧ ch ≤ '9') ∧ decimalValue s.toList = n ∧
        n ≤ 4294967295 := by
  unfold ParseUint parseDigits decimalValue
  by_cases hs : s = ""
  · simp [hs]
  · rw [if_neg hs]
    have h := parseDigits_foldl_some (2 ^ 32 - 1) s.toList 0 n (Nat.zero_le _)
    rw [h]
    simp only [ne_eq, hs, not_false_eq_true, true_and]
    norm_num

/-- C25, as stated, fails: the id `1` parses, yet for a PUT whose body does
not parse the handlers `UpdateUser` and `UpdateUserProfile` answer 400 "Invalid
request body" and make no service call, so the number is not passed to the
service. -/
theorem handler_id_counterexample :
    ParseUint "1" 32 = some 1 ∧
      Handler.UpdateUser sampleWeb (recordingService (NewUserService storeRepo sampleHash))
          ⟨"1", "", "", "invalid json"⟩ (sampleStore, []) =
        ({ status := 400, body := .error "Invalid request body" }, (sampleStore, [])) ∧
      Handler.UpdateUserProfile sampleWeb
          (recordingService (NewUserService storeRepo sampleHash))
          ⟨"1", "", "", "invalid json"⟩ (sampleStore, []) =
        ({ status := 400, body := .error "Invalid request body" }, (sampleStore, [])) := by
  decide

/-- C25, amended: an id path value is accepted exactly when it is a non-empty
string of decimal digits (no sign) that writes a number of at most 4294967295;
`0` is accepted. For every other value each of `GetUser`, `UpdateUser`,
`DeleteUser`, `GetUserProfile` and `UpdateUserProfile` answers 400 with error
"Invalid user ID" and makes no service call. For an accepted value the number
it writes is the id of the service call: `GetUser`, `DeleteUser` and
`GetUserProfile` make exactly that call, `UpdateUser` and `UpdateUserProfile`
make it once the body has parsed and validated and make no call otherwise. -/
theorem handler_id_parsing {σ : Type} (web : Web) (svc : UserService σ) (c : Ctx) (s : σ) :
    (∀ n, ParseUint c.id 32 = some n ↔
        c.id ≠ "" ∧ (∀ ch ∈ c.id.toList, '0' ≤ ch ∧ ch ≤ '9') ∧
          decimalValue c.id.toList = n ∧ n ≤ 4294967295) ∧
      ParseUint "0" 32 = some 0 ∧
      (ParseUint c.id 32 = none →
        Handler.GetUser (recordingService svc) c (s, []) =
            ({ status := 400, body := .error "Invalid user ID" }, (s, [])) ∧
          Handler.UpdateUser web (recordingService svc) c (s, []) =
            ({ status := 400, body := .error "Invalid user ID" }, (s, [])) ∧
          Handler.DeleteUser (recordingService svc) c (s, []) =
            ({ status := 400, body := .error "Invalid user ID" }, (s, [])) ∧
          Handler.GetUserProfile (recordingService svc) c (s, []) =
            ({ status := 400, body := .error "Invalid user ID" }, (s, [])) ∧
          Handler.UpdateUserProfile web (recordingService svc) c (s, []) =
            ({ status := 400, body := .error "Invalid user ID" }, (s, []))) ∧
      (∀ n, ParseUint c.id 32 = some n →
        (Handler.GetUser (recordingService svc) c (s, [])).2.2 = [ServiceCall.GetUser n] ∧
          (Handler.DeleteUser (recordingService svc) c (s, [])).2.2 =
            [ServiceCall.DeleteUser n] ∧
          (Handler.GetUserProfile (recordingService svc) c (s, [])).2.2 =
            [ServiceCall.GetUser n] ∧
          (Handler.UpdateUser web (recordingService svc) c (s, [])).2.2 =
            (match web.parseUpdate c.body with
              | none => []
              | some req =>
                match web.validateUpdate req with
                | some _ => []
                | none => [ServiceCall.UpdateUser n req]) ∧
          (Handler.UpdateUserProfile web (recordingService svc) c (s, [])).2.2 =
            (match web.parseUpdate c.body with
              | none => []
              | some req =>
                match web.validateUpdate req with
                | some _ => []
                | none => [ServiceCall.UpdateUser n req])) := by
  refine ⟨fun n => ParseUint_eq_some_iff c.id n, by decide, ?_, ?_⟩
  · intro h
    unfold Handler.GetUser Handler.UpdateUser Handler.DeleteUser Handler.GetUserProfile
      Handler.UpdateUserProfile
    simp only [h, and_self]
  · intro n h
    unfold Handler.GetUser Handler.UpdateUser Handler.DeleteUser Handler.GetUserProfile
      Handler.UpdateUserProfile
    simp only [h, recordingService]
    refine ⟨?_, ?_, ?_, ?_, ?_⟩
    · rcases svc.GetUser n s with ⟨err | user, s1⟩ <;> rfl
    · rcases svc.DeleteUser n s with ⟨_ | err, s1⟩ <;> rfl
    · rcases svc.GetUser n s with ⟨err | user, s1⟩ <;> rfl
    · cases web.parseUpdate c.body with
      | none => rfl
      | some req =>
        simp only
        cases web.validateUpdate req with
        | some msg => rfl
        | none =>
          simp only
          rcases svc.UpdateUser n req s with ⟨err | user, s1⟩ <;> rfl
    · cases web.parseUpdate c.body with
      | none => rfl
      | some req =>
        simp only
        cases web.validateUpdate req with
        | some msg => rfl
        | none =>
          simp only
          rcases svc.UpdateUser n req s with ⟨err | user, s1⟩ <;> rfl

/-- Witness of C25 (amended): `invalid`, `-1`, `+1`, the empty string and
`4294967296` are refused without a service call; `4294967295`, `007` and `0`
are passed on as 4294967295, 7 and 0. -/
theorem handler_id_parsing_witness :
    ParseUint "invalid" 32 = none ∧ ParseUint "-1" 32 = none ∧ ParseUint "+1" 32 = none ∧
      ParseUint "" 32 = none ∧ ParseUint "4294967296" 32 = none ∧
      ParseUint "4294967295" 32 = some 4294967295 ∧ ParseUint "007" 32 = some 7 ∧
      Handler.GetUser (recordingService (NewUserService storeRepo sampleHash))
          ⟨"invalid", "", "", ""⟩ (sampleStore, []) =
        ({ status := 400, body := .error "Invalid user ID" }, (sampleStore, [])) ∧
      (Handler.GetUser (recordingService (NewUserService storeRepo sampleHash))
          ⟨"0", "", "", ""⟩ (sampleStore, [])).2.2 = [ServiceCall.GetUser 0] ∧
      (Handler.UpdateUser sampleWeb (recordingService (NewUserService storeRepo sampleHash))
          ⟨"1", "", "", "username=alicia"⟩ (sampleStore, [])).2.2 =
        [ServiceCall.UpdateUser 1 ⟨"alicia", ""⟩] :=
  ⟨by decide, by decide, by decide, by decide, by decide, by decide, by decide,
    ((handler_id_parsing sampleWeb (NewUserService storeRepo sampleHash)
      ⟨"invalid", "", "", ""⟩ sampleStore).2.2.1 (by decide)).1,
    ((handler_id_parsing sampleWeb (NewUserService storeRepo sampleHash)
      ⟨"0", "", "", ""⟩ sampleStore).2.2.2 0 (by decide)).1,
    by decide⟩

/-! ## The code's update rule and the specified one -/

/-- On a table with unique usernames, the lookup by the username of a live
row answers a row with the same id. -/
theorem Store.GetByUsername_own (s : Store) (hu : s.Unique) (user : User)
    (hmem : user ∈ s.rows) (hlive : user.live = true) :
    ∃ found, s.GetByUsername user.Username = .ok found ∧ found.ID = user.ID := by
  obtain ⟨found, hf, hfm, hfl, hfn⟩ := s.GetByUsername_of_mem user.Username user hmem hlive rfl
  refine ⟨found, hf, ?_⟩
  by_contra hne
  have hdiff : found ≠ user := fun e => hne (by rw [e])
  exact (hu.ne hfm hmem hdiff hfl hlive).1 hfn

/-- On a table with unique emails, the lookup by the email of a live row
answers a row with the same id. -/
theorem Store.GetByEmail_own (s : Store) (hu : s.Unique) (user : User)
    (hmem : user ∈ s.rows) (hlive : user.live = true) :
    ∃ found, s.GetByEmail user.Email = .ok found ∧ found.ID = user.ID := by
  obtain ⟨found, hf, hfm, hfl, hfn⟩ := s.GetByEmail_of_mem user.Email user hmem hlive rfl
  refine ⟨found, hf, ?_⟩
  by_contra hne
  have hdiff : found ≠ user := fun e => hne (by rw [e])
  exact (hu.ne hfm hmem hdiff hfl hlive).2 hfn

/-- On a table with unique usernames the username block of the code and the
username step of the specification agree on the fetched row. -/
theorem applyUsername_eq_spec (s : Store) (hu : s.Unique) (id : Nat) (req : UpdateUserRequest)
    (user : User) (hget : s.GetByID id = .ok user) :
    applyUsername storeRepo id req user s = specApplyUsername storeRepo id req user s := by
  obtain ⟨hmem, hlive, hid⟩ := s.GetByID_ok id user hget
  unfold applyUsername specApplyUsername
  by_cases hn : req.Username ≠ ""
  · by_cases hsame : req.Username ≠ user.Username
    · rw [if_pos hn, if_pos ⟨hn, hsame⟩]
    · rw [if_pos hn, if_neg (fun h => hsame h.2)]
      have heq : req.Username = user.Username := not_not.1 hsame
      obtain ⟨found, hf, hfid⟩ := s.GetByUsername_own hu user hmem hlive
      have hlook : storeRepo.GetByUsername req.Username s = (.ok found, s) := by
        show (s.GetByUsername req.Username, s) = _
        rw [heq, hf]
      rw [hlook]
      simp only
      rw [if_neg (by rw [hfid, hid]; exact fun h => h rfl), heq]
  · rw [if_neg hn, if_neg (fun h => hn h.1)]

/-- On a table with unique emails the email block of the code and the email
step of the specification agree on a user that carries the email of the
fetched row. -/
theorem applyEmail_eq_spec (s : Store) (hu : s.Unique) (id : Nat) (req : UpdateUserRequest)
    (user user1 : User) (hget : s.GetByID id = .ok user) (hemail : user1.Email = user.Email) :
    applyEmail storeRepo id req user1 s = specApplyEmail storeRepo id req user1 s := by
  obtain ⟨hmem, hlive, hid⟩ := s.GetByID_ok id user hget
  unfold applyEmail specApplyEmail
  by_cases hn : req.Email ≠ ""
  · by_cases hsame : req.Email ≠ user1.Email
    · rw [if_pos hn, if_pos ⟨hn, hsame⟩]
    · rw [if_pos hn, if_neg (fun h => hsame h.2)]
      have heq : req.Email = user1.Email := not_not.1 hsame
      obtain ⟨found, hf, hfid⟩ := s.GetByEmail_own hu user hmem hlive
      have hlook : storeRepo.GetByEmail req.Email s = (.ok found, s) := by
        show (s.GetByEmail req.Email, s) = _
        rw [heq, hemail, hf]
      rw [hlook]
      simp only
      rw [if_neg (by rw [hfid, hid]; exact fun h => h rfl), heq]
  · rw [if_neg hn, if_neg (fun h => hn h.1)]

/-- C27: on every table in which no two live rows share a username or an
email, `UpdateUser` as coded (lookup whenever the field is non-empty) and
`UpdateUser` as specified (lookup only when the field is non-empty and
differs from the current value) return the same result and leave the same
table. In particular, with `req.Username` equal to the target's current
username the call raises no "username already exists" and a successful call
leaves the username as it was, in the response and in the row; likewise for
the email; and a request repeating both current values succeeds. -/
theorem UpdateUser_refines_spec (id : Nat) (req : UpdateUserRequest) (s : Store)
    (hu : s.Unique) :
    UpdateUser storeRepo id req s = specUpdateUser storeRepo id req s ∧
      (∀ user, s.GetByID id = .ok user → req.Username = user.Username →
        (UpdateUser storeRepo id req s).1 ≠ .error (Error.New "username already exists") ∧
        ∀ resp s1, UpdateUser storeRepo id req s = (.ok resp, s1) →
          resp.Username = user.Username ∧ (GetUser storeRepo id s1).1 = .ok resp) ∧
      (∀ user, s.GetByID id = .ok user → req.Email = user.Email →
        (UpdateUser storeRepo id req s).1 ≠ .error (Error.New "email already exists") ∧
        ∀ resp s1, UpdateUser storeRepo id req s = (.ok resp, s1) →
          resp.Email = user.Email ∧ (GetUser storeRepo id s1).1 = .ok resp) ∧
      (∀ user, s.GetByID id = .ok user → req.Username = user.Username →
        req.Email = user.Email →
        ∃ resp s1, UpdateUser storeRepo id req s = (.ok resp, s1) ∧
          resp.Username = user.Username ∧ resp.Email = user.Email) := by
  have hgid : storeRepo.GetByID id s = (s.GetByID id, s) := rfl
  have hmain : UpdateUser storeRepo id req s = specUpdateUser storeRepo id req s := by
    unfold UpdateUser specUpdateUser
    rw [hgid]
    rcases hget : s.GetByID id with e | user
    · rfl
    · simp only
      rw [← applyUsername_eq_spec s hu id req user hget]
      have hs1 := applyUsername_storeRepo_state id req user s
      rcases h1 : applyUsername storeRepo id req user s with ⟨_ | user1, s2⟩
      · rfl
      · rw [h1] at hs1
        simp only at hs1
        subst hs1
        have hu1 := applyUsername_eq_some storeRepo id req user user1 s2 (by rw [h1])
        have hemail : user1.Email = user.Email := by rw [hu1]
        simp only
        rw [← applyEmail_eq_spec s2 hu id req user user1 hget hemail]
  have hresp : ∀ user resp s1, s.GetByID id = .ok user →
      UpdateUser storeRepo id req s = (.ok resp, s1) →
      resp.Username = (if req.Username ≠ "" then req.Username else user.Username) ∧
        resp.Email = (if req.Email ≠ "" then req.Email else user.Email) ∧
        (GetUser storeRepo id s1).1 = .ok resp := by
    intro user resp s1 hget hok
    obtain ⟨user0, user1, user2, hget0, h1, h2, hs1, hr⟩ :=
      UpdateUser_storeRepo_ok id req s s1 resp hok
    rw [hget] at hget0
    simp only [Except.ok.injEq] at hget0
    subst hget0
    obtain ⟨hmem, hlive, hid⟩ := s.GetByID_ok id user hget
    have hu1 := applyUsername_eq_some storeRepo id req user user1 s h1
    have hu2 := applyEmail_eq_some storeRepo id req user1 user2 s h2
    have hid2 : user2.ID = id := by rw [hu2, hu1]; exact hid
    have hlive2 : user2.live = true := by rw [hu2, hu1]; exact hlive
    have hex : ∃ r ∈ s.rows, r.ID = user2.ID := ⟨user, hmem, by rw [hid2, hid]⟩
    have hupd := Store.Update_of_mem s user2 hex
    have hread := Store.GetByID_after_Update s user2 hex hlive2
    rw [hupd] at hr
    simp only [toUserResponse] at hr
    refine ⟨by rw [hr, hu2, hu1], by rw [hr, hu2, hu1], ?_⟩
    unfold GetUser
    have hg : storeRepo.GetByID id s1 = (s1.GetByID id, s1) := rfl
    rw [hg, hs1, ← hid2, hread, hr]
    rfl
  have hname : ∀ user, s.GetByID id = .ok user → req.Username = user.Username →
      applyUsername storeRepo id req user s = (some user, s) := by
    intro user hget heq
    rw [applyUsername_eq_spec s hu id req user hget]
    unfold specApplyUsername
    rw [if_neg (fun h => h.2 heq)]
  have hmail : ∀ user user1, s.GetByID id = .ok user → user1.Email = user.Email →
      req.Email = user.Email → applyEmail storeRepo id req user1 s = (some user1, s) := by
    intro user user1 hget h1 heq
    rw [applyEmail_eq_spec s hu id req user user1 hget h1]
    unfold specApplyEmail
    rw [if_neg (fun h => h.2 (by rw [heq, h1]))]
  refine ⟨hmain, ?_, ?_, ?_⟩
  · intro user hget heq
    refine ⟨?_, fun resp s1 hok => ?_⟩
    · unfold UpdateUser
      rw [hgid, hget]
      simp only
      rw [hname user hget heq]
      simp only
      rcases h2 : applyEmail storeRepo id req user s with ⟨_ | user2, s3⟩
      · simp only [ne_eq, Except.error.injEq, Error.New.injEq]
        decide
      · simp only
        have hupd : storeRepo.Update user2 s3 = s3.Update user2 := rfl
        have hok := s3.Update_ok user2
        rw [hupd]
        rcases h3 : s3.Update user2 with ⟨⟨u, _ | err⟩, s4⟩ <;> rw [h3] at hok
        · simp
        · simp at hok
    · obtain ⟨h1, -, h3⟩ := hresp user resp s1 hget hok
      refine ⟨?_, h3⟩
      rw [h1]
      split_ifs
      · exact heq
      · rfl
  · intro user hget heq
    refine ⟨?_, fun resp s1 hok => ?_⟩
    · unfold UpdateUser
      rw [hgid, hget]
      simp only
      have hs1 := applyUsername_storeRepo_state id req user s
      rcases h1 : applyUsername storeRepo id req user s with ⟨_ | user1, s2⟩
      · simp only [ne_eq, Except.error.injEq, Error.New.injEq]
        decide
      · rw [h1] at hs1
        simp only at hs1
        subst hs1
        have hu1 := applyUsername_eq_some storeRepo id req user user1 s2 (by rw [h1])
        simp only
        rw [hmail user user1 hget (by rw [hu1]) heq]
        simp only
        have hupd : storeRepo.Update user1 s2 = s2.Update user1 := rfl
        have hok := s2.Update_ok user1
        rw [hupd]
        rcases h3 : s2.Update user1 with ⟨⟨u, _ | err⟩, s4⟩ <;> rw [h3] at hok
        · simp
        · simp at hok
    · obtain ⟨-, h2, h3⟩ := hresp user resp s1 hget hok
      refine ⟨?_, h3⟩
      rw [h2]
      split_ifs
      · exact heq
      · rfl
  · intro user hget hn he
    have hstep : UpdateUser storeRepo id req s =
        (.ok (toUserResponse (s.Update user).1.1), (s.Update user).2) := by
      unfold UpdateUser
      rw [hgid, hget]
      simp only
      rw [hname user hget hn]
      simp only
      rw [hmail user user hget rfl he]
      simp only
      have hupd : storeRepo.Update user s = s.Update user := rfl
      have hok := s.Update_ok user
      rw [hupd]
      rcases h3 : s.Update user with ⟨⟨u, _ | err⟩, s4⟩
      · rfl
      · rw [h3] at hok
        simp at hok
    obtain ⟨h1, h2, -⟩ := hresp user _ _ hget hstep
    refine ⟨_, _, hstep, ?_, ?_⟩
    · rw [h1]
      split_ifs
      · exact hn
      · rfl
    · rw [h2]
      split_ifs
      · exact he
      · rfl

/-- Witness of C27: alice sends her own username and email again; the update
succeeds and changes neither. -/
theorem UpdateUser_refines_spec_witness :
    sampleStore.Unique ∧
      UpdateUser storeRepo 1 ⟨"alice", "a@x.com"⟩ sampleStore =
        specUpdateUser storeRepo 1 ⟨"alice", "a@x.com"⟩ sampleStore ∧
      (UpdateUser storeRepo 1 ⟨"alice", "a@x.com"⟩ sampleStore).1 =
        .ok { ID := 1, Username := "alice", Email := "a@x.com", CreatedAt := 0,
              UpdatedAt := 2 } :=
  ⟨by decide,
    (UpdateUser_refines_spec 1 ⟨"alice", "a@x.com"⟩ sampleStore (by decide)).1,
    by decide⟩

end GoKitBase
